import Mathlib

/-!
# Matrix-multiplication benchmark harness: kernels, statistics and sampling controller

Shallow embedding of the five programs of the repository

* `sequential_final.cpp`                  (namespace `SequentialFinal`)
* `Final/parallel.cpp`                    (namespace `Parallel`)
* `Final/optimized_parallel.cpp`          (namespace `OptimizedParallel`)
* `optimized_parallel_avx_summary.cpp`    (namespace `AvxSummary`)
* `optimized_parallel_new_summary.cpp`    (namespace `NewSummary`)

Modelling conventions.

* The arithmetic of `double` is modelled twice.  In the sections on the kernels and on the
  statistics a C++ `double` is an element of an arbitrary linearly ordered field `K` with a
  floor function: exact arithmetic, without rounding, infinities or NaN; `sqrt` is then a
  parameter `sqrt : K → K`, `pow (x, 2.0)` is `x ^ 2` and `ceil` followed by the conversion
  to `int` is `Int.ceil`.  What is proved of these definitions is proved of the program in
  exact arithmetic.  In the namespace `Binary64` the statistics are defined once more with
  the rounding of IEEE 754 binary64, the arithmetic the compiled program has; where the two
  differ, a statement about the rounded arithmetic says so.
* A C++ `long` or `int` is an element of `Int`; in the namespace `Binary64` a `long` wraps
  at 64 bits.
* A division whose divisor is zero has no value in exact arithmetic: the functions that
  divide return `Option`, and `none` means "the source divides by zero here" (the source
  has no check and no error path; IEEE arithmetic would produce an infinity or a NaN).
* A `double**` matrix is a function `Nat → Nat → K` from row and column to the stored
  value; an in-place write is a functional update.
* One call `matMultiply (size)` yields a wall-clock duration that no computation
  determines.  It is an oracle `matMultiply : Nat → _`: the value returned by the `k`-th
  call (counting from 0) made while one matrix size is processed.
* `#pragma omp parallel for` over the rows is modelled by an arbitrary order `rowOrder`
  in which the row iterations are executed.
-/

/-- A `double**` matrix: `m row col` is the value stored at `m[row][col]`. -/
abbrev Matrix2D (K : Type) : Type := Nat → Nat → K

section Kernels

variable {K : Type} [LinearOrderedField K] [FloorRing K]

/-- The assignment `m[i][j] = v`. -/
def setCell (m : Matrix2D K) (i j : Nat) (v : K) : Matrix2D K :=
  fun a b => if a = i ∧ b = j then v else m a b

/-- The call `std::swap (matrix[row][col], matrix[col][row])`. -/
def swapCells (matrix : Matrix2D K) (row col : Nat) : Matrix2D K :=
  fun a b =>
    if a = row ∧ b = col then matrix col row
    else if a = col ∧ b = row then matrix row col
    else matrix a b

/-- The pairs `(row, col)` visited by the loop nest of `getTranspose`,
`for (row = 0; row < size; row++) for (col = row+1; col < size; col++)`,
in execution order. -/
def transposeSwaps (size : Nat) : List (Nat × Nat) :=
  (List.range size).flatMap fun row =>
    (List.range' (row + 1) (size - (row + 1))).map fun col => (row, col)

/-- The function `getTranspose (matrix, size)` of `optimized_parallel.cpp`,
`optimized_parallel_avx_summary.cpp` and `optimized_parallel_new_summary.cpp`:
one `std::swap` per visited pair, in order; the result is the matrix after the loops. -/
def getTranspose (matrix : Matrix2D K) (size : Nat) : Matrix2D K :=
  (transposeSwaps size).foldl (fun m p => swapCells m p.1 p.2) matrix

/-- The values taken by `k` in `for (int k = start; k < size; k += width)`, in execution
order.  The kernels use `width = 4` (AVX) and `width = 2` (SSE) with `start = 0`; the
test `0 < width` only makes the definition total. -/
def loadOffsets (width size k : Nat) : List Nat :=
  if k < size ∧ 0 < width then k :: loadOffsets width size (k + width) else []
termination_by size - k
decreasing_by omega

/-- A vector load of `width` doubles starting at element `k` of a row buffer that holds
`size` entries reads the elements `k .. k + width - 1`; it stays inside the buffer when
the last of them has an index below `size`. -/
def loadInBounds (width size k : Nat) : Prop := k + width ≤ size

instance (width size k : Nat) : Decidable (loadInBounds width size k) :=
  inferInstanceAs (Decidable (k + width ≤ size))

/-- The type `__m256d`: four `double` lanes. -/
structure M256d (K : Type) where
  d0 : K
  d1 : K
  d2 : K
  d3 : K

/-- The type `__m128d`: two `double` lanes. -/
structure M128d (K : Type) where
  d0 : K
  d1 : K

/-- The intrinsic `_mm256_setzero_pd ()`. -/
def mm256_setzero_pd : M256d K := ⟨0, 0, 0, 0⟩

/-- The intrinsic `__builtin_ia32_loadupd256 (&row[k])`. -/
def loadupd256 (row : Nat → K) (k : Nat) : M256d K :=
  ⟨row k, row (k + 1), row (k + 2), row (k + 3)⟩

/-- The intrinsic `__builtin_ia32_mulpd256`. -/
def mulpd256 (a b : M256d K) : M256d K :=
  ⟨a.d0 * b.d0, a.d1 * b.d1, a.d2 * b.d2, a.d3 * b.d3⟩

/-- The intrinsic `__builtin_ia32_addpd256`. -/
def addpd256 (a b : M256d K) : M256d K :=
  ⟨a.d0 + b.d0, a.d1 + b.d1, a.d2 + b.d2, a.d3 + b.d3⟩

/-- The intrinsic `_mm_setzero_pd ()`. -/
def mm_setzero_pd : M128d K := ⟨0, 0⟩

/-- The intrinsic `_mm_load_pd (&row[k])`. -/
def mm_load_pd (row : Nat → K) (k : Nat) : M128d K := ⟨row k, row (k + 1)⟩

/-- The intrinsic `_mm_mul_pd`. -/
def mm_mul_pd (a b : M128d K) : M128d K := ⟨a.d0 * b.d0, a.d1 * b.d1⟩

/-- The intrinsic `_mm_add_pd`. -/
def mm_add_pd (a b : M128d K) : M128d K := ⟨a.d0 + b.d0, a.d1 + b.d1⟩

/-- The intrinsic `_mm_hadd_pd`: the low lane is the sum of the lanes of the first
operand, the high lane the sum of the lanes of the second. -/
def mm_hadd_pd (a b : M128d K) : M128d K := ⟨a.d0 + a.d1, b.d0 + b.d1⟩

/-- The memory a kernel leaves behind: its operands and its result matrix. -/
structure KernelState (K : Type) where
  matA : Matrix2D K
  matB : Matrix2D K
  matC : Matrix2D K

namespace SequentialFinal

/-- The function `multiply` of `sequential_final.cpp`, lines 47 to 54: the triple loop.
`resMat` is the content of the freshly allocated result matrix. -/
def multiply (matA matB : Matrix2D K) (size : Nat) (resMat : Matrix2D K) : KernelState K :=
  { matA := matA
    matB := matB
    matC :=
      (List.range size).foldl (fun resMat i =>
        (List.range size).foldl (fun resMat j =>
          (List.range size).foldl
            (fun resMat cur => setCell resMat i j (resMat i j + matA i cur * matB cur j))
            (setCell resMat i j 0)) resMat) resMat }

end SequentialFinal

namespace Parallel

/-- The function `multiply` of `Final/parallel.cpp`, lines 47 to 55: the same triple loop
under `#pragma omp parallel for`; the row iterations run in the order `rowOrder`. -/
def multiply (rowOrder : List Nat) (matA matB : Matrix2D K) (size : Nat)
    (resMat : Matrix2D K) : KernelState K :=
  { matA := matA
    matB := matB
    matC :=
      rowOrder.foldl (fun resMat row =>
        (List.range size).foldl (fun resMat col =>
          (List.range size).foldl
            (fun resMat cur => setCell resMat row col (resMat row col + matA row cur * matB cur col))
            (setCell resMat row col 0)) resMat) resMat }

end Parallel

/-- The function `mat_multiply_avx` of `Final/optimized_parallel.cpp` (lines 60 to 74) and
of `optimized_parallel_avx_summary.cpp`: `matB` is transposed in place, then every cell
is accumulated four lanes at a time and the lanes are added up. -/
def mat_multiply_avx (rowOrder : List Nat) (matA matB : Matrix2D K) (size : Nat)
    (matC : Matrix2D K) : KernelState K :=
  let trans_matB := getTranspose matB size
  { matA := matA
    matB := trans_matB
    matC :=
      rowOrder.foldl (fun matC i =>
        (List.range size).foldl (fun matC j =>
          let c := (loadOffsets 4 size 0).foldl
            (fun c k => addpd256 c (mulpd256 (loadupd256 (matA i) k) (loadupd256 (trans_matB j) k)))
            mm256_setzero_pd
          setCell matC i j (c.d0 + c.d1 + c.d2 + c.d3)) matC) matC }

/-- The function `mat_multiply_compiler_intrinsics` of
`optimized_parallel_new_summary.cpp`, lines 65 to 78: `matB` is transposed in place, every
cell is accumulated two lanes at a time, `_mm_hadd_pd (c, c)` adds the lanes and
`_mm_store_sd` writes the low lane. -/
def mat_multiply_compiler_intrinsics (rowOrder : List Nat) (matA matB : Matrix2D K)
    (size : Nat) (matC : Matrix2D K) : KernelState K :=
  let trans_matB := getTranspose matB size
  { matA := matA
    matB := trans_matB
    matC :=
      rowOrder.foldl (fun matC i =>
        (List.range size).foldl (fun matC j =>
          let c := (loadOffsets 2 size 0).foldl
            (fun c k => mm_add_pd c (mm_mul_pd (mm_load_pd (matA i) k) (mm_load_pd (trans_matB j) k)))
            mm_setzero_pd
          let c := mm_hadd_pd c c
          setCell matC i j c.d0) matC) matC }

/-- The ordinary matrix product, cell `(i, j)`: the sum over `k < n` of
`A[i][k] * B[k][j]` (the naive triple-sum definition the kernels are compared with). -/
def naiveProduct (A B : Matrix2D K) (n i j : Nat) : K :=
  ∑ k in Finset.range n, A i k * B k j

end Kernels

section Statistics

variable {K : Type} [LinearOrderedField K] [FloorRing K]

/-- The function `getMean (double* runningTimes, int size)` of `Final/parallel.cpp`,
`Final/optimized_parallel.cpp` and `optimized_parallel_avx_summary.cpp`:
the samples are added up in a `double` and the sum is divided by `size`. -/
def getMean (runningTimes : Nat → K) (size : Nat) : Option K :=
  let sum : K := (List.range size).foldl (fun sum i => sum + runningTimes i) 0
  if size = 0 then none else some (sum / (size : K))

/-- The function `getMean (long* runningTimes, int size)` of `sequential_final.cpp` and
`optimized_parallel_new_summary.cpp`: the samples are added up in a `long`, the sum is
assigned to a `double` and then divided by `size`. -/
def getMeanLong (K : Type) [LinearOrderedField K] (runningTimes : Nat → Int) (size : Nat) :
    Option K :=
  let sum : Int := (List.range size).foldl (fun sum i => sum + runningTimes i) 0
  let mean : K := (sum : K)
  if size = 0 then none else some (mean / (size : K))

/-- The function `getSD (double* runningTimes, int size, double mean)` of the three
`double` variants: the value of the local `sd` when the closing brace is reached (the
source has no `return` statement; `sd` is what a caller compiled in the usual way
receives).  The divisor `size - 1` is computed in `int`. -/
def getSD (sqrt : K → K) (runningTimes : Nat → K) (size : Nat) (mean : K) : Option K :=
  let variance : K :=
    (List.range size).foldl (fun variance i => variance + (runningTimes i - mean) ^ 2) 0
  if (size : Int) - 1 = 0 then none
  else some (sqrt (variance / (((size : Int) - 1 : Int) : K)))

/-- The function `getSD (long* runningTimes, int size, double mean)` of the two `long`
variants; each sample is converted to `double` by the subtraction. -/
def getSDLong (sqrt : K → K) (runningTimes : Nat → Int) (size : Nat) (mean : K) : Option K :=
  let variance : K :=
    (List.range size).foldl (fun variance i => variance + ((runningTimes i : K) - mean) ^ 2) 0
  if (size : Int) - 1 = 0 then none
  else some (sqrt (variance / (((size : Int) - 1 : Int) : K)))

/-- The expression `ceil (pow (((100*1.960*sd)/(5*mean)), 2.0))` converted to `int`, which
every `main` assigns to `noOfRequiredSamples` (line 135 of `sequential_final.cpp`, 139 of
`parallel.cpp`, 153 of `optimized_parallel.cpp`, 157 of the two summary variants). -/
def requiredSamples (sd mean : K) : Option Int :=
  if 5 * mean = 0 then none else some ⌈((100 * 1.960 * sd) / (5 * mean)) ^ 2⌉

/-- What `main` has done for one matrix size when the body of its `for` loop ends. -/
structure Run (K : Type) where
  /-- The `else` branch (the second round of trials) was executed. -/
  confirmation : Bool
  /-- The number of calls of `matMultiply` made for this size. -/
  trials : Nat
  /-- The local `noOfRequiredSamples`. -/
  noOfRequiredSamples : Int
  /-- The value stored in `noOfSamples[x/100 - 1]`. -/
  noOfSamples : Int
  /-- The value stored in `sampleMean[x/100 - 1]` (`meanRunTime` in `sequential_final.cpp`). -/
  sampleMean : K
  /-- The value stored in `sampleStandardDeviation[x/100 - 1]`. -/
  sampleStandardDeviation : K

namespace SequentialFinal

/-- The initialiser of `noOfInitialSamples` in `sequential_final.cpp`. -/
def noOfInitialSamples : Nat := 5

/-- Lines 135 to 157 of `sequential_final.cpp`: from the computation of
`noOfRequiredSamples` to the three stores.  `mean` and `sd` are the statistics of the
first round; the second round takes the calls `noOfInitialSamples, ...` of the oracle. -/
def afterPilot (noOfInitialSamples : Nat) (matMultiply : Nat → Int) (mean sd : K) :
    Option (Run K) := do
  let noOfRequiredSamples ← requiredSamples sd mean
  if noOfRequiredSamples < (noOfInitialSamples : Int) then
    some { confirmation := false
           trials := noOfInitialSamples
           noOfRequiredSamples := noOfRequiredSamples
           noOfSamples := noOfRequiredSamples
           sampleMean := mean
           sampleStandardDeviation := sd }
  else
    let runningTimes : Nat → Int := fun i => matMultiply (noOfInitialSamples + i)
    let mean ← getMeanLong K runningTimes noOfRequiredSamples.toNat
    some { confirmation := true
           trials := noOfInitialSamples + noOfRequiredSamples.toNat
           noOfRequiredSamples := noOfRequiredSamples
           noOfSamples := noOfRequiredSamples
           sampleMean := mean
           sampleStandardDeviation := sd }

/-- Lines 125 to 157 of `sequential_final.cpp`: the body of the `for` loop over the
matrix sizes. -/
def mainBody (sqrt : K → K) (noOfInitialSamples : Nat) (matMultiply : Nat → Int) :
    Option (Run K) := do
  let runningTimes : Nat → Int := fun i => matMultiply i
  let mean ← getMeanLong K runningTimes noOfInitialSamples
  let sd ← getSDLong sqrt runningTimes noOfInitialSamples mean
  afterPilot noOfInitialSamples matMultiply mean sd

end SequentialFinal

namespace Parallel

/-- The initialiser of `noOfInitialSamples` in `Final/parallel.cpp`. -/
def noOfInitialSamples : Nat := 10

/-- Lines 139 to 163 of `Final/parallel.cpp`. -/
def afterPilot (noOfInitialSamples : Nat) (matMultiply : Nat → K) (mean sd : K) :
    Option (Run K) := do
  let noOfRequiredSamples ← requiredSamples sd mean
  if noOfRequiredSamples < (noOfInitialSamples : Int) then
    some { confirmation := false
           trials := noOfInitialSamples
           noOfRequiredSamples := noOfRequiredSamples
           noOfSamples := noOfInitialSamples
           sampleMean := mean
           sampleStandardDeviation := sd }
  else
    let runningTimes : Nat → K := fun i => matMultiply (noOfInitialSamples + i)
    let mean ← getMean runningTimes noOfRequiredSamples.toNat
    some { confirmation := true
           trials := noOfInitialSamples + noOfRequiredSamples.toNat
           noOfRequiredSamples := noOfRequiredSamples
           noOfSamples := noOfRequiredSamples
           sampleMean := mean
           sampleStandardDeviation := sd }

/-- Lines 129 to 163 of `Final/parallel.cpp`: the body of the `for` loop over the sizes. -/
def mainBody (sqrt : K → K) (noOfInitialSamples : Nat) (matMultiply : Nat → K) :
    Option (Run K) := do
  let runningTimes : Nat → K := fun i => matMultiply i
  let mean ← getMean runningTimes noOfInitialSamples
  let sd ← getSD sqrt runningTimes noOfInitialSamples mean
  afterPilot noOfInitialSamples matMultiply mean sd

end Parallel

namespace OptimizedParallel

/-- The initialiser of `noOfInitialSamples` in `Final/optimized_parallel.cpp`. -/
def noOfInitialSamples : Nat := 10

/-- Lines 153 to 179 of `Final/optimized_parallel.cpp`. -/
def afterPilot (sqrt : K → K) (noOfInitialSamples : Nat) (matMultiply : Nat → K)
    (mean sd : K) : Option (Run K) := do
  let noOfRequiredSamples ← requiredSamples sd mean
  if noOfRequiredSamples < (noOfInitialSamples : Int) then
    some { confirmation := false
           trials := noOfInitialSamples
           noOfRequiredSamples := noOfRequiredSamples
           noOfSamples := noOfInitialSamples
           sampleMean := mean
           sampleStandardDeviation := sd }
  else
    let runningTimes : Nat → K := fun i => matMultiply (noOfInitialSamples + i)
    let mean ← getMean runningTimes noOfRequiredSamples.toNat
    let sd ← getSD sqrt runningTimes noOfRequiredSamples.toNat mean
    some { confirmation := true
           trials := noOfInitialSamples + noOfRequiredSamples.toNat
           noOfRequiredSamples := noOfRequiredSamples
           noOfSamples := noOfRequiredSamples
           sampleMean := mean
           sampleStandardDeviation := sd }

/-- Lines 143 to 179 of `Final/optimized_parallel.cpp`: the body of the `for` loop. -/
def mainBody (sqrt : K → K) (noOfInitialSamples : Nat) (matMultiply : Nat → K) :
    Option (Run K) := do
  let runningTimes : Nat → K := fun i => matMultiply i
  let mean ← getMean runningTimes noOfInitialSamples
  let sd ← getSD sqrt runningTimes noOfInitialSamples mean
  afterPilot sqrt noOfInitialSamples matMultiply mean sd

end OptimizedParallel

namespace AvxSummary

/-- The initialiser of `noOfInitialSamples` in `optimized_parallel_avx_summary.cpp`. -/
def noOfInitialSamples : Nat := 10

/-- Lines 157 to 185 of `optimized_parallel_avx_summary.cpp`; each branch stores its own
three results.  The oracle gives what `runningTimes[i] = matMultiply (size)` stores
(`matMultiply` has no `return` statement in this file). -/
def afterPilot (sqrt : K → K) (noOfInitialSamples : Nat) (matMultiply : Nat → K)
    (mean sd : K) : Option (Run K) := do
  let noOfRequiredSamples ← requiredSamples sd mean
  if noOfRequiredSamples < (noOfInitialSamples : Int) then
    some { confirmation := false
           trials := noOfInitialSamples
           noOfRequiredSamples := noOfRequiredSamples
           noOfSamples := noOfInitialSamples
           sampleMean := mean
           sampleStandardDeviation := sd }
  else
    let runningTimes : Nat → K := fun i => matMultiply (noOfInitialSamples + i)
    let mean ← getMean runningTimes noOfRequiredSamples.toNat
    let sd ← getSD sqrt runningTimes noOfRequiredSamples.toNat mean
    some { confirmation := true
           trials := noOfInitialSamples + noOfRequiredSamples.toNat
           noOfRequiredSamples := noOfRequiredSamples
           noOfSamples := noOfRequiredSamples
           sampleMean := mean
           sampleStandardDeviation := sd }

/-- Lines 145 to 185 of `optimized_parallel_avx_summary.cpp`: the body of the `for` loop. -/
def mainBody (sqrt : K → K) (noOfInitialSamples : Nat) (matMultiply : Nat → K) :
    Option (Run K) := do
  let runningTimes : Nat → K := fun i => matMultiply i
  let mean ← getMean runningTimes noOfInitialSamples
  let sd ← getSD sqrt runningTimes noOfInitialSamples mean
  afterPilot sqrt noOfInitialSamples matMultiply mean sd

end AvxSummary

namespace NewSummary

/-- The initialiser of `noOfInitialSamples` in `optimized_parallel_new_summary.cpp`. -/
def noOfInitialSamples : Nat := 5

/-- Lines 157 to 185 of `optimized_parallel_new_summary.cpp`; each branch stores its own
three results.  The oracle gives what `runningTimes[i] = matMultiply (size)` stores
(`matMultiply` has no `return` statement in this file). -/
def afterPilot (sqrt : K → K) (noOfInitialSamples : Nat) (matMultiply : Nat → Int)
    (mean sd : K) : Option (Run K) := do
  let noOfRequiredSamples ← requiredSamples sd mean
  if noOfRequiredSamples < (noOfInitialSamples : Int) then
    some { confirmation := false
           trials := noOfInitialSamples
           noOfRequiredSamples := noOfRequiredSamples
           noOfSamples := noOfInitialSamples
           sampleMean := mean
           sampleStandardDeviation := sd }
  else
    let runningTimes : Nat → Int := fun i => matMultiply (noOfInitialSamples + i)
    let mean ← getMeanLong K runningTimes noOfRequiredSamples.toNat
    let sd ← getSDLong sqrt runningTimes noOfRequiredSamples.toNat mean
    some { confirmation := true
           trials := noOfInitialSamples + noOfRequiredSamples.toNat
           noOfRequiredSamples := noOfRequiredSamples
           noOfSamples := noOfRequiredSamples
           sampleMean := mean
           sampleStandardDeviation := sd }

/-- Lines 145 to 185 of `optimized_parallel_new_summary.cpp`: the body of the `for` loop. -/
def mainBody (sqrt : K → K) (noOfInitialSamples : Nat) (matMultiply : Nat → Int) :
    Option (Run K) := do
  let runningTimes : Nat → Int := fun i => matMultiply i
  let mean ← getMeanLong K runningTimes noOfInitialSamples
  let sd ← getSDLong sqrt runningTimes noOfInitialSamples mean
  afterPilot sqrt noOfInitialSamples matMultiply mean sd

end NewSummary

end Statistics

/-- An oracle for `matMultiply`, used to state concrete runs: the first calls return the
listed durations in order, every later call returns `later`. -/
def trialsOf {α : Type} (first : List α) (later : α) : Nat → α :=
  fun k => first.getD k later

/-- The error kinds the specification names in its error taxonomy. -/
inductive SpecError where
  | AllocationError
  | EmptyInputError
  | InsufficientSamplesError
  | DivisionByZeroError
  deriving DecidableEq

/-- How an evaluation of a function of the source ends for its caller.  The five programs
contain no `throw`, no `exit`, no assertion and no error return, so no function of the
source ends in `reported`; the constructor is there to state what the specification asks
for. -/
inductive Ending (α : Type) where
  /-- A value of exact arithmetic was computed. -/
  | returned (a : α)
  /-- A division was evaluated with the divisor zero (the result is an infinity or a NaN
  in IEEE arithmetic; it is not a number of exact arithmetic). -/
  | dividedByZero
  /-- An error was reported to the caller. -/
  | reported (e : SpecError)

/-- The ending of an evaluation of the embedding: `some a` is a computed value, `none`
is a division by zero that the source evaluates unchecked. -/
def ending {α : Type} : Option α → Ending α
  | some a => Ending.returned a
  | none => Ending.dividedByZero

/-- The four kinds of value a row of the summary table holds. -/
inductive Column where
  | matrixSize
  | sampleSize
  | mean
  | standardDeviation
  deriving DecidableEq

/-- One item inserted into `cout` by the summary loop: a string literal, an `int` or a
`double` expression (tagged with the column whose value the expression is), or `endl`. -/
inductive Piece (K : Type) where
  | literal (s : String)
  | intValue (c : Column) (v : Int)
  | realValue (c : Column) (v : K)
  | endl

/-- The column of a printed value; a literal and `endl` belong to no column. -/
def Piece.column {K : Type} : Piece K → Option Column
  | Piece.literal _ => none
  | Piece.intValue c _ => some c
  | Piece.realValue c _ => some c
  | Piece.endl => none

/-- The columns of the values of a row, in the order in which they are printed. -/
def rowColumns {K : Type} (row : List (Piece K)) : List Column :=
  row.filterMap Piece.column

/-- No value of the row is followed directly by another value: a literal stands between
any two consecutive values. -/
def fieldsSeparated {K : Type} : List (Piece K) → Bool
  | [] => true
  | [_] => true
  | a :: b :: rest =>
    (!(a.column.isSome && b.column.isSome)) && fieldsSeparated (b :: rest)

/-- The column a heading of the summary table names, for the headings the five sources
use. -/
def columnOfHeading (heading : String) : Option Column :=
  if heading = "matrix size" ∨ heading = "Matrix size" then some Column.matrixSize
  else if heading = "sample size" ∨ heading = "Sample size" then some Column.sampleSize
  else if heading = "mean" ∨ heading = "Mean" then some Column.mean
  else if heading = "Standard Deviation" then some Column.standardDeviation
  else none

/-- The header line consists of the given headings, in this order, with two tab
characters between consecutive headings. -/
def headerHasHeadings (header : String) (headings : List String) : Prop :=
  header = "\t\t".intercalate headings

instance (header : String) (headings : List String) :
    Decidable (headerHasHeadings header headings) :=
  inferInstanceAs (Decidable (header = "\t\t".intercalate headings))

section Summary

variable {K : Type}

namespace SequentialFinal

/-- The string literal printed as the header line, line 161 of `sequential_final.cpp`. -/
def summaryHeader : String := "matrix size\t\tStandard Deviation\t\tsample size\t\tmean"

/-- The insertions of line 163 of `sequential_final.cpp` for the loop index `i`. -/
def summaryRow (noOfSamples : Nat → Int) (meanRunTime sampleStandardDeviation : Nat → K)
    (i : Nat) : List (Piece K) :=
  [Piece.intValue Column.matrixSize (((i : Int) + 1) * 100), Piece.literal "\t\t\t",
   Piece.realValue Column.standardDeviation (sampleStandardDeviation i), Piece.literal "\t\t\t",
   Piece.intValue Column.sampleSize (noOfSamples i), Piece.literal "\t\t\t",
   Piece.realValue Column.mean (meanRunTime i), Piece.endl]

/-- The rows printed by the loop `for (int i = 0; i < 10; i++)` of lines 162 to 164. -/
def summaryRows (noOfSamples : Nat → Int) (meanRunTime sampleStandardDeviation : Nat → K) :
    List (List (Piece K)) :=
  (List.range 10).map (summaryRow noOfSamples meanRunTime sampleStandardDeviation)

end SequentialFinal

namespace Parallel

/-- The string literal printed as the header line, line 168 of `Final/parallel.cpp`. -/
def summaryHeader : String := "Matrix size\t\tStandard Deviation\t\tSample size\t\tMean"

/-- The insertions of line 170 of `Final/parallel.cpp` for the loop index `i`: two
literals follow the matrix size and none stands between the standard deviation and the
sample size. -/
def summaryRow (noOfSamples : Nat → Int) (sampleMean sampleStandardDeviation : Nat → K)
    (i : Nat) : List (Piece K) :=
  [Piece.intValue Column.matrixSize (((i : Int) + 1) * 100), Piece.literal "\t\t\t",
   Piece.literal "\t\t\t", Piece.realValue Column.standardDeviation (sampleStandardDeviation i),
   Piece.intValue Column.sampleSize (noOfSamples i), Piece.literal "\t\t\t",
   Piece.realValue Column.mean (sampleMean i), Piece.endl]

/-- The rows printed by the loop `for (int i = 0; i < 10; i++)` of lines 169 to 171. -/
def summaryRows (noOfSamples : Nat → Int) (sampleMean sampleStandardDeviation : Nat → K) :
    List (List (Piece K)) :=
  (List.range 10).map (summaryRow noOfSamples sampleMean sampleStandardDeviation)

end Parallel

namespace OptimizedParallel

/-- The string literal printed as the header line, line 184 of
`Final/optimized_parallel.cpp`. -/
def summaryHeader : String := "matrix size\t\tsample size\t\tmean\t\tStandard Deviation"

/-- The insertions of line 186 of `Final/optimized_parallel.cpp` for the loop index `i`. -/
def summaryRow (noOfSamples : Nat → Int) (sampleMean sampleStandardDeviation : Nat → K)
    (i : Nat) : List (Piece K) :=
  [Piece.intValue Column.matrixSize (((i : Int) + 1) * 100), Piece.literal "\t\t\t",
   Piece.intValue Column.sampleSize (noOfSamples i), Piece.literal "\t\t\t",
   Piece.realValue Column.mean (sampleMean i), Piece.literal "\t\t\t",
   Piece.realValue Column.standardDeviation (sampleStandardDeviation i), Piece.endl]

/-- The rows printed by the loop `for (int i = 0; i < 10; i++)` of lines 185 to 187. -/
def summaryRows (noOfSamples : Nat → Int) (sampleMean sampleStandardDeviation : Nat → K) :
    List (List (Piece K)) :=
  (List.range 10).map (summaryRow noOfSamples sampleMean sampleStandardDeviation)

end OptimizedParallel

namespace AvxSummary

/-- The string literal printed as the header line, line 190 of
`optimized_parallel_avx_summary.cpp`. -/
def summaryHeader : String := "matrix size\t\tsample size\t\tmean\t\tStandard Deviation"

/-- The insertions of line 192 of `optimized_parallel_avx_summary.cpp` for the loop
index `i`. -/
def summaryRow (noOfSamples : Nat → Int) (sampleMean sampleStandardDeviation : Nat → K)
    (i : Nat) : List (Piece K) :=
  [Piece.intValue Column.matrixSize (((i : Int) + 1) * 100), Piece.literal "\t\t\t",
   Piece.intValue Column.sampleSize (noOfSamples i), Piece.literal "\t\t\t",
   Piece.realValue Column.mean (sampleMean i), Piece.literal "\t\t\t",
   Piece.realValue Column.standardDeviation (sampleStandardDeviation i), Piece.endl]

/-- The rows printed by the loop `for (int i = 0; i < 10; i++)` of lines 191 to 193. -/
def summaryRows (noOfSamples : Nat → Int) (sampleMean sampleStandardDeviation : Nat → K) :
    List (List (Piece K)) :=
  (List.range 10).map (summaryRow noOfSamples sampleMean sampleStandardDeviation)

end AvxSummary

namespace NewSummary

/-- The string literal printed as the header line, line 190 of
`optimized_parallel_new_summary.cpp`. -/
def summaryHeader : String := "matrix size\t\tsample size\t\tmean\t\tStandard Deviation"

/-- The insertions of line 192 of `optimized_parallel_new_summary.cpp` for the loop
index `i`. -/
def summaryRow (noOfSamples : Nat → Int) (sampleMean sampleStandardDeviation : Nat → K)
    (i : Nat) : List (Piece K) :=
  [Piece.intValue Column.matrixSize (((i : Int) + 1) * 100), Piece.literal "\t\t\t",
   Piece.intValue Column.sampleSize (noOfSamples i), Piece.literal "\t\t\t",
   Piece.realValue Column.mean (sampleMean i), Piece.literal "\t\t\t",
   Piece.realValue Column.standardDeviation (sampleStandardDeviation i), Piece.endl]

/-- The rows printed by the loop `for (int i = 0; i < 10; i++)` of lines 191 to 193. -/
def summaryRows (noOfSamples : Nat → Int) (sampleMean sampleStandardDeviation : Nat → K) :
    List (List (Piece K)) :=
  (List.range 10).map (summaryRow noOfSamples sampleMean sampleStandardDeviation)

end NewSummary

end Summary

/-- The column order matrix size, sample size, mean, standard deviation. -/
def sizeCountMeanDeviation : List Column :=
  [Column.matrixSize, Column.sampleSize, Column.mean, Column.standardDeviation]

/-- The column order matrix size, standard deviation, sample size, mean. -/
def sizeDeviationCountMean : List Column :=
  [Column.matrixSize, Column.standardDeviation, Column.sampleSize, Column.mean]

/-- The matrix sizes `100, 200, ..., 1000`, each as the first item of a row. -/
def tenSizes (K : Type) : List (Option (Piece K)) :=
  (List.range 10).map fun i => some (Piece.intValue Column.matrixSize (((i : Int) + 1) * 100))

/-- How the body of a value-returning C++ function ends: with a `return` statement that
hands a value to the caller, or at its closing brace without one. -/
inductive FunctionClose (α : Type) where
  | returnStatement (a : α)
  | closingBrace

/-- The value of the call expression in the caller.  After a `return` statement it is the
operand of `return`.  After a body that reached its closing brace the language gives the
call no value, and the caller reads what the return register happens to hold, `leftover`,
which no statement of the called function has set. -/
def FunctionClose.valueAtCaller {α : Type} (leftover : α) : FunctionClose α → α
  | FunctionClose.returnStatement a => a
  | FunctionClose.closingBrace => leftover

section Wrappers

variable {K : Type}

namespace SequentialFinal

/-- The function `matMultiply` of `sequential_final.cpp`, lines 70 to 78: two matrices are
created and populated and the last statement is `return multiply (matA, matB, size);`.
`multiply size` is the value that call of the kernel returns. -/
def matMultiply (multiply : Nat → Int) (size : Nat) : FunctionClose Int :=
  FunctionClose.returnStatement (multiply size)

/-- The statement `runningTimes[i] = matMultiply (size)` of `main` in
`sequential_final.cpp`: the value stored for the call number `k`, in which the kernel
returns `multiply k size`. -/
def storedDuration (multiply : Nat → Nat → Int) (leftover : Nat → Int) (size k : Nat) : Int :=
  (matMultiply (multiply k) size).valueAtCaller (leftover k)

end SequentialFinal

namespace Parallel

/-- The function `matMultiply` of `Final/parallel.cpp`, lines 71 to 79: the last statement
is `return multiply (matA, matB, size);`. -/
def matMultiply (multiply : Nat → K) (size : Nat) : FunctionClose K :=
  FunctionClose.returnStatement (multiply size)

/-- The statement `runningTimes[i] = matMultiply (size)` of `main` in `Final/parallel.cpp`:
the value stored for the call number `k`. -/
def storedDuration (multiply : Nat → Nat → K) (leftover : Nat → K) (size k : Nat) : K :=
  (matMultiply (multiply k) size).valueAtCaller (leftover k)

end Parallel

namespace OptimizedParallel

/-- The function `matMultiply` of `Final/optimized_parallel.cpp`, lines 89 to 95: the last
statement is `return mat_multiply_avx (matA, matB, size);`. -/
def matMultiply (mat_multiply_avx : Nat → K) (size : Nat) : FunctionClose K :=
  FunctionClose.returnStatement (mat_multiply_avx size)

/-- The statement `runningTimes[i] = matMultiply (size)` of `main` in
`Final/optimized_parallel.cpp`: the value stored for the call number `k`. -/
def storedDuration (mat_multiply_avx : Nat → Nat → K) (leftover : Nat → K) (size k : Nat) :
    K :=
  (matMultiply (mat_multiply_avx k) size).valueAtCaller (leftover k)

end OptimizedParallel

namespace AvxSummary

/-- The function `matMultiply` of `optimized_parallel_avx_summary.cpp`, lines 94 to 100:
the last statement is the call `mat_multiply_avx (matA, matB, size);` without `return`;
the kernel runs, its value is dropped and the closing brace follows. -/
def matMultiply (mat_multiply_avx : Nat → K) (size : Nat) : FunctionClose K :=
  let _duration : K := mat_multiply_avx size
  FunctionClose.closingBrace

/-- The statement `runningTimes[i] = matMultiply (size)` of `main` in
`optimized_parallel_avx_summary.cpp`: the value stored for the call number `k`. -/
def storedDuration (mat_multiply_avx : Nat → Nat → K) (leftover : Nat → K) (size k : Nat) :
    K :=
  (matMultiply (mat_multiply_avx k) size).valueAtCaller (leftover k)

end AvxSummary

namespace NewSummary

/-- The function `matMultiply` of `optimized_parallel_new_summary.cpp`, lines 93 to 99: the
last statement is the call `mat_multiply_compiler_intrinsics (matA, matB, size);` without
`return`; the kernel runs, its value is dropped and the closing brace follows. -/
def matMultiply (mat_multiply_compiler_intrinsics : Nat → Int) (size : Nat) :
    FunctionClose Int :=
  let _duration : Int := mat_multiply_compiler_intrinsics size
  FunctionClose.closingBrace

/-- The statement `runningTimes[i] = matMultiply (size)` of `main` in
`optimized_parallel_new_summary.cpp`: the value stored for the call number `k`. -/
def storedDuration (mat_multiply_compiler_intrinsics : Nat → Nat → Int)
    (leftover : Nat → Int) (size k : Nat) : Int :=
  (matMultiply (mat_multiply_compiler_intrinsics k) size).valueAtCaller (leftover k)

end NewSummary

end Wrappers

/-- The values taken by `x` in `for (int x = start; x <= 1000; x += 100)`, in execution
order. -/
def sizesFrom (x : Nat) : List Nat :=
  if x ≤ 1000 then x :: sizesFrom (x + 100) else []
termination_by 1001 - x
decreasing_by omega

/-- The matrix sizes `main` processes: the loop `for (int x = 100; x <= 1000; x += 100)`
of all five files. -/
def driverSizes : List Nat := sizesFrom 100

/-- The index expression `x/100 - 1` of the stores of `main`.  `x` is not negative, so
the `int` division is the division of natural numbers; the subtraction is made in
`int`. -/
def resultIndex (x : Nat) : Int := ((x / 100 : Nat) : Int) - 1

/-- The three result arrays of `main`, each allocated with 10 entries (`new int[10]`,
`new double[10]`). -/
structure Results (K : Type) where
  noOfSamples : Nat → Int
  sampleMean : Nat → K
  sampleStandardDeviation : Nat → K

/-- The assignment `array[index] = v`. -/
def setEntry {α : Type} (array : Nat → α) (index : Nat) (v : α) : Nat → α :=
  fun i => if i = index then v else array i

section Driver

variable {K : Type}

/-- The three stores `noOfSamples[x/100 -1] = ...`, `sampleMean[x/100 -1] = ...` and
`sampleStandardDeviation[x/100 -1] = ...` made for the size `x`; `none` when the index
lies outside the 10 entries of the arrays. -/
def storeRun (results : Results K) (x : Nat) (run : Run K) : Option (Results K) :=
  if 0 ≤ resultIndex x ∧ resultIndex x < 10 then
    some { noOfSamples := setEntry results.noOfSamples (resultIndex x).toNat run.noOfSamples
           sampleMean := setEntry results.sampleMean (resultIndex x).toNat run.sampleMean
           sampleStandardDeviation :=
             setEntry results.sampleStandardDeviation (resultIndex x).toNat
               run.sampleStandardDeviation }
  else none

/-- The loop of `main` over the matrix sizes: for each size the loop body is run and its
results are stored.  `body x` is what the loop body does for the size `x`; `results` is
the content of the three arrays. -/
def driverLoop (body : Nat → Option (Run K)) : List Nat → Results K → Option (Results K)
  | [], results => some results
  | x :: rest, results => do
    let run ← body x
    let results ← storeRun results x run
    driverLoop body rest results

end Driver

section Mains

variable {K : Type} [LinearOrderedField K] [FloorRing K]

/-- The function `main` of `sequential_final.cpp` up to the summary: the content of the
three arrays when the summary is printed.  `matMultiply x k` is the running time the
`k`-th trial for the size `x` yields. -/
def SequentialFinal.main (sqrt : K → K) (matMultiply : Nat → Nat → Int)
    (results : Results K) : Option (Results K) :=
  driverLoop
    (fun x => SequentialFinal.mainBody sqrt SequentialFinal.noOfInitialSamples (matMultiply x))
    driverSizes results

/-- The function `main` of `Final/parallel.cpp` up to the summary. -/
def Parallel.main (sqrt : K → K) (matMultiply : Nat → Nat → K) (results : Results K) :
    Option (Results K) :=
  driverLoop (fun x => Parallel.mainBody sqrt Parallel.noOfInitialSamples (matMultiply x))
    driverSizes results

/-- The function `main` of `Final/optimized_parallel.cpp` up to the summary. -/
def OptimizedParallel.main (sqrt : K → K) (matMultiply : Nat → Nat → K)
    (results : Results K) : Option (Results K) :=
  driverLoop
    (fun x =>
      OptimizedParallel.mainBody sqrt OptimizedParallel.noOfInitialSamples (matMultiply x))
    driverSizes results

/-- The function `main` of `optimized_parallel_avx_summary.cpp` up to the summary. -/
def AvxSummary.main (sqrt : K → K) (matMultiply : Nat → Nat → K) (results : Results K) :
    Option (Results K) :=
  driverLoop (fun x => AvxSummary.mainBody sqrt AvxSummary.noOfInitialSamples (matMultiply x))
    driverSizes results

/-- The function `main` of `optimized_parallel_new_summary.cpp` up to the summary. -/
def NewSummary.main (sqrt : K → K) (matMultiply : Nat → Nat → Int) (results : Results K) :
    Option (Results K) :=
  driverLoop (fun x => NewSummary.mainBody sqrt NewSummary.noOfInitialSamples (matMultiply x))
    driverSizes results

end Mains

section RowBodies

variable {K : Type} [LinearOrderedField K]

/-- The body of the outer loop of `multiply` in `Final/parallel.cpp` (lines 49 to 54) for
the index `row`: the iteration one worker executes. -/
def Parallel.multiplyRow (matA matB : Matrix2D K) (size : Nat) (resMat : Matrix2D K)
    (row : Nat) : Matrix2D K :=
  (List.range size).foldl (fun resMat col =>
    (List.range size).foldl
      (fun resMat cur => setCell resMat row col (resMat row col + matA row cur * matB cur col))
      (setCell resMat row col 0)) resMat

/-- The body of the outer loop of `mat_multiply_avx` (lines 64 to 73 of
`Final/optimized_parallel.cpp`) for the index `i`; `trans_matB` is the transposed
operand. -/
def mat_multiply_avx_row (matA trans_matB : Matrix2D K) (size : Nat) (matC : Matrix2D K)
    (i : Nat) : Matrix2D K :=
  (List.range size).foldl (fun matC j =>
    let c := (loadOffsets 4 size 0).foldl
      (fun c k => addpd256 c (mulpd256 (loadupd256 (matA i) k) (loadupd256 (trans_matB j) k)))
      mm256_setzero_pd
    setCell matC i j (c.d0 + c.d1 + c.d2 + c.d3)) matC

/-- The body of the outer loop of `mat_multiply_compiler_intrinsics` (lines 69 to 77 of
`optimized_parallel_new_summary.cpp`) for the index `i`. -/
def mat_multiply_compiler_intrinsics_row (matA trans_matB : Matrix2D K) (size : Nat)
    (matC : Matrix2D K) (i : Nat) : Matrix2D K :=
  (List.range size).foldl (fun matC j =>
    let c := (loadOffsets 2 size 0).foldl
      (fun c k => mm_add_pd c (mm_mul_pd (mm_load_pd (matA i) k) (mm_load_pd (trans_matB j) k)))
      mm_setzero_pd
    let c := mm_hadd_pd c c
    setCell matC i j c.d0) matC

end RowBodies

/-- The run with its recorded mean and standard deviation multiplied by `c`: the same run
with the durations expressed in another time unit. -/
def Run.rescale {K : Type} [Mul K] (c : K) (r : Run K) : Run K :=
  { r with sampleMean := c * r.sampleMean
           sampleStandardDeviation := c * r.sampleStandardDeviation }

/-- Row disjointness of a loop body `R` (`R C i` is the output matrix after the iteration
for the row `i` has run on the output matrix `C`), for rows of `n` cells:
the iteration for `i` changes no cell outside row `i`; what it leaves in row `i` depends
on no cell of another row of the output; it gives every cell `(i, b)` with `b < n` a value
that does not depend on the output matrix; and two iterations for distinct rows can be
executed in either order. -/
def RowIterationsDisjoint {K : Type} (n : Nat) (R : Matrix2D K → Nat → Matrix2D K) : Prop :=
  (∀ C i a b, a ≠ i → R C i a b = C a b) ∧
  (∀ C C' i, (∀ b, C i b = C' i b) → ∀ b, R C i i b = R C' i i b) ∧
  (∀ C C' i b, b < n → R C i i b = R C' i i b) ∧
  (∀ C i k, i ≠ k → R (R C i) k = R (R C k) i)

deriving instance DecidableEq for Run

/-! ## The arithmetic of `double` with rounding (IEEE 754 binary64)

The definitions of `section Statistics` compute with exact numbers.  The definitions of this
namespace compute what the program computes: every operation on `double` yields the
binary64 number nearest to the exact result (ties to the even significand), a `long`
wraps at 64 bits and the conversion to `int` needs a value in the range of `int`.

* A finite `double` is the rational number it stands for; `none` stands for everything
  else an operation can yield (an infinity or a NaN), in particular for a division by
  zero.  The sign of a zero is not represented.
* Every operation is rounded by itself (no fused multiply-add, no wider intermediate
  format).  `pow (x, 2.0)` is the rounded product `x * x`; `sqrt` is the rounded square
  root, as IEEE 754 requires.
-/

namespace Binary64

/-- The number of binary digits of `n` (0 for `n = 0`), found by halving `n` at most
`fuel` times. -/
def bitLength : Nat → Nat → Nat
  | 0, _ => 0
  | fuel + 1, n => if n = 0 then 0 else bitLength fuel (n / 2) + 1

/-- The integer `k` with `2^k ≤ x < 2^(k+1)`, for a rational `x > 0`: the difference of
the digit counts of numerator and denominator, or one less. -/
def floorLog2 (x : ℚ) : Int :=
  let k : Int := (bitLength x.num.natAbs x.num.natAbs : Int) - (bitLength x.den x.den : Int)
  if (2 : ℚ) ^ k ≤ x then k else k - 1

/-- The integer nearest to `y`, the even one of the two when `y` lies half way. -/
def roundHalfEven (y : ℚ) : Int :=
  if y - ⌊y⌋ < 1 / 2 then ⌊y⌋
  else if 1 / 2 < y - ⌊y⌋ then ⌊y⌋ + 1
  else if ⌊y⌋ % 2 = 0 then ⌊y⌋ else ⌊y⌋ + 1

/-- The exponent `e` for which the binary64 numbers around `x ≠ 0` are the multiples of
`2^e`: the significand has 53 digits, and `2^(-1074)` is the smallest spacing. -/
def ulpExponent (x : ℚ) : Int := max (floorLog2 |x| - 52) (-1074)

/-- The binary64 number nearest to the real number `x`; `none` when the nearest
significand needs an exponent beyond the largest one (overflow to an infinity). -/
def round (x : ℚ) : Option ℚ :=
  if x = 0 then some 0
  else
    let r : ℚ := (roundHalfEven (x / 2 ^ ulpExponent x) : ℚ) * 2 ^ ulpExponent x
    if |r| < 2 ^ (1024 : Int) then some r else none

/-- The sum `x + y` of two `double`. -/
def add (x y : ℚ) : Option ℚ := round (x + y)

/-- The difference `x - y` of two `double`. -/
def sub (x y : ℚ) : Option ℚ := round (x - y)

/-- The product `x * y` of two `double`. -/
def mul (x y : ℚ) : Option ℚ := round (x * y)

/-- The quotient `x / y` of two `double`; a zero divisor gives an infinity or a NaN. -/
def div (x y : ℚ) : Option ℚ := if y = 0 then none else round (x / y)

/-- The call `pow (x, 2.0)`. -/
def pow2 (x : ℚ) : Option ℚ := round (x * x)

/-- The greatest number `acc + d` with `d < 2^bits` whose square is at most `n`, found bit
by bit from the top (for `acc` a multiple of `2^bits` with `acc * acc ≤ n`). -/
def sqrtBits (n : Nat) : Nat → Nat → Nat
  | 0, acc => acc
  | bits + 1, acc =>
    sqrtBits n bits (if (acc + 2 ^ bits) * (acc + 2 ^ bits) ≤ n then acc + 2 ^ bits else acc)

/-- The integer square root: the greatest `r` with `r * r ≤ n`. -/
def natSqrt (n : Nat) : Nat := sqrtBits n (bitLength n n) 0

/-- The call `sqrt (x)`: the binary64 number nearest to the square root of `x`, a NaN for
`x < 0`.  With `2^e` the spacing of the binary64 numbers around the root, the root of
`x / 4^e` lies between the integers `n` and `n + 1`, and it is below `n + 1/2` exactly
when `x / 4^e < (n + 1/2)²`. -/
def sqrt (x : ℚ) : Option ℚ :=
  if x < 0 then none
  else if x = 0 then some 0
  else
    let e : Int := floorLog2 x / 2 - 52
    let y : ℚ := x / 4 ^ e
    let n : Nat := natSqrt ⌊y⌋₊
    let r : Nat := if y < ((n : ℚ) + 1 / 2) ^ 2 then n else n + 1
    some ((r : ℚ) * 2 ^ e)

/-- The conversion of a `long` to `double`. -/
def ofLong (z : Int) : Option ℚ := round (z : ℚ)

/-- The value of `ceil (x)` converted to `int`; outside the range of `int` the conversion
has no defined value. -/
def ceilToInt (x : ℚ) : Option Int :=
  if -(2 : Int) ^ 31 ≤ ⌈x⌉ ∧ ⌈x⌉ < (2 : Int) ^ 31 then some ⌈x⌉ else none

/-- The value a `long` holds after an addition: the sum reduced to 64 bits in two's
complement (what the machine addition leaves; the language gives an overflowing signed
addition no defined value). -/
def wrapLong (z : Int) : Int := (z + 2 ^ 63) % 2 ^ 64 - 2 ^ 63

/-- The function `getMean (double* runningTimes, int size)` of the three `double` variants
with the rounding of every addition and of the division (`size` is converted to `double`
exactly). -/
def getMean (runningTimes : Nat → ℚ) (size : Nat) : Option ℚ := do
  let sum ← (List.range size).foldlM (fun sum i => add sum (runningTimes i)) 0
  div sum (size : ℚ)

/-- The function `getMean (long* runningTimes, int size)` of the two `long` variants: the
sum is kept in a `long`, converted to `double` by `mean = sum` and divided by `size`. -/
def getMeanLong (runningTimes : Nat → Int) (size : Nat) : Option ℚ := do
  let sum : Int := (List.range size).foldl (fun sum i => wrapLong (sum + runningTimes i)) 0
  let mean ← ofLong sum
  div mean (size : ℚ)

/-- The function `getSD (double* runningTimes, int size, double mean)` of the three
`double` variants with the rounding of every operation; the value is that of the local
`sd` at the closing brace. -/
def getSD (runningTimes : Nat → ℚ) (size : Nat) (mean : ℚ) : Option ℚ := do
  let variance ← (List.range size).foldlM (fun variance i => do
    let temp ← sub (runningTimes i) mean
    let temp ← pow2 temp
    add variance temp) 0
  let variance ← div variance ((((size : Int) - 1 : Int)) : ℚ)
  sqrt variance

/-- The function `getSD (long* runningTimes, int size, double mean)` of the two `long`
variants; the subtraction converts the sample to `double` first. -/
def getSDLong (runningTimes : Nat → Int) (size : Nat) (mean : ℚ) : Option ℚ := do
  let variance ← (List.range size).foldlM (fun variance i => do
    let sample ← ofLong (runningTimes i)
    let temp ← sub sample mean
    let temp ← pow2 temp
    add variance temp) 0
  let variance ← div variance ((((size : Int) - 1 : Int)) : ℚ)
  sqrt variance

/-- The expression `ceil (pow (((100*1.960*sd)/(5*mean)), 2.0))` assigned to the `int`
`noOfRequiredSamples`, evaluated from the left: the literal `1.960` is the binary64 number
nearest to 1.96, and each product, the quotient and the square are rounded. -/
def requiredSamples (sd mean : ℚ) : Option Int := do
  let z ← round (1960 / 1000)
  let hundredZ ← mul 100 z
  let numerator ← mul hundredZ sd
  let denominator ← mul 5 mean
  let ratio ← div numerator denominator
  let square ← pow2 ratio
  ceilToInt square

/-- Lines 153 to 179 of `Final/optimized_parallel.cpp` with the arithmetic of `double`
(compare `OptimizedParallel.afterPilot`). -/
def afterPilot (noOfInitialSamples : Nat) (matMultiply : Nat → ℚ) (mean sd : ℚ) :
    Option (Run ℚ) := do
  let noOfRequiredSamples ← requiredSamples sd mean
  if noOfRequiredSamples < (noOfInitialSamples : Int) then
    some { confirmation := false
           trials := noOfInitialSamples
           noOfRequiredSamples := noOfRequiredSamples
           noOfSamples := noOfInitialSamples
           sampleMean := mean
           sampleStandardDeviation := sd }
  else
    let runningTimes : Nat → ℚ := fun i => matMultiply (noOfInitialSamples + i)
    let mean ← getMean runningTimes noOfRequiredSamples.toNat
    let sd ← getSD runningTimes noOfRequiredSamples.toNat mean
    some { confirmation := true
           trials := noOfInitialSamples + noOfRequiredSamples.toNat
           noOfRequiredSamples := noOfRequiredSamples
           noOfSamples := noOfRequiredSamples
           sampleMean := mean
           sampleStandardDeviation := sd }

/-- Lines 143 to 179 of `Final/optimized_parallel.cpp`, the body of the `for` loop, with
the arithmetic of `double` (compare `OptimizedParallel.mainBody`). -/
def mainBody (noOfInitialSamples : Nat) (matMultiply : Nat → ℚ) : Option (Run ℚ) := do
  let runningTimes : Nat → ℚ := fun i => matMultiply i
  let mean ← getMean runningTimes noOfInitialSamples
  let sd ← getSD runningTimes noOfInitialSamples mean
  afterPilot noOfInitialSamples matMultiply mean sd

end Binary64

/-! ## The transposition `getTranspose` -/

section TransposeLemmas

variable {K : Type}

theorem mem_transposeSwaps (n : Nat) (p : Nat × Nat) :
    p ∈ transposeSwaps n ↔ p.1 < p.2 ∧ p.2 < n := by
  obtain ⟨i, j⟩ := p
  simp only [transposeSwaps, List.mem_flatMap, List.mem_range, List.mem_map, List.mem_range'_1,
    Prod.mk.injEq]
  constructor
  · rintro ⟨r, hr, c, hc, rfl, rfl⟩
    omega
  · rintro ⟨h1, h2⟩
    exact ⟨i, by omega, j, by omega, rfl, rfl⟩

theorem nodup_transposeSwaps (n : Nat) : (transposeSwaps n).Nodup := by
  unfold transposeSwaps
  rw [List.nodup_flatMap]
  refine ⟨?_, ?_⟩
  · intro row _
    exact (List.nodup_range' _ _).map (fun a b h => by simpa using h)
  · refine (List.nodup_range n).pairwise_of_forall_ne ?_
    intro a _ b _ hab
    simp only [Function.onFun, List.Disjoint, List.mem_map, List.mem_range'_1]
    rintro ⟨x, y⟩ ⟨c, _, h1⟩ ⟨d, _, h2⟩
    simp only [Prod.mk.injEq] at h1 h2
    omega

/-- Folding swaps over pairwise distinct pairs `(r, c)` with `r < c`. -/
theorem foldl_swapCells (L : List (Nat × Nat)) (hlt : ∀ p ∈ L, p.1 < p.2) (hnd : L.Nodup)
    (M : Matrix2D K) (a b : Nat) :
    L.foldl (fun m p => swapCells m p.1 p.2) M a b =
      if (a, b) ∈ L ∨ (b, a) ∈ L then M b a else M a b := by
  induction L generalizing M with
  | nil => simp
  | cons p L ih =>
    obtain ⟨r, c⟩ := p
    have hrc : r < c := hlt (r, c) (List.mem_cons_self _ _)
    have hlt' : ∀ q ∈ L, q.1 < q.2 := fun q hq => hlt q (List.mem_cons_of_mem _ hq)
    have hnd' := (List.nodup_cons.mp hnd).2
    have hnot := (List.nodup_cons.mp hnd).1
    rw [List.foldl_cons, ih hlt' hnd']
    simp only [List.mem_cons, Prod.mk.injEq, swapCells]
    by_cases h1 : (a, b) ∈ L
    · have hab : a < b := hlt' _ h1
      have hne : ¬ (a = r ∧ b = c) := by rintro ⟨rfl, rfl⟩; exact hnot h1
      rw [if_pos (Or.inl h1), if_pos (Or.inl (Or.inr h1)), if_neg (by omega),
        if_neg (fun h => hne ⟨h.2, h.1⟩)]
    · by_cases h2 : (b, a) ∈ L
      · have hba : b < a := hlt' _ h2
        have hne : ¬ (b = r ∧ a = c) := by rintro ⟨rfl, rfl⟩; exact hnot h2
        rw [if_pos (Or.inr h2), if_pos (Or.inr (Or.inr h2)), if_neg hne, if_neg (by omega)]
      · rw [if_neg (by tauto)]
        by_cases e1 : a = r ∧ b = c
        · rw [if_pos e1, if_pos (Or.inl (Or.inl e1))]
          obtain ⟨rfl, rfl⟩ := e1
          rfl
        · by_cases e2 : b = r ∧ a = c
          · rw [if_neg e1, if_pos ⟨e2.2, e2.1⟩, if_pos (Or.inr (Or.inl e2))]
            obtain ⟨rfl, rfl⟩ := e2
            rfl
          · rw [if_neg e1, if_neg (fun h => e2 ⟨h.2, h.1⟩), if_neg (by tauto)]

theorem getTranspose_apply (M : Matrix2D K) (n a b : Nat) :
    getTranspose M n a b = if (a < b ∧ b < n) ∨ (b < a ∧ a < n) then M b a else M a b := by
  unfold getTranspose
  rw [foldl_swapCells _ (fun p hp => ((mem_transposeSwaps n p).mp hp).1) (nodup_transposeSwaps n)]
  simp only [mem_transposeSwaps]

end TransposeLemmas

/-! ## Cell updates and the loops over rows and columns -/

section UpdateLemmas

variable {K : Type}

theorem setCell_apply (m : Matrix2D K) (i j : Nat) (v : K) (a b : Nat) :
    setCell m i j v a b = if a = i ∧ b = j then v else m a b := rfl

theorem setCell_setCell (m : Matrix2D K) (i j : Nat) (v w : K) :
    setCell (setCell m i j v) i j w = setCell m i j w := by
  funext a b
  simp only [setCell]
  split_ifs <;> rfl

/-- The loop over the columns of one row. -/
theorem foldl_cols (g : Nat → K) (i n : Nat) (m : Matrix2D K) (a b : Nat) :
    (List.range n).foldl (fun r j => setCell r i j (g j)) m a b =
      if a = i ∧ b < n then g b else m a b := by
  induction n with
  | zero => simp
  | succ n ih =>
    rw [List.range_succ, List.foldl_append]
    simp only [List.foldl_cons, List.foldl_nil, setCell_apply, ih]
    split_ifs <;> first | rfl | (exfalso; omega) | (simp_all)

/-- The loop over the rows, executed in the order `rows`. -/
theorem foldl_rows (g : Nat → Nat → K) (n : Nat) (rows : List Nat) (m : Matrix2D K) (a b : Nat) :
    rows.foldl (fun r i => (List.range n).foldl (fun r j => setCell r i j (g i j)) r) m a b =
      if a ∈ rows ∧ b < n then g a b else m a b := by
  induction rows generalizing m with
  | nil => simp
  | cons i rows ih =>
    rw [List.foldl_cons, ih]
    simp only [foldl_cols, List.mem_cons]
    split_ifs <;> first | rfl | (simp_all)

end UpdateLemmas

/-! ## The loops of the kernels -/

section KernelLemmas

variable {K : Type} [LinearOrderedField K]

theorem foldl_add_range (f : Nat → K) (a : K) (n : Nat) :
    (List.range n).foldl (fun acc i => acc + f i) a = a + ∑ i in Finset.range n, f i := by
  induction n with
  | zero => simp
  | succ n ih => rw [List.range_succ, List.foldl_append, ih, Finset.sum_range_succ]; simp [add_assoc]

/-- The innermost loop of the naive kernels leaves the accumulated sum in cell `(i, j)`. -/
theorem foldl_accumulate_cell (m : Matrix2D K) (i j : Nat) (f : Nat → K) (v : K) (n : Nat) :
    (List.range n).foldl (fun r cur => setCell r i j (r i j + f cur)) (setCell m i j v) =
      setCell m i j (v + ∑ cur in Finset.range n, f cur) := by
  induction n with
  | zero => simp
  | succ n ih =>
    rw [List.range_succ, List.foldl_append, ih, Finset.sum_range_succ]
    simp only [List.foldl_cons, List.foldl_nil, setCell_setCell]
    simp [setCell, add_assoc]

theorem loadOffsets_unfold (w n k : Nat) :
    loadOffsets w n k = if k < n ∧ 0 < w then k :: loadOffsets w n (k + w) else [] := by
  rw [loadOffsets]

/-- The offsets visited when `r` entries (`0 < r ≤ w`) remain after `m` full steps. -/
theorem loadOffsets_remainder (w : Nat) (hw : 0 < w) (r : Nat) (hr : 0 < r) (hrw : r ≤ w)
    (m k : Nat) :
    loadOffsets w (k + w * m + r) k = (List.range (m + 1)).map fun t => k + w * t := by
  induction m generalizing k with
  | zero =>
    rw [loadOffsets_unfold, if_pos ⟨by omega, hw⟩, loadOffsets_unfold, if_neg (by omega)]
    simp [List.range_succ]
  | succ m ih =>
    rw [loadOffsets_unfold, if_pos ⟨by omega, hw⟩]
    have e : k + w * (m + 1) + r = (k + w) + w * m + r := by ring
    rw [e, ih (k + w), List.range_succ_eq_map (m + 1), List.map_cons, List.map_map]
    congr 1
    apply List.map_congr_left
    intro t _
    simp only [Function.comp, Nat.succ_eq_add_one]
    ring

/-- The offsets visited when the size is a multiple of the width. -/
theorem loadOffsets_mul (w : Nat) (hw : 0 < w) (m : Nat) :
    loadOffsets w (w * m) 0 = (List.range m).map fun t => w * t := by
  cases m with
  | zero => rw [loadOffsets_unfold, if_neg (by omega)]; rfl
  | succ m =>
    have h := loadOffsets_remainder w hw w hw le_rfl m 0
    have e : 0 + w * m + w = w * (m + 1) := by ring
    rw [e] at h
    rw [h]
    apply List.map_congr_left
    intro t _
    omega

theorem loadOffsets_not_dvd (w : Nat) (hw : 0 < w) (n : Nat) (h : ¬ w ∣ n) :
    loadOffsets w n 0 = (List.range (n / w + 1)).map fun t => w * t := by
  have hr : 0 < n % w := Nat.pos_of_ne_zero fun h0 => h (Nat.dvd_of_mod_eq_zero h0)
  have h1 := loadOffsets_remainder w hw (n % w) hr (Nat.mod_lt n hw).le (n / w) 0
  have e : 0 + w * (n / w) + n % w = n := by rw [Nat.zero_add]; exact Nat.div_add_mod n w
  rw [e] at h1
  rw [h1]
  apply List.map_congr_left
  intro t _
  omega

theorem loads_in_bounds_iff (w : Nat) (hw : 0 < w) (n : Nat) :
    (∀ k ∈ loadOffsets w n 0, loadInBounds w n k) ↔ w ∣ n := by
  constructor
  · intro hall
    by_contra hnd
    have hmem : w * (n / w) ∈ loadOffsets w n 0 := by
      rw [loadOffsets_not_dvd w hw n hnd]
      exact List.mem_map.mpr ⟨n / w, List.mem_range.mpr (Nat.lt_succ_self _), rfl⟩
    have hb := hall _ hmem
    unfold loadInBounds at hb
    have := Nat.div_add_mod n w
    have := Nat.mod_lt n hw
    omega
  · rintro ⟨m, rfl⟩ k hk
    rw [loadOffsets_mul w hw m] at hk
    obtain ⟨t, ht, rfl⟩ := List.mem_map.mp hk
    have ht' : t + 1 ≤ m := List.mem_range.mp ht
    unfold loadInBounds
    calc w * t + w = w * (t + 1) := by ring
      _ ≤ w * m := Nat.mul_le_mul_left w ht'

theorem last_load_out_of_bounds (w : Nat) (hw : 0 < w) (n : Nat) (h : ¬ w ∣ n) :
    ∃ k, (loadOffsets w n 0).getLast? = some k ∧ k < n ∧ ¬ loadInBounds w n k := by
  refine ⟨w * (n / w), ?_, ?_, ?_⟩
  · rw [loadOffsets_not_dvd w hw n h, List.range_succ, List.map_append]
    simp
  · have hr : 0 < n % w := Nat.pos_of_ne_zero fun h0 => h (Nat.dvd_of_mod_eq_zero h0)
    have := Nat.div_add_mod n w
    omega
  · unfold loadInBounds
    have := Nat.div_add_mod n w
    have := Nat.mod_lt n hw
    omega

theorem sum_range_mul_four (f : Nat → K) (m : Nat) :
    ∑ k in Finset.range (4 * m), f k =
      ∑ t in Finset.range m, (f (4 * t) + f (4 * t + 1) + f (4 * t + 2) + f (4 * t + 3)) := by
  induction m with
  | zero => simp
  | succ m ih =>
    rw [Finset.sum_range_succ, ← ih, show 4 * (m + 1) = 4 * m + 1 + 1 + 1 + 1 by ring]
    simp only [Finset.sum_range_succ]
    ring

theorem sum_range_mul_two (f : Nat → K) (m : Nat) :
    ∑ k in Finset.range (2 * m), f k =
      ∑ t in Finset.range m, (f (2 * t) + f (2 * t + 1)) := by
  induction m with
  | zero => simp
  | succ m ih =>
    rw [Finset.sum_range_succ, ← ih, show 2 * (m + 1) = 2 * m + 1 + 1 by ring]
    simp only [Finset.sum_range_succ]
    ring

/-- The four lanes of the AVX accumulator after `m` iterations of the inner loop. -/
theorem avx_lanes (a b : Nat → K) (m : Nat) :
    ((List.range m).map fun t => 4 * t).foldl
        (fun c k => addpd256 c (mulpd256 (loadupd256 a k) (loadupd256 b k))) mm256_setzero_pd =
      ⟨∑ t in Finset.range m, a (4 * t) * b (4 * t),
       ∑ t in Finset.range m, a (4 * t + 1) * b (4 * t + 1),
       ∑ t in Finset.range m, a (4 * t + 2) * b (4 * t + 2),
       ∑ t in Finset.range m, a (4 * t + 3) * b (4 * t + 3)⟩ := by
  induction m with
  | zero => simp [mm256_setzero_pd]
  | succ m ih =>
    rw [List.range_succ, List.map_append, List.foldl_append, ih]
    simp [addpd256, mulpd256, loadupd256, Finset.sum_range_succ]

/-- The two lanes of the SSE accumulator after `m` iterations of the inner loop. -/
theorem sse_lanes (a b : Nat → K) (m : Nat) :
    ((List.range m).map fun t => 2 * t).foldl
        (fun c k => mm_add_pd c (mm_mul_pd (mm_load_pd a k) (mm_load_pd b k))) mm_setzero_pd =
      ⟨∑ t in Finset.range m, a (2 * t) * b (2 * t),
       ∑ t in Finset.range m, a (2 * t + 1) * b (2 * t + 1)⟩ := by
  induction m with
  | zero => simp [mm_setzero_pd]
  | succ m ih =>
    rw [List.range_succ, List.map_append, List.foldl_append, ih]
    simp [mm_add_pd, mm_mul_pd, mm_load_pd, Finset.sum_range_succ]

theorem avx_horizontal_sum (a b : Nat → K) (m : Nat) :
    (((List.range m).map fun t => 4 * t).foldl
        (fun c k => addpd256 c (mulpd256 (loadupd256 a k) (loadupd256 b k)))
        mm256_setzero_pd).d0 +
    (((List.range m).map fun t => 4 * t).foldl
        (fun c k => addpd256 c (mulpd256 (loadupd256 a k) (loadupd256 b k)))
        mm256_setzero_pd).d1 +
    (((List.range m).map fun t => 4 * t).foldl
        (fun c k => addpd256 c (mulpd256 (loadupd256 a k) (loadupd256 b k)))
        mm256_setzero_pd).d2 +
    (((List.range m).map fun t => 4 * t).foldl
        (fun c k => addpd256 c (mulpd256 (loadupd256 a k) (loadupd256 b k)))
        mm256_setzero_pd).d3 = ∑ k in Finset.range (4 * m), a k * b k := by
  rw [avx_lanes, sum_range_mul_four]
  simp only [Finset.sum_add_distrib]

theorem sse_horizontal_sum (a b : Nat → K) (m : Nat) :
    (mm_hadd_pd
      (((List.range m).map fun t => 2 * t).foldl
        (fun c k => mm_add_pd c (mm_mul_pd (mm_load_pd a k) (mm_load_pd b k))) mm_setzero_pd)
      (((List.range m).map fun t => 2 * t).foldl
        (fun c k => mm_add_pd c (mm_mul_pd (mm_load_pd a k) (mm_load_pd b k))) mm_setzero_pd)).d0
      = ∑ k in Finset.range (2 * m), a k * b k := by
  rw [sse_lanes, sum_range_mul_two]
  simp only [mm_hadd_pd, Finset.sum_add_distrib]

end KernelLemmas

/-! ## Mean, standard deviation and required sample count -/

section StatisticsLemmas

variable {K : Type} [LinearOrderedField K]

theorem getMean_of_ne_zero (runningTimes : Nat → K) (size : Nat) (h : size ≠ 0) :
    getMean runningTimes size = some ((∑ i in Finset.range size, runningTimes i) / (size : K)) := by
  unfold getMean
  simp only [if_neg h, foldl_add_range, zero_add]

theorem foldl_add_range_int (f : Nat → Int) (a : Int) (n : Nat) :
    (List.range n).foldl (fun acc i => acc + f i) a = a + ∑ i in Finset.range n, f i := by
  induction n with
  | zero => simp
  | succ n ih => rw [List.range_succ, List.foldl_append, ih, Finset.sum_range_succ]; simp [add_assoc]

theorem getMeanLong_of_ne_zero (runningTimes : Nat → Int) (size : Nat) (h : size ≠ 0) :
    getMeanLong K runningTimes size =
      some ((∑ i in Finset.range size, (runningTimes i : K)) / (size : K)) := by
  unfold getMeanLong
  simp only [if_neg h, foldl_add_range_int, zero_add, Int.cast_sum]

theorem getSD_of_ne_one (sqrt : K → K) (runningTimes : Nat → K) (size : Nat) (mean : K)
    (h : size ≠ 1) :
    getSD sqrt runningTimes size mean =
      some (sqrt ((∑ i in Finset.range size, (runningTimes i - mean) ^ 2) / ((size : K) - 1))) := by
  unfold getSD
  have h' : ¬ ((size : Int) - 1 = 0) := by omega
  simp only [if_neg h', foldl_add_range, zero_add]
  push_cast
  rfl

theorem getSDLong_of_ne_one (sqrt : K → K) (runningTimes : Nat → Int) (size : Nat) (mean : K)
    (h : size ≠ 1) :
    getSDLong sqrt runningTimes size mean =
      some (sqrt ((∑ i in Finset.range size, ((runningTimes i : K) - mean) ^ 2) /
        ((size : K) - 1))) := by
  unfold getSDLong
  have h' : ¬ ((size : Int) - 1 = 0) := by omega
  simp only [if_neg h', foldl_add_range, zero_add]
  push_cast
  rfl

end StatisticsLemmas

/-! ## The two branches of the sampling controller -/

section ControllerLemmas

variable {K : Type} [LinearOrderedField K] [FloorRing K]

theorem requiredSamples_of_ne (sd mean : K) (h : mean ≠ 0) :
    requiredSamples sd mean = some ⌈((100 * 1.960 * sd) / (5 * mean)) ^ 2⌉ := by
  unfold requiredSamples
  rw [if_neg (mul_ne_zero (by norm_num) h)]

/-- The ceiling of the squared quotient is the least integer above `(196 s0)² / (5 m0)²`. -/
theorem required_formula (s0 m0 : K) :
    IsLeast {N : Int | (196 * s0) ^ 2 / (5 * m0) ^ 2 ≤ (N : K)}
      ⌈((100 * 1.960 * s0) / (5 * m0)) ^ 2⌉ := by
  have e : ((100 * 1.960 * s0) / (5 * m0)) ^ 2 = (196 * s0) ^ 2 / (5 * m0) ^ 2 := by
    rw [div_pow]
    norm_num
  rw [e]
  exact ⟨Int.le_ceil _, fun N hN => Int.ceil_le.mpr hN⟩


/-- The first branch of `SequentialFinal.afterPilot`. -/
theorem afterPilot_pilot_SequentialFinal (p : Nat) (matMultiply : Nat → Int)
    (mean sd : K) (N : Int) (hN : requiredSamples sd mean = some N) (h : N < (p : Int)) :
    SequentialFinal.afterPilot p matMultiply mean sd =
      some ⟨false, p, N, N, mean, sd⟩ := by
  simp only [SequentialFinal.afterPilot, hN, Option.bind_eq_bind, Option.some_bind, if_pos h]

/-- The second branch of `SequentialFinal.afterPilot`. -/
theorem afterPilot_confirmation_SequentialFinal (p : Nat) (hp : 2 ≤ p)
    (matMultiply : Nat → Int) (mean sd : K) (N : Int)
    (hN : requiredSamples sd mean = some N) (h : ¬ N < (p : Int)) :
    SequentialFinal.afterPilot p matMultiply mean sd =
      some ⟨true, p + N.toNat, N, N,
        (∑ i in Finset.range N.toNat, (matMultiply (p + i) : K)) / (N.toNat : K),
        sd⟩ := by
  have h0 : N.toNat ≠ 0 := by omega
  simp only [SequentialFinal.afterPilot, hN, Option.bind_eq_bind, Option.some_bind, if_neg h,
    getMeanLong_of_ne_zero _ _ h0]

/-- The first branch of `Parallel.afterPilot`. -/
theorem afterPilot_pilot_Parallel (p : Nat) (matMultiply : Nat → K)
    (mean sd : K) (N : Int) (hN : requiredSamples sd mean = some N) (h : N < (p : Int)) :
    Parallel.afterPilot p matMultiply mean sd =
      some ⟨false, p, N, (p : Int), mean, sd⟩ := by
  simp only [Parallel.afterPilot, hN, Option.bind_eq_bind, Option.some_bind, if_pos h]

/-- The second branch of `Parallel.afterPilot`. -/
theorem afterPilot_confirmation_Parallel (p : Nat) (hp : 2 ≤ p)
    (matMultiply : Nat → K) (mean sd : K) (N : Int)
    (hN : requiredSamples sd mean = some N) (h : ¬ N < (p : Int)) :
    Parallel.afterPilot p matMultiply mean sd =
      some ⟨true, p + N.toNat, N, N,
        (∑ i in Finset.range N.toNat, matMultiply (p + i)) / (N.toNat : K),
        sd⟩ := by
  have h0 : N.toNat ≠ 0 := by omega
  simp only [Parallel.afterPilot, hN, Option.bind_eq_bind, Option.some_bind, if_neg h,
    getMean_of_ne_zero _ _ h0]

/-- The first branch of `OptimizedParallel.afterPilot`. -/
theorem afterPilot_pilot_OptimizedParallel (sqrt : K → K) (p : Nat) (matMultiply : Nat → K)
    (mean sd : K) (N : Int) (hN : requiredSamples sd mean = some N) (h : N < (p : Int)) :
    OptimizedParallel.afterPilot sqrt p matMultiply mean sd =
      some ⟨false, p, N, (p : Int), mean, sd⟩ := by
  simp only [OptimizedParallel.afterPilot, hN, Option.bind_eq_bind, Option.some_bind, if_pos h]

/-- The second branch of `OptimizedParallel.afterPilot`. -/
theorem afterPilot_confirmation_OptimizedParallel (sqrt : K → K) (p : Nat) (hp : 2 ≤ p)
    (matMultiply : Nat → K) (mean sd : K) (N : Int)
    (hN : requiredSamples sd mean = some N) (h : ¬ N < (p : Int)) :
    OptimizedParallel.afterPilot sqrt p matMultiply mean sd =
      some ⟨true, p + N.toNat, N, N,
        (∑ i in Finset.range N.toNat, matMultiply (p + i)) / (N.toNat : K),
        sqrt ((∑ i in Finset.range N.toNat,
          (matMultiply (p + i) -
            (∑ i in Finset.range N.toNat, matMultiply (p + i)) / (N.toNat : K)) ^ 2) /
          ((N.toNat : K) - 1))⟩ := by
  have h0 : N.toNat ≠ 0 := by omega
  have h1 : N.toNat ≠ 1 := by omega
  simp only [OptimizedParallel.afterPilot, hN, Option.bind_eq_bind, Option.some_bind, if_neg h,
    getMean_of_ne_zero _ _ h0,
    getSD_of_ne_one _ _ _ _ h1]

/-- The first branch of `AvxSummary.afterPilot`. -/
theorem afterPilot_pilot_AvxSummary (sqrt : K → K) (p : Nat) (matMultiply : Nat → K)
    (mean sd : K) (N : Int) (hN : requiredSamples sd mean = some N) (h : N < (p : Int)) :
    AvxSummary.afterPilot sqrt p matMultiply mean sd =
      some ⟨false, p, N, (p : Int), mean, sd⟩ := by
  simp only [AvxSummary.afterPilot, hN, Option.bind_eq_bind, Option.some_bind, if_pos h]

/-- The second branch of `AvxSummary.afterPilot`. -/
theorem afterPilot_confirmation_AvxSummary (sqrt : K → K) (p : Nat) (hp : 2 ≤ p)
    (matMultiply : Nat → K) (mean sd : K) (N : Int)
    (hN : requiredSamples sd mean = some N) (h : ¬ N < (p : Int)) :
    AvxSummary.afterPilot sqrt p matMultiply mean sd =
      some ⟨true, p + N.toNat, N, N,
        (∑ i in Finset.range N.toNat, matMultiply (p + i)) / (N.toNat : K),
        sqrt ((∑ i in Finset.range N.toNat,
          (matMultiply (p + i) -
            (∑ i in Finset.range N.toNat, matMultiply (p + i)) / (N.toNat : K)) ^ 2) /
          ((N.toNat : K) - 1))⟩ := by
  have h0 : N.toNat ≠ 0 := by omega
  have h1 : N.toNat ≠ 1 := by omega
  simp only [AvxSummary.afterPilot, hN, Option.bind_eq_bind, Option.some_bind, if_neg h,
    getMean_of_ne_zero _ _ h0,
    getSD_of_ne_one _ _ _ _ h1]

/-- The first branch of `NewSummary.afterPilot`. -/
theorem afterPilot_pilot_NewSummary (sqrt : K → K) (p : Nat) (matMultiply : Nat → Int)
    (mean sd : K) (N : Int) (hN : requiredSamples sd mean = some N) (h : N < (p : Int)) :
    NewSummary.afterPilot sqrt p matMultiply mean sd =
      some ⟨false, p, N, (p : Int), mean, sd⟩ := by
  simp only [NewSummary.afterPilot, hN, Option.bind_eq_bind, Option.some_bind, if_pos h]

/-- The second branch of `NewSummary.afterPilot`. -/
theorem afterPilot_confirmation_NewSummary (sqrt : K → K) (p : Nat) (hp : 2 ≤ p)
    (matMultiply : Nat → Int) (mean sd : K) (N : Int)
    (hN : requiredSamples sd mean = some N) (h : ¬ N < (p : Int)) :
    NewSummary.afterPilot sqrt p matMultiply mean sd =
      some ⟨true, p + N.toNat, N, N,
        (∑ i in Finset.range N.toNat, (matMultiply (p + i) : K)) / (N.toNat : K),
        sqrt ((∑ i in Finset.range N.toNat,
          ((matMultiply (p + i) : K) -
            (∑ i in Finset.range N.toNat, (matMultiply (p + i) : K)) / (N.toNat : K)) ^ 2) /
          ((N.toNat : K) - 1))⟩ := by
  have h0 : N.toNat ≠ 0 := by omega
  have h1 : N.toNat ≠ 1 := by omega
  simp only [NewSummary.afterPilot, hN, Option.bind_eq_bind, Option.some_bind, if_neg h,
    getMeanLong_of_ne_zero _ _ h0,
    getSDLong_of_ne_one _ _ _ _ h1]

end ControllerLemmas

/-! ## The loop body as pilot statistics followed by the decision -/

section MainBody

variable {K : Type} [LinearOrderedField K] [FloorRing K]

/-- The loop body of `sequential_final.cpp` is its second part applied to the mean and the standard
deviation of the first `p` samples. -/
theorem mainBody_eq_SequentialFinal (sqrt : K → K) (p : Nat) (hp : 2 ≤ p)
    (matMultiply : Nat → Int) :
    SequentialFinal.mainBody sqrt p matMultiply =
      SequentialFinal.afterPilot p matMultiply
        ((∑ i in Finset.range p, (matMultiply i : K)) / (p : K))
        (sqrt ((∑ i in Finset.range p,
          ((matMultiply i : K) - (∑ i in Finset.range p, (matMultiply i : K)) / (p : K)) ^ 2) /
            ((p : K) - 1))) := by
  simp only [SequentialFinal.mainBody, getMeanLong_of_ne_zero _ _ (show p ≠ 0 by omega),
    getSDLong_of_ne_one _ _ _ _ (show p ≠ 1 by omega), Option.bind_eq_bind, Option.some_bind]

/-- The loop body of `Final/parallel.cpp` is its second part applied to the mean and the standard
deviation of the first `p` samples. -/
theorem mainBody_eq_Parallel (sqrt : K → K) (p : Nat) (hp : 2 ≤ p)
    (matMultiply : Nat → K) :
    Parallel.mainBody sqrt p matMultiply =
      Parallel.afterPilot p matMultiply
        ((∑ i in Finset.range p, matMultiply i) / (p : K))
        (sqrt ((∑ i in Finset.range p,
          (matMultiply i - (∑ i in Finset.range p, matMultiply i) / (p : K)) ^ 2) /
            ((p : K) - 1))) := by
  simp only [Parallel.mainBody, getMean_of_ne_zero _ _ (show p ≠ 0 by omega),
    getSD_of_ne_one _ _ _ _ (show p ≠ 1 by omega), Option.bind_eq_bind, Option.some_bind]

/-- The loop body of `Final/optimized_parallel.cpp` is its second part applied to the mean and the standard
deviation of the first `p` samples. -/
theorem mainBody_eq_OptimizedParallel (sqrt : K → K) (p : Nat) (hp : 2 ≤ p)
    (matMultiply : Nat → K) :
    OptimizedParallel.mainBody sqrt p matMultiply =
      OptimizedParallel.afterPilot sqrt p matMultiply
        ((∑ i in Finset.range p, matMultiply i) / (p : K))
        (sqrt ((∑ i in Finset.range p,
          (matMultiply i - (∑ i in Finset.range p, matMultiply i) / (p : K)) ^ 2) /
            ((p : K) - 1))) := by
  simp only [OptimizedParallel.mainBody, getMean_of_ne_zero _ _ (show p ≠ 0 by omega),
    getSD_of_ne_one _ _ _ _ (show p ≠ 1 by omega), Option.bind_eq_bind, Option.some_bind]

/-- The loop body of `optimized_parallel_avx_summary.cpp` is its second part applied to the mean and the standard
deviation of the first `p` samples. -/
theorem mainBody_eq_AvxSummary (sqrt : K → K) (p : Nat) (hp : 2 ≤ p)
    (matMultiply : Nat → K) :
    AvxSummary.mainBody sqrt p matMultiply =
      AvxSummary.afterPilot sqrt p matMultiply
        ((∑ i in Finset.range p, matMultiply i) / (p : K))
        (sqrt ((∑ i in Finset.range p,
          (matMultiply i - (∑ i in Finset.range p, matMultiply i) / (p : K)) ^ 2) /
            ((p : K) - 1))) := by
  simp only [AvxSummary.mainBody, getMean_of_ne_zero _ _ (show p ≠ 0 by omega),
    getSD_of_ne_one _ _ _ _ (show p ≠ 1 by omega), Option.bind_eq_bind, Option.some_bind]

/-- The loop body of `optimized_parallel_new_summary.cpp` is its second part applied to the mean and the standard
deviation of the first `p` samples. -/
theorem mainBody_eq_NewSummary (sqrt : K → K) (p : Nat) (hp : 2 ≤ p)
    (matMultiply : Nat → Int) :
    NewSummary.mainBody sqrt p matMultiply =
      NewSummary.afterPilot sqrt p matMultiply
        ((∑ i in Finset.range p, (matMultiply i : K)) / (p : K))
        (sqrt ((∑ i in Finset.range p,
          ((matMultiply i : K) - (∑ i in Finset.range p, (matMultiply i : K)) / (p : K)) ^ 2) /
            ((p : K) - 1))) := by
  simp only [NewSummary.mainBody, getMeanLong_of_ne_zero _ _ (show p ≠ 0 by omega),
    getSDLong_of_ne_one _ _ _ _ (show p ≠ 1 by omega), Option.bind_eq_bind, Option.some_bind]

/-- The decision every variant takes: the second round is run exactly when
`noOfRequiredSamples` is not below the pilot count, the case of equality included. -/
theorem confirmation_iff_pilot_le_required (sqrt : K → K) (p : Nat) (hp : 2 ≤ p)
    (timesK : Nat → K) (timesZ : Nat → Int) (m0 s0 : K) (N : Int)
    (hN : requiredSamples s0 m0 = some N) :
    (∃ r, SequentialFinal.afterPilot p timesZ m0 s0 = some r ∧
      (r.confirmation = true ↔ (p : Int) ≤ N)) ∧
    (∃ r, Parallel.afterPilot p timesK m0 s0 = some r ∧
      (r.confirmation = true ↔ (p : Int) ≤ N)) ∧
    (∃ r, OptimizedParallel.afterPilot sqrt p timesK m0 s0 = some r ∧
      (r.confirmation = true ↔ (p : Int) ≤ N)) ∧
    (∃ r, AvxSummary.afterPilot sqrt p timesK m0 s0 = some r ∧
      (r.confirmation = true ↔ (p : Int) ≤ N)) ∧
    (∃ r, NewSummary.afterPilot sqrt p timesZ m0 s0 = some r ∧
      (r.confirmation = true ↔ (p : Int) ≤ N)) := by
  refine ⟨?_, ?_, ?_, ?_, ?_⟩
  · by_cases h : N < (p : Int)
    · exact ⟨_, afterPilot_pilot_SequentialFinal p timesZ m0 s0 N hN h, by simp; omega⟩
    · exact ⟨_, afterPilot_confirmation_SequentialFinal p hp timesZ m0 s0 N hN h, by simp; omega⟩
  · by_cases h : N < (p : Int)
    · exact ⟨_, afterPilot_pilot_Parallel p timesK m0 s0 N hN h, by simp; omega⟩
    · exact ⟨_, afterPilot_confirmation_Parallel p hp timesK m0 s0 N hN h, by simp; omega⟩
  · by_cases h : N < (p : Int)
    · exact ⟨_, afterPilot_pilot_OptimizedParallel sqrt p timesK m0 s0 N hN h, by simp; omega⟩
    · exact ⟨_, afterPilot_confirmation_OptimizedParallel sqrt p hp timesK m0 s0 N hN h, by simp; omega⟩
  · by_cases h : N < (p : Int)
    · exact ⟨_, afterPilot_pilot_AvxSummary sqrt p timesK m0 s0 N hN h, by simp; omega⟩
    · exact ⟨_, afterPilot_confirmation_AvxSummary sqrt p hp timesK m0 s0 N hN h, by simp; omega⟩
  · by_cases h : N < (p : Int)
    · exact ⟨_, afterPilot_pilot_NewSummary sqrt p timesZ m0 s0 N hN h, by simp; omega⟩
    · exact ⟨_, afterPilot_confirmation_NewSummary sqrt p hp timesZ m0 s0 N hN h, by simp; omega⟩

end MainBody

/-! ## Concrete runs -/

theorem trialsOf_later {α : Type} (first : List α) (later : α) (k : Nat)
    (h : first.length ≤ k) : trialsOf first later k = later := by
  unfold trialsOf
  rw [List.getD_eq_getElem?_getD, List.getElem?_eq_none h]
  rfl

theorem sqrt_of_sq (a b : ℝ) (hb : 0 ≤ b) (h : a = b ^ 2) : Real.sqrt a = b := by
  rw [h, Real.sqrt_sq hb]

section RequiredValues

variable (K : Type) [LinearOrderedField K] [FloorRing K]

/-- Pilot mean 100 and deviation 2: `(392 / 500)² = 0.614...`, one sample is required. -/
theorem requiredSamples_low : requiredSamples (2 : K) 100 = some 1 := by
  rw [requiredSamples_of_ne _ _ (by norm_num)]
  congr 1
  rw [Int.ceil_eq_iff]
  norm_num

/-- Pilot mean 1960 and deviation 110: `2.2² = 4.84`, five samples are required. -/
theorem requiredSamples_five : requiredSamples (110 : K) 1960 = some 5 := by
  rw [requiredSamples_of_ne _ _ (by norm_num)]
  congr 1
  rw [Int.ceil_eq_iff]
  norm_num

/-- Pilot mean 25 and deviation 2: `3.136² = 9.834...`, ten samples are required. -/
theorem requiredSamples_ten : requiredSamples (2 : K) 25 = some 10 := by
  rw [requiredSamples_of_ne _ _ (by norm_num)]
  congr 1
  rw [Int.ceil_eq_iff]
  norm_num

/-- Pilot mean 100 and deviation 30: `11.76² = 138.2976`, 139 samples are required. -/
theorem requiredSamples_high : requiredSamples (30 : K) 100 = some 139 := by
  rw [requiredSamples_of_ne _ _ (by norm_num)]
  congr 1
  rw [Int.ceil_eq_iff]
  norm_num

end RequiredValues

/-! ## The sampling controller -/

/-- Claim C1 (the code departs from it at `n_req = p`).  The claim lets the controller
stop at the pilot phase whenever `n_req ≤ p`.  The guard of every variant is
`noOfRequiredSamples < noOfInitialSamples`, so at `n_req = p` the `else` branch runs.
In `sequential_final.cpp` with pilot count 5 and the pilot samples 2070, 1850, 2070, 1850,
1960 (mean 1960, deviation 110) the required count is 5 and five further trials are made,
10 calls in all.  In `Final/optimized_parallel.cpp` with pilot count 10 and the pilot
samples 28, 22, 28, 22, 25, 25, 25, 25, 25, 25 (mean 25, deviation 2) the required count
is 10 and ten further trials are made, 20 calls in all. -/
theorem confirmation_entered_when_required_equals_pilot :
    SequentialFinal.mainBody Real.sqrt 5 (trialsOf [2070, 1850, 2070, 1850, 1960] 2000) =
      some ⟨true, 10, 5, 5, 2000, 110⟩ ∧
    OptimizedParallel.mainBody Real.sqrt 10
        (trialsOf [28, 22, 28, 22, 25, 25, 25, 25, 25, 25] 26) =
      some ⟨true, 20, 10, 10, 26, 0⟩ := by
  constructor
  · rw [mainBody_eq_SequentialFinal _ _ (by norm_num)]
    have hm : (∑ i in Finset.range 5,
        ((trialsOf [2070, 1850, 2070, 1850, 1960] 2000 i : Int) : ℝ)) / ((5 : Nat) : ℝ)
        = 1960 := by
      norm_num [Finset.sum_range_succ, trialsOf]
    rw [hm]
    have hs : Real.sqrt ((∑ i in Finset.range 5,
        (((trialsOf [2070, 1850, 2070, 1850, 1960] 2000 i : Int) : ℝ) - 1960) ^ 2) /
        (((5 : Nat) : ℝ) - 1)) = 110 := by
      apply sqrt_of_sq _ _ (by norm_num)
      norm_num [Finset.sum_range_succ, trialsOf]
    rw [hs, afterPilot_confirmation_SequentialFinal 5 (by norm_num) _ _ _ 5
      (requiredSamples_five ℝ) (by norm_num)]
    have hl : ∀ i, trialsOf [2070, 1850, 2070, 1850, 1960] (2000 : Int) (5 + i) = 2000 :=
      fun i => trialsOf_later _ _ _ (by simp)
    simp only [hl, show Int.toNat 5 = 5 from rfl]
    norm_num
  · rw [mainBody_eq_OptimizedParallel _ _ (by norm_num)]
    have hm : (∑ i in Finset.range 10,
        (trialsOf [28, 22, 28, 22, 25, 25, 25, 25, 25, 25] (26 : ℝ) i)) / ((10 : Nat) : ℝ)
        = 25 := by
      norm_num [Finset.sum_range_succ, trialsOf]
    rw [hm]
    have hs : Real.sqrt ((∑ i in Finset.range 10,
        ((trialsOf [28, 22, 28, 22, 25, 25, 25, 25, 25, 25] (26 : ℝ) i) - 25) ^ 2) /
        (((10 : Nat) : ℝ) - 1)) = 2 := by
      apply sqrt_of_sq _ _ (by norm_num)
      norm_num [Finset.sum_range_succ, trialsOf]
    rw [hs, afterPilot_confirmation_OptimizedParallel _ 10 (by norm_num) _ _ _ 10
      (requiredSamples_ten ℝ) (by norm_num)]
    have hl : ∀ i, trialsOf [28, 22, 28, 22, 25, 25, 25, 25, 25, 25] (26 : ℝ) (10 + i) = 26 :=
      fun i => trialsOf_later _ _ _ (by simp)
    simp only [hl, show Int.toNat 10 = 10 from rfl]
    norm_num

section Controller

variable {K : Type} [LinearOrderedField K] [FloorRing K]

/-- Claim C2, as amended.  Required sample count in exact arithmetic: when the expression
is evaluated without rounding, for every pilot mean `m0 ≠ 0` and every pilot standard
deviation `s0`, the value every one of the five harness variants computes for
`noOfRequiredSamples` is `ceil (((100 * 1.960 * s0) / (5 * m0))^2)`, and this is the least
integer `N` with `N ≥ (196 * s0)^2 / (5 * m0)^2`.  (The pilot count is at least 2, so
that the statistics of either round exist.) -/
theorem required_sample_count_in_every_variant (sqrt : K → K) (p : Nat) (hp : 2 ≤ p)
    (timesK : Nat → K) (timesZ : Nat → Int) (m0 s0 : K) (hm0 : m0 ≠ 0) :
    IsLeast {N : Int | (196 * s0) ^ 2 / (5 * m0) ^ 2 ≤ (N : K)}
      ⌈((100 * 1.960 * s0) / (5 * m0)) ^ 2⌉ ∧
    requiredSamples s0 m0 = some ⌈((100 * 1.960 * s0) / (5 * m0)) ^ 2⌉ ∧
    (∃ r, SequentialFinal.afterPilot p timesZ m0 s0 = some r ∧
      r.noOfRequiredSamples = ⌈((100 * 1.960 * s0) / (5 * m0)) ^ 2⌉) ∧
    (∃ r, Parallel.afterPilot p timesK m0 s0 = some r ∧
      r.noOfRequiredSamples = ⌈((100 * 1.960 * s0) / (5 * m0)) ^ 2⌉) ∧
    (∃ r, OptimizedParallel.afterPilot sqrt p timesK m0 s0 = some r ∧
      r.noOfRequiredSamples = ⌈((100 * 1.960 * s0) / (5 * m0)) ^ 2⌉) ∧
    (∃ r, AvxSummary.afterPilot sqrt p timesK m0 s0 = some r ∧
      r.noOfRequiredSamples = ⌈((100 * 1.960 * s0) / (5 * m0)) ^ 2⌉) ∧
    (∃ r, NewSummary.afterPilot sqrt p timesZ m0 s0 = some r ∧
      r.noOfRequiredSamples = ⌈((100 * 1.960 * s0) / (5 * m0)) ^ 2⌉) := by
  have hN := requiredSamples_of_ne s0 m0 hm0
  refine ⟨required_formula s0 m0, hN, ?_, ?_, ?_, ?_, ?_⟩
  · by_cases h : ⌈((100 * 1.960 * s0) / (5 * m0)) ^ 2⌉ < (p : Int)
    · exact ⟨_, afterPilot_pilot_SequentialFinal p timesZ m0 s0 _ hN h, rfl⟩
    · exact ⟨_, afterPilot_confirmation_SequentialFinal p hp timesZ m0 s0 _ hN h, rfl⟩
  · by_cases h : ⌈((100 * 1.960 * s0) / (5 * m0)) ^ 2⌉ < (p : Int)
    · exact ⟨_, afterPilot_pilot_Parallel p timesK m0 s0 _ hN h, rfl⟩
    · exact ⟨_, afterPilot_confirmation_Parallel p hp timesK m0 s0 _ hN h, rfl⟩
  · by_cases h : ⌈((100 * 1.960 * s0) / (5 * m0)) ^ 2⌉ < (p : Int)
    · exact ⟨_, afterPilot_pilot_OptimizedParallel sqrt p timesK m0 s0 _ hN h, rfl⟩
    · exact ⟨_, afterPilot_confirmation_OptimizedParallel sqrt p hp timesK m0 s0 _ hN h, rfl⟩
  · by_cases h : ⌈((100 * 1.960 * s0) / (5 * m0)) ^ 2⌉ < (p : Int)
    · exact ⟨_, afterPilot_pilot_AvxSummary sqrt p timesK m0 s0 _ hN h, rfl⟩
    · exact ⟨_, afterPilot_confirmation_AvxSummary sqrt p hp timesK m0 s0 _ hN h, rfl⟩
  · by_cases h : ⌈((100 * 1.960 * s0) / (5 * m0)) ^ 2⌉ < (p : Int)
    · exact ⟨_, afterPilot_pilot_NewSummary sqrt p timesZ m0 s0 _ hN h, rfl⟩
    · exact ⟨_, afterPilot_confirmation_NewSummary sqrt p hp timesZ m0 s0 _ hN h, rfl⟩

end Controller

/-- Instance of `required_sample_count_in_every_variant`: pilot count 10, pilot mean 100
and pilot standard deviation 30 over the real numbers, where the count is 139. -/
theorem required_sample_count_in_every_variant_witness :
    (2 ≤ 10 ∧ (100 : ℝ) ≠ 0) ∧
    requiredSamples (30 : ℝ) 100 = some ⌈((100 * 1.960 * 30) / (5 * 100) : ℝ) ^ 2⌉ ∧
    (⌈((100 * 1.960 * 30) / (5 * 100) : ℝ) ^ 2⌉ = 139) ∧
    ∃ r, OptimizedParallel.afterPilot Real.sqrt 10 (fun _ => 50) (100 : ℝ) 30 = some r ∧
      r.noOfRequiredSamples = ⌈((100 * 1.960 * 30) / (5 * 100) : ℝ) ^ 2⌉ := by
  have h := required_sample_count_in_every_variant Real.sqrt 10 (by norm_num)
    (fun _ => (50 : ℝ)) (fun _ => 50) 100 30 (by norm_num)
  refine ⟨⟨by norm_num, by norm_num⟩, h.2.1, ?_, h.2.2.2.2.1⟩
  exact Option.some.inj (h.2.1.symm.trans (requiredSamples_high ℝ))

/-- Claim C3 (the code departs from it in `sequential_final.cpp`).  The claim has every
variant record the pilot count `p` when it stops at the pilot phase.
`sequential_final.cpp` stores `noOfRequiredSamples` in `noOfSamples` after the `if`, in
both branches: with pilot count 5 and the pilot samples 102, 98, 102, 98, 100 (mean 100,
deviation 2) the required count is 1, no further trial is made, and the recorded triple
is (count 1, mean 100, deviation 2), not (5, 100, 2). -/
theorem sequential_final_records_required_count_at_pilot :
    SequentialFinal.mainBody Real.sqrt 5 (trialsOf [102, 98, 102, 98, 100] 100) =
      some ⟨false, 5, 1, 1, 100, 2⟩ := by
  rw [mainBody_eq_SequentialFinal _ _ (by norm_num)]
  have hm : (∑ i in Finset.range 5,
      ((trialsOf [102, 98, 102, 98, 100] 100 i : Int) : ℝ)) / ((5 : Nat) : ℝ) = 100 := by
    norm_num [Finset.sum_range_succ, trialsOf]
  rw [hm]
  have hs : Real.sqrt ((∑ i in Finset.range 5,
      (((trialsOf [102, 98, 102, 98, 100] 100 i : Int) : ℝ) - 100) ^ 2) /
      (((5 : Nat) : ℝ) - 1)) = 2 := by
    apply sqrt_of_sq _ _ (by norm_num)
    norm_num [Finset.sum_range_succ, trialsOf]
  rw [hs, afterPilot_pilot_SequentialFinal 5 _ _ _ 1 (requiredSamples_low ℝ) (by norm_num)]

section Controller

variable {K : Type} [LinearOrderedField K] [FloorRing K]

end Controller

/-- Claim C5 (the code departs from it in `Final/parallel.cpp` and
`sequential_final.cpp`).  The claim has every variant record the deviation `s1` of the
second sample set.  These two variants recompute only the mean in the `else` branch and
store the `sd` of the first round.  With pilot samples of mean 100 and deviation 30 (145,
55, 145, 55 and six times 100 for pilot count 10; 130, 70, 130, 70, 100 for pilot count 5)
the required count is 139; the 139 fresh trials all last 50; the recorded mean is 50 and
the recorded deviation is still 30, whereas `getSD` on the fresh samples with their mean
50 is 0. -/
theorem pilot_deviation_kept_after_confirmation :
    Parallel.mainBody Real.sqrt 10
        (trialsOf [145, 55, 145, 55, 100, 100, 100, 100, 100, 100] 50) =
      some ⟨true, 149, 139, 139, 50, 30⟩ ∧
    SequentialFinal.mainBody Real.sqrt 5 (trialsOf [130, 70, 130, 70, 100] 50) =
      some ⟨true, 144, 139, 139, 50, 30⟩ ∧
    getSD Real.sqrt
      (fun i => trialsOf [145, 55, 145, 55, 100, 100, 100, 100, 100, 100] 50 (10 + i)) 139 50 =
      some 0 ∧
    getSDLong Real.sqrt (fun i => trialsOf [130, 70, 130, 70, 100] 50 (5 + i)) 139 50 =
      some 0 := by
  refine ⟨?_, ?_, ?_, ?_⟩
  · rw [mainBody_eq_Parallel _ _ (by norm_num)]
    have hm : (∑ i in Finset.range 10,
        (trialsOf [145, 55, 145, 55, 100, 100, 100, 100, 100, 100] (50 : ℝ) i)) /
        ((10 : Nat) : ℝ) = 100 := by
      norm_num [Finset.sum_range_succ, trialsOf]
    rw [hm]
    have hs : Real.sqrt ((∑ i in Finset.range 10,
        ((trialsOf [145, 55, 145, 55, 100, 100, 100, 100, 100, 100] (50 : ℝ) i) - 100) ^ 2) /
        (((10 : Nat) : ℝ) - 1)) = 30 := by
      apply sqrt_of_sq _ _ (by norm_num)
      norm_num [Finset.sum_range_succ, trialsOf]
    rw [hs, afterPilot_confirmation_Parallel 10 (by norm_num) _ _ _ 139
      (requiredSamples_high ℝ) (by norm_num)]
    have hl : ∀ i, trialsOf [145, 55, 145, 55, 100, 100, 100, 100, 100, 100] (50 : ℝ) (10 + i)
        = 50 := fun i => trialsOf_later _ _ _ (by simp)
    simp only [hl, show Int.toNat 139 = 139 from rfl]
    norm_num
  · rw [mainBody_eq_SequentialFinal _ _ (by norm_num)]
    have hm : (∑ i in Finset.range 5,
        ((trialsOf [130, 70, 130, 70, 100] 50 i : Int) : ℝ)) / ((5 : Nat) : ℝ) = 100 := by
      norm_num [Finset.sum_range_succ, trialsOf]
    rw [hm]
    have hs : Real.sqrt ((∑ i in Finset.range 5,
        (((trialsOf [130, 70, 130, 70, 100] 50 i : Int) : ℝ) - 100) ^ 2) /
        (((5 : Nat) : ℝ) - 1)) = 30 := by
      apply sqrt_of_sq _ _ (by norm_num)
      norm_num [Finset.sum_range_succ, trialsOf]
    rw [hs, afterPilot_confirmation_SequentialFinal 5 (by norm_num) _ _ _ 139
      (requiredSamples_high ℝ) (by norm_num)]
    have hl : ∀ i, trialsOf [130, 70, 130, 70, 100] (50 : Int) (5 + i) = 50 :=
      fun i => trialsOf_later _ _ _ (by simp)
    simp only [hl, show Int.toNat 139 = 139 from rfl]
    norm_num
  · rw [getSD_of_ne_one _ _ _ _ (by norm_num)]
    have hl : ∀ i, trialsOf [145, 55, 145, 55, 100, 100, 100, 100, 100, 100] (50 : ℝ) (10 + i)
        = 50 := fun i => trialsOf_later _ _ _ (by simp)
    simp only [hl]
    norm_num
  · rw [getSDLong_of_ne_one _ _ _ _ (by norm_num)]
    have hl : ∀ i, trialsOf [130, 70, 130, 70, 100] (50 : Int) (5 + i) = 50 :=
      fun i => trialsOf_later _ _ _ (by simp)
    simp only [hl]
    norm_num

/-! ## The multiplication kernels -/

section KernelResults

variable {K : Type} [LinearOrderedField K]

/-- Every cell of the result of the triple loop, with the rows taken in any order. -/
theorem naive_loops_apply (rows : List Nat) (matA matB : Matrix2D K) (size : Nat)
    (resMat : Matrix2D K) (a b : Nat) :
    rows.foldl (fun resMat i =>
        (List.range size).foldl (fun resMat j =>
          (List.range size).foldl
            (fun resMat cur => setCell resMat i j (resMat i j + matA i cur * matB cur j))
            (setCell resMat i j 0)) resMat) resMat a b =
      if a ∈ rows ∧ b < size then naiveProduct matA matB size a b else resMat a b := by
  simp only [foldl_accumulate_cell, zero_add]
  exact foldl_rows (fun i j => ∑ cur in Finset.range size, matA i cur * matB cur j) size rows
    resMat a b

/-- The result matrix of the sequential kernel, cell by cell. -/
theorem multiply_matC_SequentialFinal (matA matB : Matrix2D K) (size : Nat)
    (resMat : Matrix2D K) (a b : Nat) :
    (SequentialFinal.multiply matA matB size resMat).matC a b =
      if a < size ∧ b < size then naiveProduct matA matB size a b else resMat a b := by
  unfold SequentialFinal.multiply
  simp only [naive_loops_apply, List.mem_range]

/-- The result matrix of the row-parallel naive kernel, cell by cell. -/
theorem multiply_matC_Parallel (rowOrder : List Nat) (matA matB : Matrix2D K) (size : Nat)
    (resMat : Matrix2D K) (a b : Nat) :
    (Parallel.multiply rowOrder matA matB size resMat).matC a b =
      if a ∈ rowOrder ∧ b < size then naiveProduct matA matB size a b else resMat a b := by
  unfold Parallel.multiply
  simp only [naive_loops_apply]

/-- The result matrix of the AVX kernel for a size `4 * m`, cell by cell, in terms of the
transposed operand. -/
theorem mat_multiply_avx_matC (rowOrder : List Nat) (matA matB : Matrix2D K) (m : Nat)
    (matC : Matrix2D K) (a b : Nat) :
    (mat_multiply_avx rowOrder matA matB (4 * m) matC).matC a b =
      if a ∈ rowOrder ∧ b < 4 * m then
        ∑ k in Finset.range (4 * m), matA a k * getTranspose matB (4 * m) b k
      else matC a b := by
  unfold mat_multiply_avx
  simp only [loadOffsets_mul 4 (by norm_num) m, avx_horizontal_sum]
  exact foldl_rows
    (fun i j => ∑ k in Finset.range (4 * m), matA i k * getTranspose matB (4 * m) j k) (4 * m)
    rowOrder matC a b

/-- The result matrix of the SSE kernel for a size `2 * m`, cell by cell, in terms of the
transposed operand. -/
theorem mat_multiply_compiler_intrinsics_matC (rowOrder : List Nat) (matA matB : Matrix2D K)
    (m : Nat) (matC : Matrix2D K) (a b : Nat) :
    (mat_multiply_compiler_intrinsics rowOrder matA matB (2 * m) matC).matC a b =
      if a ∈ rowOrder ∧ b < 2 * m then
        ∑ k in Finset.range (2 * m), matA a k * getTranspose matB (2 * m) b k
      else matC a b := by
  unfold mat_multiply_compiler_intrinsics
  simp only [loadOffsets_mul 2 (by norm_num) m, sse_horizontal_sum]
  exact foldl_rows
    (fun i j => ∑ k in Finset.range (2 * m), matA i k * getTranspose matB (2 * m) j k) (2 * m)
    rowOrder matC a b

/-- A row of the transposed operand against a row of `A` is a column of the original
operand against that row. -/
theorem sum_mul_getTranspose (A B : Matrix2D K) (n i j : Nat) (hj : j < n) :
    ∑ k in Finset.range n, A i k * getTranspose B n j k =
      ∑ k in Finset.range n, A i k * B k j := by
  apply Finset.sum_congr rfl
  intro k hk
  have hk' : k < n := Finset.mem_range.mp hk
  rw [getTranspose_apply]
  by_cases h : j = k
  · subst h; simp
  · rw [if_pos (by omega)]

/-- Claim C6. The naive kernels compute the matrix product: for every size `n`, all
matrices `A` and `B` and every initial content of the result matrix, after the triple
loop of `multiply` every cell `(i, j)` with `i, j < n` holds the sum over `k < n` of
`A[i][k] * B[k][j]`, which is the value obtained by accumulating the products in
increasing `k` from `0`.  This holds for the sequential kernel and for the row-parallel
kernel, whatever the order in which its row iterations are executed. -/
theorem naive_kernels_compute_product (n : Nat) (A B resMat : Matrix2D K)
    (rowOrder : List Nat) (hrows : rowOrder.Perm (List.range n)) (i j : Nat)
    (hi : i < n) (hj : j < n) :
    (SequentialFinal.multiply A B n resMat).matC i j = ∑ k in Finset.range n, A i k * B k j ∧
    (Parallel.multiply rowOrder A B n resMat).matC i j =
      ∑ k in Finset.range n, A i k * B k j ∧
    (∑ k in Finset.range n, A i k * B k j) =
      (List.range n).foldl (fun acc k => acc + A i k * B k j) 0 := by
  have hmem : i ∈ rowOrder := hrows.mem_iff.mpr (List.mem_range.mpr hi)
  refine ⟨?_, ?_, ?_⟩
  · rw [multiply_matC_SequentialFinal, if_pos ⟨hi, hj⟩]; rfl
  · rw [multiply_matC_Parallel, if_pos ⟨hmem, hj⟩]; rfl
  · rw [foldl_add_range, zero_add]

/-- Claim C7. The vectorized kernels agree with the naive product: for every size `n`
that is a multiple of the vector width (4 for `mat_multiply_avx`, 2 for
`mat_multiply_compiler_intrinsics`), all matrices `A` and `B` and all `i, j < n` (so
`n ≥ 1`), transposing `B` in place, accumulating the lane-wise products and adding up
the lanes leaves in `matC[i][j]` the sum over `k < n` of `A[i][k] * B[k][j]` for the
original `B`; this is the cell the sequential kernel computes. -/
theorem vectorized_kernels_agree_with_naive (n : Nat) (A B matC resMat : Matrix2D K)
    (rowOrder : List Nat) (hrows : rowOrder.Perm (List.range n)) (i j : Nat)
    (hi : i < n) (hj : j < n) :
    (4 ∣ n →
      (mat_multiply_avx rowOrder A B n matC).matC i j = naiveProduct A B n i j ∧
      (mat_multiply_avx rowOrder A B n matC).matC i j =
        (SequentialFinal.multiply A B n resMat).matC i j) ∧
    (2 ∣ n →
      (mat_multiply_compiler_intrinsics rowOrder A B n matC).matC i j =
        naiveProduct A B n i j ∧
      (mat_multiply_compiler_intrinsics rowOrder A B n matC).matC i j =
        (SequentialFinal.multiply A B n resMat).matC i j) := by
  have hmem : i ∈ rowOrder := hrows.mem_iff.mpr (List.mem_range.mpr hi)
  have hseq : (SequentialFinal.multiply A B n resMat).matC i j = naiveProduct A B n i j := by
    rw [multiply_matC_SequentialFinal, if_pos ⟨hi, hj⟩]
  constructor
  · rintro ⟨m, rfl⟩
    have h : (mat_multiply_avx rowOrder A B (4 * m) matC).matC i j =
        naiveProduct A B (4 * m) i j := by
      rw [mat_multiply_avx_matC, if_pos ⟨hmem, hj⟩, sum_mul_getTranspose A B _ i j hj]; rfl
    exact ⟨h, by rw [h, hseq]⟩
  · rintro ⟨m, rfl⟩
    have h : (mat_multiply_compiler_intrinsics rowOrder A B (2 * m) matC).matC i j =
        naiveProduct A B (2 * m) i j := by
      rw [mat_multiply_compiler_intrinsics_matC, if_pos ⟨hmem, hj⟩,
        sum_mul_getTranspose A B _ i j hj]; rfl
    exact ⟨h, by rw [h, hseq]⟩

end KernelResults

/-- Instance of `naive_kernels_compute_product`: two 2 x 2 matrices, the rows taken in
the order 1, 0, and the cell `(1, 0)`, which is `1 * 0 + 3 * 3 = 9`. -/
theorem naive_kernels_compute_product_witness :
    ([1, 0].Perm (List.range 2) ∧ 1 < 2 ∧ 0 < 2) ∧
    (SequentialFinal.multiply (fun i j => ((i + 2 * j : Nat) : ℚ))
      (fun i j => ((3 * i + j : Nat) : ℚ)) 2 (fun _ _ => 7)).matC 1 0 = 9 ∧
    (Parallel.multiply [1, 0] (fun i j => ((i + 2 * j : Nat) : ℚ))
      (fun i j => ((3 * i + j : Nat) : ℚ)) 2 (fun _ _ => 7)).matC 1 0 = 9 := by
  have h := naive_kernels_compute_product 2 (fun i j => ((i + 2 * j : Nat) : ℚ))
    (fun i j => ((3 * i + j : Nat) : ℚ)) (fun _ _ => 7) [1, 0] (by decide) 1 0
    (by decide) (by decide)
  refine ⟨⟨by decide, by decide, by decide⟩, ?_, ?_⟩
  · rw [h.1]; norm_num [Finset.sum_range_succ]
  · rw [h.2.1]; norm_num [Finset.sum_range_succ]

/-- Instance of `vectorized_kernels_agree_with_naive`: size 4, the rows taken in the
order 2, 0, 3, 1, and the cell `(1, 2)`. -/
theorem vectorized_kernels_agree_with_naive_witness :
    ([2, 0, 3, 1].Perm (List.range 4) ∧ 1 < 4 ∧ 2 < 4 ∧ 4 ∣ 4 ∧ 2 ∣ 4) ∧
    (mat_multiply_avx [2, 0, 3, 1] (fun i j => ((i + 2 * j : Nat) : ℚ))
      (fun i j => ((3 * i + j : Nat) : ℚ)) 4 (fun _ _ => 7)).matC 1 2 =
        naiveProduct (fun i j => ((i + 2 * j : Nat) : ℚ))
          (fun i j => ((3 * i + j : Nat) : ℚ)) 4 1 2 ∧
    (mat_multiply_compiler_intrinsics [2, 0, 3, 1] (fun i j => ((i + 2 * j : Nat) : ℚ))
      (fun i j => ((3 * i + j : Nat) : ℚ)) 4 (fun _ _ => 7)).matC 1 2 =
        naiveProduct (fun i j => ((i + 2 * j : Nat) : ℚ))
          (fun i j => ((3 * i + j : Nat) : ℚ)) 4 1 2 := by
  have h := vectorized_kernels_agree_with_naive 4 (fun i j => ((i + 2 * j : Nat) : ℚ))
    (fun i j => ((3 * i + j : Nat) : ℚ)) (fun _ _ => 7) (fun _ _ => 7) [2, 0, 3, 1]
    (by decide) 1 2 (by decide) (by decide)
  exact ⟨⟨by decide, by decide, by decide, by decide, by decide⟩,
    (h.1 (by decide)).1, (h.2 (by decide)).1⟩

/-- Claim C8. Vector-width divisibility and bounds: for every size `n`, all the vector
loads of the inner loop of a vectorized kernel (the elements `k .. k + width - 1` of an
`n`-entry row, for `k = 0, width, 2 * width, ... < n`) lie inside the row if and only if
`n` is a multiple of the width (4 for AVX, 2 for SSE); when `n` is not a multiple, the
load of the last iteration starts inside the row and reads past its end. -/
theorem vector_loads_in_bounds_iff_divisible (n : Nat) :
    ((∀ k ∈ loadOffsets 4 n 0, loadInBounds 4 n k) ↔ 4 ∣ n) ∧
    ((∀ k ∈ loadOffsets 2 n 0, loadInBounds 2 n k) ↔ 2 ∣ n) ∧
    (¬ 4 ∣ n → ∃ k, (loadOffsets 4 n 0).getLast? = some k ∧ k < n ∧ ¬ loadInBounds 4 n k) ∧
    (¬ 2 ∣ n → ∃ k, (loadOffsets 2 n 0).getLast? = some k ∧ k < n ∧ ¬ loadInBounds 2 n k) :=
  ⟨loads_in_bounds_iff 4 (by norm_num) n, loads_in_bounds_iff 2 (by norm_num) n,
    last_load_out_of_bounds 4 (by norm_num) n, last_load_out_of_bounds 2 (by norm_num) n⟩

/-- Instance of `vector_loads_in_bounds_iff_divisible`: size 6 for the AVX kernel and
size 5 for the SSE kernel. -/
theorem vector_loads_in_bounds_iff_divisible_witness :
    (¬ 4 ∣ 6 ∧ ∃ k, (loadOffsets 4 6 0).getLast? = some k ∧ k < 6 ∧ ¬ loadInBounds 4 6 k) ∧
    (¬ 2 ∣ 5 ∧ ∃ k, (loadOffsets 2 5 0).getLast? = some k ∧ k < 5 ∧ ¬ loadInBounds 2 5 k) :=
  ⟨⟨by decide, (vector_loads_in_bounds_iff_divisible 6).2.2.1 (by decide)⟩,
   ⟨by decide, (vector_loads_in_bounds_iff_divisible 5).2.2.2 (by decide)⟩⟩

section TransposeResults

variable {K : Type}

/-- An element of a list without duplicates is counted once. -/
theorem count_eq_one_of_nodup {α : Type} [BEq α] [LawfulBEq α] {a : α} {l : List α}
    (hnd : l.Nodup) (h : a ∈ l) : l.count a = 1 := by
  induction l with
  | nil => simp at h
  | cons x l ih =>
    obtain ⟨hx, hl⟩ := List.nodup_cons.mp hnd
    rw [List.count_cons]
    rcases List.mem_cons.mp h with rfl | h'
    · simp [List.count_eq_zero_of_not_mem hx]
    · have hne : x ≠ a := fun e => hx (e ▸ h')
      simp [ih hl h', hne]

/-- Claim C9. Transpose round trip: for every size `n` and every matrix `M`, applying
`getTranspose` twice gives back `M` in every cell. -/
theorem getTranspose_twice (n : Nat) (M : Matrix2D K) :
    getTranspose (getTranspose M n) n = M := by
  funext a b
  simp only [getTranspose_apply]
  by_cases h : (a < b ∧ b < n) ∨ (b < a ∧ a < n)
  · rw [if_pos h, if_pos h.symm]
  · rw [if_neg h, if_neg h]

/-- Claim C10. Transpose is the mathematical transpose: for every size `n`, every matrix
`M` and all `i, j < n` the matrix `T` produced by `getTranspose (M, n)` has
`T[i][j] = M[j][i]`; each pair `(i, j)` with `i < j < n` is swapped exactly once (and
never as `(j, i)`), every swap is at such a pair, and no swap writes a diagonal cell. -/
theorem getTranspose_is_transpose (n : Nat) (M : Matrix2D K) :
    (∀ i j, i < n → j < n → getTranspose M n i j = M j i) ∧
    (∀ i j, i < j → j < n →
      (transposeSwaps n).count (i, j) = 1 ∧ (transposeSwaps n).count (j, i) = 0) ∧
    (∀ p ∈ transposeSwaps n, p.1 < p.2 ∧ p.2 < n) ∧
    (∀ p ∈ transposeSwaps n, ∀ (m : Matrix2D K) (d : Nat), swapCells m p.1 p.2 d d = m d d) := by
  refine ⟨?_, ?_, ?_, ?_⟩
  · intro i j hi hj
    rw [getTranspose_apply]
    by_cases h : i = j
    · subst h; simp
    · rw [if_pos (by omega)]
  · intro i j hij hj
    refine ⟨count_eq_one_of_nodup (nodup_transposeSwaps n)
      ((mem_transposeSwaps n (i, j)).mpr ⟨hij, hj⟩), List.count_eq_zero_of_not_mem ?_⟩
    intro h
    have := ((mem_transposeSwaps n (j, i)).mp h).1
    simp only at this
    omega
  · intro p hp
    exact (mem_transposeSwaps n p).mp hp
  · intro p hp m d
    have hlt := ((mem_transposeSwaps n p).mp hp).1
    unfold swapCells
    rw [if_neg (by omega), if_neg (by omega)]

end TransposeResults

/-- Instance of `getTranspose_is_transpose`: a 3 x 3 matrix with `M[i][j] = 10 i + j`
and the pair `(0, 2)`. -/
theorem getTranspose_is_transpose_witness :
    (0 < 3 ∧ 2 < 3 ∧ 0 < 2) ∧
    getTranspose (fun i j => ((10 * i + j : Nat) : Int)) 3 0 2 = 20 ∧
    (transposeSwaps 3).count (0, 2) = 1 ∧ (transposeSwaps 3).count (2, 0) = 0 := by
  have h := getTranspose_is_transpose 3 (fun i j => ((10 * i + j : Nat) : Int))
  refine ⟨⟨by decide, by decide, by decide⟩, ?_, h.2.1 0 2 (by decide) (by decide)⟩
  rw [h.1 0 2 (by decide) (by decide)]
  rfl

/-! ## Mean and standard deviation -/

section SampleStatistics

variable {K : Type} [LinearOrderedField K]

/-- Claim C11, as amended.  Mean in exact arithmetic: when the additions and the division
are carried out without rounding and the `long` sum does not overflow, for every non-empty
sequence of `size` samples `getMean` returns the arithmetic mean, a value `m` with
`m * size` equal to the sum of the samples; in the `long` variants the sum is the exact
integer sum, converted before the division. -/
theorem getMean_is_arithmetic_mean (size : Nat) (hsize : size ≠ 0) (timesK : Nat → K)
    (timesZ : Nat → Int) :
    (∃ m, getMean timesK size = some m ∧
      m * (size : K) = ∑ i in Finset.range size, timesK i) ∧
    (∃ m, getMeanLong K timesZ size = some m ∧
      m * (size : K) = ((∑ i in Finset.range size, timesZ i : Int) : K)) := by
  have hne : (size : K) ≠ 0 := Nat.cast_ne_zero.mpr hsize
  refine ⟨⟨_, getMean_of_ne_zero timesK size hsize, div_mul_cancel₀ _ hne⟩,
    ⟨_, getMeanLong_of_ne_zero timesZ size hsize, ?_⟩⟩
  rw [div_mul_cancel₀ _ hne, Int.cast_sum]

/-- Claim C12, as amended.  Sample standard deviation uses Bessel's correction, in exact
arithmetic: when no operation is rounded and `sqrt` is the exact non-negative square root
on non-negative arguments, for every sequence of `size ≥ 2` samples and every given mean,
the value `sd` that `getSD` computes is non-negative and satisfies
`sd² = (Σ (samples[i] - mean)²) / (size - 1)`. -/
theorem getSD_uses_bessel_correction (sqrt : K → K)
    (hsqrt : ∀ x : K, 0 ≤ x → 0 ≤ sqrt x ∧ sqrt x ^ 2 = x) (size : Nat) (hsize : 2 ≤ size)
    (timesK : Nat → K) (timesZ : Nat → Int) (mean : K) :
    (∃ sd, getSD sqrt timesK size mean = some sd ∧ 0 ≤ sd ∧
      sd ^ 2 = (∑ i in Finset.range size, (timesK i - mean) ^ 2) / ((size : K) - 1)) ∧
    (∃ sd, getSDLong sqrt timesZ size mean = some sd ∧ 0 ≤ sd ∧
      sd ^ 2 = (∑ i in Finset.range size, ((timesZ i : K) - mean) ^ 2) / ((size : K) - 1)) := by
  have hpos : (0 : K) < (size : K) - 1 := by
    have : (2 : K) ≤ (size : K) := by exact_mod_cast hsize
    linarith
  have hK : (0 : K) ≤ (∑ i in Finset.range size, (timesK i - mean) ^ 2) / ((size : K) - 1) :=
    div_nonneg (Finset.sum_nonneg fun i _ => sq_nonneg _) hpos.le
  have hZ : (0 : K) ≤
      (∑ i in Finset.range size, ((timesZ i : K) - mean) ^ 2) / ((size : K) - 1) :=
    div_nonneg (Finset.sum_nonneg fun i _ => sq_nonneg _) hpos.le
  exact ⟨⟨_, getSD_of_ne_one sqrt timesK size mean (by omega), (hsqrt _ hK).1, (hsqrt _ hK).2⟩,
    ⟨_, getSDLong_of_ne_one sqrt timesZ size mean (by omega), (hsqrt _ hZ).1, (hsqrt _ hZ).2⟩⟩

/-- Claim C16, as amended.  For every sample sequence of size exactly 1 and every mean,
`getSD` reports no error: it divides the sum of squared deviations by `size - 1 = 0`
unchecked, in the `double` and in the `long` variants. -/
theorem getSD_single_sample_divides_unchecked (sqrt : K → K) (timesK : Nat → K)
    (timesZ : Nat → Int) (mean : K) :
    getSD sqrt timesK 1 mean = none ∧ getSDLong sqrt timesZ 1 mean = none ∧
    ending (getSD sqrt timesK 1 mean) = Ending.dividedByZero ∧
    ending (getSDLong sqrt timesZ 1 mean) = Ending.dividedByZero := by
  have h1 : getSD sqrt timesK 1 mean = none := by simp [getSD]
  have h2 : getSDLong sqrt timesZ 1 mean = none := by simp [getSDLong]
  exact ⟨h1, h2, by rw [h1]; rfl, by rw [h2]; rfl⟩

/-- Claim C17, as amended.  For `size = 0`, `getMean` reports no error: it evaluates
`sum / 0` unchecked, in the `double` and in the `long` variants. -/
theorem getMean_empty_divides_unchecked (timesK : Nat → K) (timesZ : Nat → Int) :
    getMean timesK 0 = none ∧ getMeanLong K timesZ 0 = none ∧
    ending (getMean timesK 0) = Ending.dividedByZero ∧
    ending (getMeanLong K timesZ 0) = Ending.dividedByZero := by
  have h1 : getMean timesK 0 = none := by simp [getMean]
  have h2 : getMeanLong K timesZ 0 = none := by simp [getMeanLong]
  exact ⟨h1, h2, by rw [h1]; rfl, by rw [h2]; rfl⟩

end SampleStatistics

/-- Instance of `getMean_is_arithmetic_mean`: the three samples 4, 5, 9, whose sum is 18. -/
theorem getMean_is_arithmetic_mean_witness :
    (3 ≠ 0) ∧
    (∃ m, getMean (trialsOf [(4 : ℚ), 5, 9] 0) 3 = some m ∧ m * ((3 : Nat) : ℚ) = 18) ∧
    (∃ m, getMeanLong ℚ (trialsOf [4, 5, 9] 0) 3 = some m ∧ m * ((3 : Nat) : ℚ) = 18) := by
  have h := getMean_is_arithmetic_mean (K := ℚ) 3 (by decide) (trialsOf [(4 : ℚ), 5, 9] 0)
    (trialsOf [4, 5, 9] 0)
  obtain ⟨⟨m, hm, e⟩, ⟨m', hm', e'⟩⟩ := h
  refine ⟨by decide, ⟨m, hm, ?_⟩, ⟨m', hm', ?_⟩⟩
  · rw [e]; norm_num [Finset.sum_range_succ, trialsOf]
  · rw [e']; norm_num [Finset.sum_range_succ, trialsOf]

/-- Instance of `getSD_uses_bessel_correction`: the real numbers with the real square
root, and the samples 4, 5, 9 with mean 6; the squared deviations add up to 14 and the
variance is 7. -/
theorem getSD_uses_bessel_correction_witness :
    ((∀ x : ℝ, 0 ≤ x → 0 ≤ Real.sqrt x ∧ Real.sqrt x ^ 2 = x) ∧ 2 ≤ 3) ∧
    (∃ sd, getSD Real.sqrt (trialsOf [(4 : ℝ), 5, 9] 0) 3 6 = some sd ∧ 0 ≤ sd ∧ sd ^ 2 = 7) ∧
    (∃ sd, getSDLong Real.sqrt (trialsOf [4, 5, 9] 0) 3 (6 : ℝ) = some sd ∧ 0 ≤ sd ∧
      sd ^ 2 = 7) := by
  have hs : ∀ x : ℝ, 0 ≤ x → 0 ≤ Real.sqrt x ∧ Real.sqrt x ^ 2 = x :=
    fun x hx => ⟨Real.sqrt_nonneg x, Real.sq_sqrt hx⟩
  obtain ⟨⟨sd, h1, h2, h3⟩, ⟨sd', h1', h2', h3'⟩⟩ :=
    getSD_uses_bessel_correction Real.sqrt hs 3 (by norm_num) (trialsOf [(4 : ℝ), 5, 9] 0)
      (trialsOf [4, 5, 9] 0) 6
  refine ⟨⟨hs, by norm_num⟩, ⟨sd, h1, h2, ?_⟩, ⟨sd', h1', h2', ?_⟩⟩
  · rw [h3]; norm_num [Finset.sum_range_succ, trialsOf]
  · rw [h3']; norm_num [Finset.sum_range_succ, trialsOf]

/-- Claim C16 is not what the code does: `getSD` on the single sample 3 with mean 3 ends
in a division by zero, not in a report of `InsufficientSamplesError`. -/
theorem getSD_single_sample_reports_no_error :
    ending (getSD Real.sqrt (fun _ => 3) 1 3) ≠
      Ending.reported SpecError.InsufficientSamplesError ∧
    ending (getSDLong Real.sqrt (fun _ => 3) 1 3) ≠
      Ending.reported SpecError.InsufficientSamplesError := by
  constructor <;> simp [getSD, getSDLong, ending]

/-- Claim C17 is not what the code does: `getMean` on an empty sequence ends in a division
by zero, not in a report of `EmptyInputError`. -/
theorem getMean_empty_reports_no_error :
    ending (getMean (fun _ => (0 : ℝ)) 0) ≠ Ending.reported SpecError.EmptyInputError ∧
    ending (getMeanLong ℝ (fun _ => 0) 0) ≠ Ending.reported SpecError.EmptyInputError := by
  constructor <;> simp [getMean, getMeanLong, ending]

/-! ## Zero deviation and zero mean of the pilot set -/

section PilotEdgeCases

variable {K : Type} [LinearOrderedField K] [FloorRing K]

/-- With pilot deviation 0 and a pilot mean other than 0 the required count is 0. -/
theorem requiredSamples_zero_deviation (m0 : K) (hm0 : m0 ≠ 0) :
    requiredSamples (0 : K) m0 = some 0 := by
  rw [requiredSamples_of_ne _ _ hm0]
  simp

/-- With pilot mean 0 the divisor `5 * mean` is 0. -/
theorem requiredSamples_zero_mean (s0 : K) : requiredSamples s0 (0 : K) = none := by
  unfold requiredSamples
  rw [if_pos (by simp)]

/-- With pilot deviation 0, a pilot mean other than 0 and a pilot count of at least 1,
every variant stops at the pilot phase; `sequential_final.cpp` records the count 0, the
other four variants record the pilot count. -/
theorem zero_deviation_stops_at_pilot (sqrt : K → K) (p : Nat) (hp : 1 ≤ p)
    (timesK : Nat → K) (timesZ : Nat → Int) (m0 : K) (hm0 : m0 ≠ 0) :
    SequentialFinal.afterPilot p timesZ m0 0 = some ⟨false, p, 0, 0, m0, 0⟩ ∧
    Parallel.afterPilot p timesK m0 0 = some ⟨false, p, 0, p, m0, 0⟩ ∧
    OptimizedParallel.afterPilot sqrt p timesK m0 0 = some ⟨false, p, 0, p, m0, 0⟩ ∧
    AvxSummary.afterPilot sqrt p timesK m0 0 = some ⟨false, p, 0, p, m0, 0⟩ ∧
    NewSummary.afterPilot sqrt p timesZ m0 0 = some ⟨false, p, 0, p, m0, 0⟩ := by
  have h0 := requiredSamples_zero_deviation m0 hm0
  have hlt : (0 : Int) < (p : Int) := by omega
  exact ⟨afterPilot_pilot_SequentialFinal p timesZ m0 0 0 h0 hlt,
    afterPilot_pilot_Parallel p timesK m0 0 0 h0 hlt,
    afterPilot_pilot_OptimizedParallel sqrt p timesK m0 0 0 h0 hlt,
    afterPilot_pilot_AvxSummary sqrt p timesK m0 0 0 h0 hlt,
    afterPilot_pilot_NewSummary sqrt p timesZ m0 0 0 h0 hlt⟩

/-- Claim C15, as amended.  For every pilot set (of at least two samples) whose mean is 0,
no variant of the controller reports an error: the mean 0 is computed, the quotient
`(100*1.960*sd)/(5*mean)` is evaluated with the divisor 0 unchecked, and the loop body
ends in that division by zero, whatever the standard deviation is. -/
theorem zero_pilot_mean_divides_unchecked (sqrt : K → K) (p : Nat) (hp : 2 ≤ p)
    (timesK : Nat → K) (timesZ : Nat → Int)
    (hK : ∑ i in Finset.range p, timesK i = 0) (hZ : ∑ i in Finset.range p, timesZ i = 0) :
    getMean timesK p = some 0 ∧ getMeanLong K timesZ p = some 0 ∧
    (∀ s0 : K, requiredSamples s0 (0 : K) = none) ∧
    ending (SequentialFinal.mainBody sqrt p timesZ) = Ending.dividedByZero ∧
    ending (Parallel.mainBody sqrt p timesK) = Ending.dividedByZero ∧
    ending (OptimizedParallel.mainBody sqrt p timesK) = Ending.dividedByZero ∧
    ending (AvxSummary.mainBody sqrt p timesK) = Ending.dividedByZero ∧
    ending (NewSummary.mainBody sqrt p timesZ) = Ending.dividedByZero := by
  have hZ' : ∑ i in Finset.range p, (timesZ i : K) = 0 := by
    rw [← Int.cast_sum, hZ, Int.cast_zero]
  refine ⟨?_, ?_, requiredSamples_zero_mean, ?_, ?_, ?_, ?_, ?_⟩
  · rw [getMean_of_ne_zero _ _ (by omega), hK, zero_div]
  · rw [getMeanLong_of_ne_zero _ _ (by omega), hZ', zero_div]
  · rw [mainBody_eq_SequentialFinal sqrt p hp, hZ', zero_div]
    simp [SequentialFinal.afterPilot, requiredSamples_zero_mean, ending]
  · rw [mainBody_eq_Parallel sqrt p hp, hK, zero_div]
    simp [Parallel.afterPilot, requiredSamples_zero_mean, ending]
  · rw [mainBody_eq_OptimizedParallel sqrt p hp, hK, zero_div]
    simp [OptimizedParallel.afterPilot, requiredSamples_zero_mean, ending]
  · rw [mainBody_eq_AvxSummary sqrt p hp, hK, zero_div]
    simp [AvxSummary.afterPilot, requiredSamples_zero_mean, ending]
  · rw [mainBody_eq_NewSummary sqrt p hp, hZ', zero_div]
    simp [NewSummary.afterPilot, requiredSamples_zero_mean, ending]

end PilotEdgeCases

/-- Claim C14 (the code departs from it in `sequential_final.cpp`, by the defect of claim
C3).  The claim has the controller record the pilot count `p` when the pilot deviation
is 0.  With pilot count 5 and five pilot samples equal to 100 (mean 100, deviation 0) the
required count is 0 and `sequential_final.cpp` stops at the pilot phase, but the count it
records is 0, not 5.  `Final/optimized_parallel.cpp` with ten pilot samples equal to 100
records the count 10. -/
theorem zero_deviation_recorded_count_sequential_final :
    requiredSamples (0 : ℝ) 100 = some 0 ∧
    SequentialFinal.mainBody Real.sqrt 5 (trialsOf [100, 100, 100, 100, 100] 100) =
      some ⟨false, 5, 0, 0, 100, 0⟩ ∧
    OptimizedParallel.mainBody Real.sqrt 10
        (trialsOf [100, 100, 100, 100, 100, 100, 100, 100, 100, 100] 100) =
      some ⟨false, 10, 0, 10, 100, 0⟩ := by
  have h0 : requiredSamples (0 : ℝ) 100 = some 0 :=
    requiredSamples_zero_deviation 100 (by norm_num)
  refine ⟨h0, ?_, ?_⟩
  · rw [mainBody_eq_SequentialFinal _ _ (by norm_num)]
    have hm : (∑ i in Finset.range 5,
        ((trialsOf [100, 100, 100, 100, 100] 100 i : Int) : ℝ)) / ((5 : Nat) : ℝ) = 100 := by
      norm_num [Finset.sum_range_succ, trialsOf]
    rw [hm]
    have hs : Real.sqrt ((∑ i in Finset.range 5,
        (((trialsOf [100, 100, 100, 100, 100] 100 i : Int) : ℝ) - 100) ^ 2) /
        (((5 : Nat) : ℝ) - 1)) = 0 := by
      apply sqrt_of_sq _ _ (by norm_num)
      norm_num [Finset.sum_range_succ, trialsOf]
    rw [hs, afterPilot_pilot_SequentialFinal 5 _ _ _ 0 h0 (by norm_num)]
  · rw [mainBody_eq_OptimizedParallel _ _ (by norm_num)]
    have hm : (∑ i in Finset.range 10,
        (trialsOf [100, 100, 100, 100, 100, 100, 100, 100, 100, 100] (100 : ℝ) i)) /
        ((10 : Nat) : ℝ) = 100 := by
      norm_num [Finset.sum_range_succ, trialsOf]
    rw [hm]
    have hs : Real.sqrt ((∑ i in Finset.range 10,
        ((trialsOf [100, 100, 100, 100, 100, 100, 100, 100, 100, 100] (100 : ℝ) i) - 100) ^ 2) /
        (((10 : Nat) : ℝ) - 1)) = 0 := by
      apply sqrt_of_sq _ _ (by norm_num)
      norm_num [Finset.sum_range_succ, trialsOf]
    rw [hs, afterPilot_pilot_OptimizedParallel _ 10 _ _ _ 0 h0 (by norm_num)]
    rfl

/-- Claim C15 is not what the code does: with five pilot samples of 0 ms in
`sequential_final.cpp`, and with ten in `Final/optimized_parallel.cpp`, the pilot mean is
0 and the loop body ends in a division by zero, not in a report of
`DivisionByZeroError`. -/
theorem zero_pilot_mean_reports_no_error :
    getMeanLong ℝ (fun _ => 0) 5 = some 0 ∧
    ending (SequentialFinal.mainBody Real.sqrt 5 (fun _ => 0)) ≠
      Ending.reported SpecError.DivisionByZeroError ∧
    getMean (fun _ => (0 : ℝ)) 10 = some 0 ∧
    ending (OptimizedParallel.mainBody Real.sqrt 10 (fun _ => 0)) ≠
      Ending.reported SpecError.DivisionByZeroError := by
  have hS : SequentialFinal.mainBody Real.sqrt 5 (fun _ => 0) = none := by
    rw [mainBody_eq_SequentialFinal _ _ (by norm_num)]
    simp [SequentialFinal.afterPilot, requiredSamples_zero_mean]
  have hO : OptimizedParallel.mainBody Real.sqrt 10 (fun _ => 0) = none := by
    rw [mainBody_eq_OptimizedParallel _ _ (by norm_num)]
    simp [OptimizedParallel.afterPilot, requiredSamples_zero_mean]
  refine ⟨?_, ?_, ?_, ?_⟩
  · rw [getMeanLong_of_ne_zero _ _ (by norm_num)]; simp
  · rw [hS]; simp [ending]
  · rw [getMean_of_ne_zero _ _ (by norm_num)]; simp
  · rw [hO]; simp [ending]

/-- Instance of `zero_pilot_mean_divides_unchecked`: five pilot samples equal to 0 and the
real square root. -/
theorem zero_pilot_mean_divides_unchecked_witness :
    (2 ≤ 5 ∧ ∑ i in Finset.range 5, (fun _ => (0 : ℝ)) i = 0 ∧
      ∑ i in Finset.range 5, (fun _ => (0 : Int)) i = 0) ∧
    getMeanLong ℝ (fun _ => 0) 5 = some 0 ∧
    ending (SequentialFinal.mainBody Real.sqrt 5 (fun _ => 0)) = Ending.dividedByZero := by
  have h := zero_pilot_mean_divides_unchecked Real.sqrt 5 (by norm_num) (fun _ => (0 : ℝ))
    (fun _ => (0 : Int)) (by simp) (by simp)
  exact ⟨⟨by norm_num, by simp, by simp⟩, h.2.1, h.2.2.2.1⟩

/-! ## The two scenarios of the specification -/

/-- The required count for pilot mean 100 and the deviation `√(30/9)`: the squared
quotient is `(196/500)² · 30/9 = 0.512...`. -/
theorem requiredSamples_low_variance_scenario :
    requiredSamples (Real.sqrt (30 / 9)) (100 : ℝ) = some 1 := by
  rw [requiredSamples_of_ne _ _ (by norm_num)]
  congr 1
  have e : ((100 * 1.960 * Real.sqrt (30 / 9)) / (5 * 100)) ^ 2 =
      (196 / 500) ^ 2 * (30 / 9 : ℝ) := by
    rw [div_pow, mul_pow, Real.sq_sqrt (by norm_num)]
    norm_num
  rw [e, Int.ceil_eq_iff]
  norm_num

/-- Claim C18. End-to-end low-variance scenario: with pilot count 10 and the pilot samples
100, 102, 98, 101, 99, 100, 103, 97, 101, 99, `getMean` gives exactly 100, the sample
variance is 30/9 (deviation `√(30/9)`, between 1.82 and 1.83), the required count is 1,
and the controller of each variant with pilot count 10 stops at the pilot phase and
records (count 10, mean 100, deviation `√(30/9)`). -/
theorem low_variance_scenario_ends_at_pilot :
    getMean (trialsOf [100, 102, 98, 101, 99, 100, 103, 97, 101, 99] (100 : ℝ)) 10 = some 100 ∧
    getSD Real.sqrt (trialsOf [100, 102, 98, 101, 99, 100, 103, 97, 101, 99] (100 : ℝ)) 10 100 =
      some (Real.sqrt (30 / 9)) ∧
    (1.82 < Real.sqrt (30 / 9) ∧ Real.sqrt (30 / 9) < 1.83) ∧
    requiredSamples (Real.sqrt (30 / 9)) (100 : ℝ) = some 1 ∧
    OptimizedParallel.mainBody Real.sqrt OptimizedParallel.noOfInitialSamples
        (trialsOf [100, 102, 98, 101, 99, 100, 103, 97, 101, 99] 100) =
      some ⟨false, 10, 1, 10, 100, Real.sqrt (30 / 9)⟩ ∧
    Parallel.mainBody Real.sqrt Parallel.noOfInitialSamples
        (trialsOf [100, 102, 98, 101, 99, 100, 103, 97, 101, 99] 100) =
      some ⟨false, 10, 1, 10, 100, Real.sqrt (30 / 9)⟩ ∧
    AvxSummary.mainBody Real.sqrt AvxSummary.noOfInitialSamples
        (trialsOf [100, 102, 98, 101, 99, 100, 103, 97, 101, 99] 100) =
      some ⟨false, 10, 1, 10, 100, Real.sqrt (30 / 9)⟩ := by
  have hm : (∑ i in Finset.range 10,
      (trialsOf [100, 102, 98, 101, 99, 100, 103, 97, 101, 99] (100 : ℝ) i)) /
      ((10 : Nat) : ℝ) = 100 := by
    norm_num [Finset.sum_range_succ, trialsOf]
  have hv : (∑ i in Finset.range 10,
      ((trialsOf [100, 102, 98, 101, 99, 100, 103, 97, 101, 99] (100 : ℝ) i) - 100) ^ 2) /
      (((10 : Nat) : ℝ) - 1) = 30 / 9 := by
    norm_num [Finset.sum_range_succ, trialsOf]
  refine ⟨?_, ?_, ⟨?_, ?_⟩, requiredSamples_low_variance_scenario, ?_, ?_, ?_⟩
  · rw [getMean_of_ne_zero _ _ (by norm_num), hm]
  · rw [getSD_of_ne_one _ _ _ _ (by norm_num), hv]
  · rw [Real.lt_sqrt (by norm_num)]; norm_num
  · rw [Real.sqrt_lt' (by norm_num)]; norm_num
  · rw [OptimizedParallel.noOfInitialSamples, mainBody_eq_OptimizedParallel _ _ (by norm_num),
      hm, hv, afterPilot_pilot_OptimizedParallel _ 10 _ _ _ 1
        requiredSamples_low_variance_scenario (by norm_num)]
    rfl
  · rw [Parallel.noOfInitialSamples, mainBody_eq_Parallel _ _ (by norm_num),
      hm, hv, afterPilot_pilot_Parallel 10 _ _ _ 1
        requiredSamples_low_variance_scenario (by norm_num)]
    rfl
  · rw [AvxSummary.noOfInitialSamples, mainBody_eq_AvxSummary _ _ (by norm_num),
      hm, hv, afterPilot_pilot_AvxSummary _ 10 _ _ _ 1
        requiredSamples_low_variance_scenario (by norm_num)]
    rfl

section HighVariance

variable {K : Type} [LinearOrderedField K] [FloorRing K]

end HighVariance

/-! ## The summary table -/

/-- Claim C20 is not what the code does: the rows of `sequential_final.cpp` and of
`Final/parallel.cpp` list the standard deviation before the sample size and the mean, and
their header lines do not name the columns in the order matrix size, sample size, mean,
standard deviation. -/
theorem summary_column_order_differs :
    rowColumns (SequentialFinal.summaryRow (fun _ => 5) (fun _ => (100 : ℚ)) (fun _ => 2) 0) =
      [Column.matrixSize, Column.standardDeviation, Column.sampleSize, Column.mean] ∧
    rowColumns (SequentialFinal.summaryRow (fun _ => 5) (fun _ => (100 : ℚ)) (fun _ => 2) 0) ≠
      [Column.matrixSize, Column.sampleSize, Column.mean, Column.standardDeviation] ∧
    rowColumns (Parallel.summaryRow (fun _ => 10) (fun _ => (100 : ℚ)) (fun _ => 2) 0) ≠
      [Column.matrixSize, Column.sampleSize, Column.mean, Column.standardDeviation] ∧
    ¬ headerHasHeadings SequentialFinal.summaryHeader
      ["matrix size", "sample size", "mean", "Standard Deviation"] ∧
    ¬ headerHasHeadings Parallel.summaryHeader
      ["Matrix size", "Sample size", "Mean", "Standard Deviation"] := by
  refine ⟨rfl, by decide, by decide, by decide, by decide⟩

section SummaryTable

variable {K : Type}

/-- Claim C20, as amended.  In every variant the summary has one row per matrix size
(ten rows, beginning with 100, 200, ..., 1000), every row lists its values in the order
in which the header names the columns, and that order is matrix size, sample size, mean,
standard deviation in `Final/optimized_parallel.cpp` and the two summary variants, and
matrix size, standard deviation, sample size, mean in `sequential_final.cpp` and
`Final/parallel.cpp`.  In the four variants other than `Final/parallel.cpp` a literal
separates every value of a row from the next. -/
theorem summary_header_and_rows_agree (noOfSamples : Nat → Int)
    (sampleMean sampleStandardDeviation : Nat → K) :
    -- one row per matrix size
    ((SequentialFinal.summaryRows noOfSamples sampleMean sampleStandardDeviation).map List.head?
        = tenSizes K ∧
      (Parallel.summaryRows noOfSamples sampleMean sampleStandardDeviation).map List.head?
        = tenSizes K ∧
      (OptimizedParallel.summaryRows noOfSamples sampleMean sampleStandardDeviation).map
        List.head? = tenSizes K ∧
      (AvxSummary.summaryRows noOfSamples sampleMean sampleStandardDeviation).map List.head?
        = tenSizes K ∧
      (NewSummary.summaryRows noOfSamples sampleMean sampleStandardDeviation).map List.head?
        = tenSizes K) ∧
    -- the order of the values in every row
    ((SequentialFinal.summaryRows noOfSamples sampleMean sampleStandardDeviation).map rowColumns
        = List.replicate 10 sizeDeviationCountMean ∧
      (Parallel.summaryRows noOfSamples sampleMean sampleStandardDeviation).map rowColumns
        = List.replicate 10 sizeDeviationCountMean ∧
      (OptimizedParallel.summaryRows noOfSamples sampleMean sampleStandardDeviation).map
        rowColumns = List.replicate 10 sizeCountMeanDeviation ∧
      (AvxSummary.summaryRows noOfSamples sampleMean sampleStandardDeviation).map rowColumns
        = List.replicate 10 sizeCountMeanDeviation ∧
      (NewSummary.summaryRows noOfSamples sampleMean sampleStandardDeviation).map rowColumns
        = List.replicate 10 sizeCountMeanDeviation) ∧
    -- the header names the columns in the order of the rows
    ((headerHasHeadings SequentialFinal.summaryHeader
          ["matrix size", "Standard Deviation", "sample size", "mean"] ∧
        ["matrix size", "Standard Deviation", "sample size", "mean"].map columnOfHeading
          = sizeDeviationCountMean.map some) ∧
      (headerHasHeadings Parallel.summaryHeader
          ["Matrix size", "Standard Deviation", "Sample size", "Mean"] ∧
        ["Matrix size", "Standard Deviation", "Sample size", "Mean"].map columnOfHeading
          = sizeDeviationCountMean.map some) ∧
      (headerHasHeadings OptimizedParallel.summaryHeader
          ["matrix size", "sample size", "mean", "Standard Deviation"] ∧
        headerHasHeadings AvxSummary.summaryHeader
          ["matrix size", "sample size", "mean", "Standard Deviation"] ∧
        headerHasHeadings NewSummary.summaryHeader
          ["matrix size", "sample size", "mean", "Standard Deviation"] ∧
        ["matrix size", "sample size", "mean", "Standard Deviation"].map columnOfHeading
          = sizeCountMeanDeviation.map some)) ∧
    -- a literal stands between consecutive values
    ((SequentialFinal.summaryRows noOfSamples sampleMean sampleStandardDeviation).map
        fieldsSeparated = List.replicate 10 true ∧
      (OptimizedParallel.summaryRows noOfSamples sampleMean sampleStandardDeviation).map
        fieldsSeparated = List.replicate 10 true ∧
      (AvxSummary.summaryRows noOfSamples sampleMean sampleStandardDeviation).map
        fieldsSeparated = List.replicate 10 true ∧
      (NewSummary.summaryRows noOfSamples sampleMean sampleStandardDeviation).map
        fieldsSeparated = List.replicate 10 true) := by
  refine ⟨⟨rfl, rfl, rfl, rfl, rfl⟩, ⟨rfl, rfl, rfl, rfl, rfl⟩,
    ⟨⟨by decide, by decide⟩, ⟨by decide, by decide⟩, by decide, by decide, by decide, by decide⟩,
    ⟨rfl, rfl, rfl, rfl⟩⟩

/-- In `Final/parallel.cpp` the standard deviation is followed directly by the sample
size. -/
theorem parallel_row_fields_not_separated (noOfSamples : Nat → Int)
    (sampleMean sampleStandardDeviation : Nat → K) (i : Nat) :
    fieldsSeparated (Parallel.summaryRow noOfSamples sampleMean sampleStandardDeviation i) =
      false := rfl

end SummaryTable

/-! ## The loop of `main` over the matrix sizes -/

/-- One step of the loop `for (int x = ...; x <= 1000; x += 100)`. -/
theorem sizesFrom_unfold (x : Nat) :
    sizesFrom x = if x ≤ 1000 then x :: sizesFrom (x + 100) else [] := by
  rw [sizesFrom]

/-- The sizes `main` processes. -/
theorem driverSizes_eq : driverSizes = [100, 200, 300, 400, 500, 600, 700, 800, 900, 1000] := by
  unfold driverSizes
  rw [sizesFrom_unfold, if_pos (by decide), sizesFrom_unfold, if_pos (by decide),
    sizesFrom_unfold, if_pos (by decide), sizesFrom_unfold, if_pos (by decide),
    sizesFrom_unfold, if_pos (by decide), sizesFrom_unfold, if_pos (by decide),
    sizesFrom_unfold, if_pos (by decide), sizesFrom_unfold, if_pos (by decide),
    sizesFrom_unfold, if_pos (by decide), sizesFrom_unfold, if_pos (by decide),
    sizesFrom_unfold, if_neg (by decide)]

section DriverLemmas

variable {K : Type}

/-- For a size of the driver the index `x/100 - 1` lies inside the arrays and the three
stores are made. -/
theorem storeRun_of_mem (results : Results K) (x : Nat) (hx : x ∈ driverSizes) (run : Run K) :
    storeRun results x run =
      some { noOfSamples := setEntry results.noOfSamples (x / 100 - 1) run.noOfSamples
             sampleMean := setEntry results.sampleMean (x / 100 - 1) run.sampleMean
             sampleStandardDeviation :=
               setEntry results.sampleStandardDeviation (x / 100 - 1)
                 run.sampleStandardDeviation } := by
  rw [driverSizes_eq] at hx
  simp only [List.mem_cons, List.mem_singleton, List.not_mem_nil, or_false] at hx
  rcases hx with rfl | rfl | rfl | rfl | rfl | rfl | rfl | rfl | rfl | rfl <;>
    simp [storeRun, resultIndex]

/-- The loop over sizes with pairwise distinct indices: every run is found at its index
afterwards and every other entry keeps its content. -/
theorem driverLoop_spec (body : Nat → Option (Run K)) (run : Nat → Run K) (sizes : List Nat)
    (hsub : ∀ x ∈ sizes, x ∈ driverSizes) (hnd : (sizes.map fun x => x / 100 - 1).Nodup)
    (hbody : ∀ x ∈ sizes, body x = some (run x)) (results : Results K) :
    ∃ final, driverLoop body sizes results = some final ∧
      (∀ x ∈ sizes, final.noOfSamples (x / 100 - 1) = (run x).noOfSamples ∧
        final.sampleMean (x / 100 - 1) = (run x).sampleMean ∧
        final.sampleStandardDeviation (x / 100 - 1) = (run x).sampleStandardDeviation) ∧
      (∀ i, i ∉ (sizes.map fun x => x / 100 - 1) →
        final.noOfSamples i = results.noOfSamples i ∧
        final.sampleMean i = results.sampleMean i ∧
        final.sampleStandardDeviation i = results.sampleStandardDeviation i) := by
  induction sizes generalizing results with
  | nil => exact ⟨results, rfl, by simp, by simp⟩
  | cons y rest ih =>
    have hy : y ∈ driverSizes := hsub y (List.mem_cons_self _ _)
    have hnd' := (List.nodup_cons.mp hnd).2
    have hnot := (List.nodup_cons.mp hnd).1
    obtain ⟨final, hfinal, hin, hout⟩ := ih (fun x hx => hsub x (List.mem_cons_of_mem _ hx)) hnd'
      (fun x hx => hbody x (List.mem_cons_of_mem _ hx))
      { noOfSamples := setEntry results.noOfSamples (y / 100 - 1) (run y).noOfSamples
        sampleMean := setEntry results.sampleMean (y / 100 - 1) (run y).sampleMean
        sampleStandardDeviation :=
          setEntry results.sampleStandardDeviation (y / 100 - 1)
            (run y).sampleStandardDeviation }
    refine ⟨final, ?_, ?_, ?_⟩
    · simp only [driverLoop, hbody y (List.mem_cons_self _ _), storeRun_of_mem results y hy,
        Option.bind_eq_bind, Option.some_bind, hfinal]
    · intro x hx
      rcases List.mem_cons.mp hx with rfl | hx'
      · have := hout _ hnot
        simpa [setEntry] using this
      · exact hin x hx'
    · intro i hi
      have hi' : i ∉ rest.map fun x => x / 100 - 1 := fun h => hi (List.mem_cons_of_mem _ h)
      have hne : i ≠ y / 100 - 1 := fun h => hi (by simp [h])
      have := hout i hi'
      simpa [setEntry, hne] using this

end DriverLemmas

section DriverIndexing

variable {K : Type} [LinearOrderedField K] [FloorRing K]

/-- Claim C22. Driver indexing: the driver processes exactly the sizes 100, 200, ..., 1000;
for each size `x` the index `x/100 - 1` lies in `[0, 9]`; distinct sizes have distinct
indices; the indices written are 0, 1, ..., 9, each once; the size `(i+1)*100` that summary
row `i` prints is a size of the driver and its index is `i`; and when the loop body yields
a run for every size, the loop ends with the run of the size `(i+1)*100` in entry `i` of
the three arrays, for every `i < 10`, whatever the arrays held before.  The `main` of each
of the five files is this loop over its own loop body, and row `i` of each summary begins
with `(i+1)*100`. -/
theorem driver_indexing (body : Nat → Option (Run K)) (run : Nat → Run K)
    (hbody : ∀ x ∈ driverSizes, body x = some (run x)) (results : Results K)
    (sqrt : K → K) (timesK : Nat → Nat → K) (timesZ : Nat → Nat → Int)
    (counts : Nat → Int) (means deviations : Nat → K) :
    driverSizes = [100, 200, 300, 400, 500, 600, 700, 800, 900, 1000] ∧
    (∀ x ∈ driverSizes, 0 ≤ resultIndex x ∧ resultIndex x ≤ 9) ∧
    (∀ x ∈ driverSizes, ∀ y ∈ driverSizes, resultIndex x = resultIndex y → x = y) ∧
    driverSizes.map resultIndex = [0, 1, 2, 3, 4, 5, 6, 7, 8, 9] ∧
    (∀ i : Nat, i < 10 → (i + 1) * 100 ∈ driverSizes ∧ resultIndex ((i + 1) * 100) = i) ∧
    (∃ final, driverLoop body driverSizes results = some final ∧
      ∀ i : Nat, i < 10 →
        final.noOfSamples i = (run ((i + 1) * 100)).noOfSamples ∧
        final.sampleMean i = (run ((i + 1) * 100)).sampleMean ∧
        final.sampleStandardDeviation i = (run ((i + 1) * 100)).sampleStandardDeviation) ∧
    (SequentialFinal.main sqrt timesZ results =
        driverLoop (fun x => SequentialFinal.mainBody sqrt 5 (timesZ x)) driverSizes results ∧
      Parallel.main sqrt timesK results =
        driverLoop (fun x => Parallel.mainBody sqrt 10 (timesK x)) driverSizes results ∧
      OptimizedParallel.main sqrt timesK results =
        driverLoop (fun x => OptimizedParallel.mainBody sqrt 10 (timesK x)) driverSizes results ∧
      AvxSummary.main sqrt timesK results =
        driverLoop (fun x => AvxSummary.mainBody sqrt 10 (timesK x)) driverSizes results ∧
      NewSummary.main sqrt timesZ results =
        driverLoop (fun x => NewSummary.mainBody sqrt 5 (timesZ x)) driverSizes results) ∧
    (∀ i : Nat,
      (SequentialFinal.summaryRow counts means deviations i).head? =
        some (Piece.intValue Column.matrixSize (((i : Int) + 1) * 100)) ∧
      (Parallel.summaryRow counts means deviations i).head? =
        some (Piece.intValue Column.matrixSize (((i : Int) + 1) * 100)) ∧
      (OptimizedParallel.summaryRow counts means deviations i).head? =
        some (Piece.intValue Column.matrixSize (((i : Int) + 1) * 100)) ∧
      (AvxSummary.summaryRow counts means deviations i).head? =
        some (Piece.intValue Column.matrixSize (((i : Int) + 1) * 100)) ∧
      (NewSummary.summaryRow counts means deviations i).head? =
        some (Piece.intValue Column.matrixSize (((i : Int) + 1) * 100))) := by
  have hmem : ∀ i : Nat, i < 10 → (i + 1) * 100 ∈ driverSizes := by
    intro i hi
    rw [driverSizes_eq]
    interval_cases i <;> simp
  refine ⟨driverSizes_eq, ?_, ?_, ?_, ?_, ?_, ⟨rfl, rfl, rfl, rfl, rfl⟩,
    fun i => ⟨rfl, rfl, rfl, rfl, rfl⟩⟩
  · intro x hx
    rw [driverSizes_eq] at hx
    simp only [List.mem_cons, List.mem_singleton, List.not_mem_nil, or_false] at hx
    rcases hx with rfl | rfl | rfl | rfl | rfl | rfl | rfl | rfl | rfl | rfl <;>
      simp [resultIndex]
  · intro x hx y hy hxy
    rw [driverSizes_eq] at hx hy
    simp only [List.mem_cons, List.mem_singleton, List.not_mem_nil, or_false] at hx hy
    unfold resultIndex at hxy
    omega
  · rw [driverSizes_eq]
    simp [resultIndex]
  · intro i hi
    refine ⟨hmem i hi, ?_⟩
    unfold resultIndex
    rw [Nat.mul_div_cancel _ (by norm_num)]
    simp
  · have hnd : (driverSizes.map fun x => x / 100 - 1).Nodup := by
      rw [driverSizes_eq]; decide
    obtain ⟨final, hfinal, hin, _⟩ :=
      driverLoop_spec body run driverSizes (fun x hx => hx) hnd hbody results
    refine ⟨final, hfinal, fun i hi => ?_⟩
    have := hin _ (hmem i hi)
    rwa [Nat.mul_div_cancel _ (by norm_num), Nat.add_sub_cancel] at this

end DriverIndexing

/-- The loop body of `Final/optimized_parallel.cpp` when every trial lasts 100: mean 100,
deviation 0, required count 0, no second round. -/
theorem optimizedParallel_constant_run :
    OptimizedParallel.mainBody Real.sqrt 10 (fun _ => 100) = some ⟨false, 10, 0, 10, 100, 0⟩ := by
  rw [mainBody_eq_OptimizedParallel _ _ (by norm_num)]
  have hm : (∑ _i in Finset.range 10, (100 : ℝ)) / ((10 : Nat) : ℝ) = 100 := by norm_num
  rw [hm]
  have hs : Real.sqrt ((∑ _i in Finset.range 10, ((100 : ℝ) - 100) ^ 2) /
      (((10 : Nat) : ℝ) - 1)) = 0 := by
    apply sqrt_of_sq _ _ (by norm_num)
    norm_num
  rw [hs, afterPilot_pilot_OptimizedParallel _ 10 _ _ _ 0
    (requiredSamples_zero_deviation 100 (by norm_num)) (by norm_num)]
  rfl

/-- Instance of `driver_indexing`: `Final/optimized_parallel.cpp` with every trial lasting
100, over the real numbers; entry 3 of the arrays (the size 400) holds the count 10, the
mean 100 and the deviation 0. -/
theorem driver_indexing_witness :
    (∀ x ∈ driverSizes,
      OptimizedParallel.mainBody Real.sqrt OptimizedParallel.noOfInitialSamples
        ((fun _ _ => (100 : ℝ)) x) = some ((fun _ => ⟨false, 10, 0, 10, 100, 0⟩) x)) ∧
    ∃ final, OptimizedParallel.main Real.sqrt (fun _ _ => 100)
        ⟨fun _ => 0, fun _ => 0, fun _ => 0⟩ = some final ∧
      final.noOfSamples 3 = 10 ∧ final.sampleMean 3 = 100 ∧
      final.sampleStandardDeviation 3 = 0 := by
  have hb : ∀ x ∈ driverSizes,
      OptimizedParallel.mainBody Real.sqrt OptimizedParallel.noOfInitialSamples
        ((fun _ _ => (100 : ℝ)) x) = some ((fun _ => ⟨false, 10, 0, 10, 100, 0⟩) x) :=
    fun _ _ => optimizedParallel_constant_run
  obtain ⟨final, hfinal, h⟩ := (driver_indexing _ _ hb ⟨fun _ => 0, fun _ => 0, fun _ => 0⟩
    Real.sqrt (fun _ _ => 0) (fun _ _ => 0) (fun _ => 0) (fun _ => 0) (fun _ => 0)).2.2.2.2.2.1
  exact ⟨hb, final, hfinal, h 3 (by norm_num)⟩

/-! ## Return paths of `matMultiply` -/

/-- The loop body of `optimized_parallel_avx_summary.cpp` when every stored duration is
100: mean 100, deviation 0, required count 0, no second round. -/
theorem avxSummary_constant_run :
    AvxSummary.mainBody Real.sqrt 10 (fun _ => 100) = some ⟨false, 10, 0, 10, 100, 0⟩ := by
  rw [mainBody_eq_AvxSummary _ _ (by norm_num)]
  have hm : (∑ _i in Finset.range 10, (100 : ℝ)) / ((10 : Nat) : ℝ) = 100 := by norm_num
  rw [hm]
  have hs : Real.sqrt ((∑ _i in Finset.range 10, ((100 : ℝ) - 100) ^ 2) /
      (((10 : Nat) : ℝ) - 1)) = 0 := by
    apply sqrt_of_sq _ _ (by norm_num)
    norm_num
  rw [hs, afterPilot_pilot_AvxSummary _ 10 _ _ _ 0
    (requiredSamples_zero_deviation 100 (by norm_num)) (by norm_num)]
  rfl

/-- The loop body of `optimized_parallel_new_summary.cpp` when every stored duration is
100: mean 100, deviation 0, required count 0, no second round. -/
theorem newSummary_constant_run :
    NewSummary.mainBody Real.sqrt 5 (fun _ => 100) = some ⟨false, 5, 0, 5, 100, 0⟩ := by
  rw [mainBody_eq_NewSummary _ _ (by norm_num)]
  have hm : (∑ _i in Finset.range 5, (((100 : Int) : ℝ))) / ((5 : Nat) : ℝ) = 100 := by
    norm_num
  rw [hm]
  have hs : Real.sqrt ((∑ _i in Finset.range 5, ((((100 : Int) : ℝ)) - 100) ^ 2) /
      (((5 : Nat) : ℝ) - 1)) = 0 := by
    apply sqrt_of_sq _ _ (by norm_num)
    norm_num
  rw [hs, afterPilot_pilot_NewSummary _ 5 _ _ _ 0
    (requiredSamples_zero_deviation 100 (by norm_num)) (by norm_num)]
  rfl

section ReturnPaths

variable {K : Type} [LinearOrderedField K] [FloorRing K]

/-- Claim C21 (the code departs from it in a second variant).  The claim has `matMultiply`
lose the kernel's duration in exactly one variant and return it in every other one.
`matMultiply` calls the kernel and reaches its closing brace without a `return` statement
in two variants, `optimized_parallel_avx_summary.cpp` (line 99) and
`optimized_parallel_new_summary.cpp` (line 98).  In both, the value that
`runningTimes[i] = matMultiply (size)` stores is the leftover content of the return
register, whatever duration the kernel returned, and the run recorded for a matrix size is
computed from these leftovers alone: when the register holds 100 at every call, the
recorded run is (pilot count, mean 100, deviation 0) for every sequence of kernel
durations.  In `sequential_final.cpp`, `Final/parallel.cpp` and
`Final/optimized_parallel.cpp`, which end with `return`, the stored value is the duration
returned by the kernel and the run is computed from the durations, whatever the register
held before. -/
theorem summary_variants_lose_kernel_duration (sqrt : K → K) (p size : Nat)
    (kernelK : Nat → Nat → K) (kernelZ : Nat → Nat → Int)
    (leftoverK : Nat → K) (leftoverZ : Nat → Int) (kernelR : Nat → Nat → ℝ)
    (leftoverR : Nat → ℝ) :
    (AvxSummary.matMultiply (kernelK 0) size = FunctionClose.closingBrace ∧
      NewSummary.matMultiply (kernelZ 0) size = FunctionClose.closingBrace ∧
      SequentialFinal.matMultiply (kernelZ 0) size =
        FunctionClose.returnStatement (kernelZ 0 size) ∧
      Parallel.matMultiply (kernelK 0) size = FunctionClose.returnStatement (kernelK 0 size) ∧
      OptimizedParallel.matMultiply (kernelK 0) size =
        FunctionClose.returnStatement (kernelK 0 size)) ∧
    (∀ k, SequentialFinal.storedDuration kernelZ leftoverZ size k = kernelZ k size) ∧
    (∀ k, Parallel.storedDuration kernelK leftoverK size k = kernelK k size) ∧
    (∀ k, OptimizedParallel.storedDuration kernelK leftoverK size k = kernelK k size) ∧
    (∀ k, AvxSummary.storedDuration kernelK leftoverK size k = leftoverK k) ∧
    (∀ k, NewSummary.storedDuration kernelZ leftoverZ size k = leftoverZ k) ∧
    OptimizedParallel.mainBody sqrt p (OptimizedParallel.storedDuration kernelK leftoverK size) =
      OptimizedParallel.mainBody sqrt p (fun k => kernelK k size) ∧
    AvxSummary.mainBody sqrt p (AvxSummary.storedDuration kernelK leftoverK size) =
      AvxSummary.mainBody sqrt p leftoverK ∧
    NewSummary.mainBody sqrt p (NewSummary.storedDuration kernelZ leftoverZ size) =
      NewSummary.mainBody sqrt p leftoverZ ∧
    AvxSummary.mainBody Real.sqrt 10 (AvxSummary.storedDuration kernelR (fun _ => 100) 100) =
      some ⟨false, 10, 0, 10, 100, 0⟩ ∧
    NewSummary.mainBody Real.sqrt 5 (NewSummary.storedDuration kernelZ (fun _ => 100) 100) =
      some ⟨false, 5, 0, 5, 100, 0⟩ ∧
    OptimizedParallel.mainBody Real.sqrt 10
        (OptimizedParallel.storedDuration (fun _ _ => 100) leftoverR 100) =
      some ⟨false, 10, 0, 10, 100, 0⟩ :=
  ⟨⟨rfl, rfl, rfl, rfl, rfl⟩, fun _ => rfl, fun _ => rfl, fun _ => rfl, fun _ => rfl,
    fun _ => rfl, rfl, rfl, rfl, avxSummary_constant_run, newSummary_constant_run,
    optimizedParallel_constant_run⟩

end ReturnPaths

/-! ## Rows and operands of the kernels -/

section RowDisjointness

variable {K : Type}

/-- A loop body that overwrites the cells `(i, b)`, `b < n`, with values that do not depend
on the output matrix, and touches nothing else, has disjoint row iterations. -/
theorem rowIterationsDisjoint_of_apply (n : Nat) (R : Matrix2D K → Nat → Matrix2D K)
    (g : Nat → Nat → K)
    (h : ∀ C i a b, R C i a b = if a = i ∧ b < n then g i b else C a b) :
    RowIterationsDisjoint n R := by
  refine ⟨?_, ?_, ?_, ?_⟩
  · intro C i a b hne
    rw [h, if_neg (fun hc => hne hc.1)]
  · intro C C' i hrow b
    rw [h, h]
    by_cases hb : b < n
    · rw [if_pos ⟨rfl, hb⟩, if_pos ⟨rfl, hb⟩]
    · rw [if_neg (fun hc => hb hc.2), if_neg (fun hc => hb hc.2), hrow b]
  · intro C C' i b hb
    rw [h, h, if_pos ⟨rfl, hb⟩, if_pos ⟨rfl, hb⟩]
  · intro C i k hik
    funext a b
    rw [h, h, h, h]
    by_cases h1 : a = k ∧ b < n
    · rw [if_pos h1, if_neg (fun hc => hik (hc.1.symm.trans h1.1)), if_pos h1]
    · rw [if_neg h1, if_neg h1]

end RowDisjointness

section RowBodyResults

variable {K : Type} [LinearOrderedField K]

/-- The output matrix after one row iteration of the naive row-parallel kernel. -/
theorem multiplyRow_apply (matA matB : Matrix2D K) (size : Nat) (resMat : Matrix2D K)
    (row a b : Nat) :
    Parallel.multiplyRow matA matB size resMat row a b =
      if a = row ∧ b < size then naiveProduct matA matB size row b else resMat a b := by
  unfold Parallel.multiplyRow
  simp only [foldl_accumulate_cell, zero_add]
  exact foldl_cols (fun j => ∑ cur in Finset.range size, matA row cur * matB cur j) row size
    resMat a b

/-- The output matrix after one row iteration of the AVX kernel. -/
theorem mat_multiply_avx_row_apply (matA trans_matB : Matrix2D K) (size : Nat) :
    ∃ g : Nat → Nat → K, ∀ matC i a b,
      mat_multiply_avx_row matA trans_matB size matC i a b =
        if a = i ∧ b < size then g i b else matC a b :=
  ⟨_, fun matC i a b => foldl_cols _ i size matC a b⟩

/-- The output matrix after one row iteration of the SSE kernel. -/
theorem mat_multiply_compiler_intrinsics_row_apply (matA trans_matB : Matrix2D K)
    (size : Nat) :
    ∃ g : Nat → Nat → K, ∀ matC i a b,
      mat_multiply_compiler_intrinsics_row matA trans_matB size matC i a b =
        if a = i ∧ b < size then g i b else matC a b :=
  ⟨_, fun matC i a b => foldl_cols _ i size matC a b⟩

/-- Claim C23. Row disjointness of the parallel region: each row-parallel kernel
(`multiply` of `Final/parallel.cpp`, `mat_multiply_avx`,
`mat_multiply_compiler_intrinsics`) is its row body executed for the rows in some order,
and the row body for the index `i` writes only cells of row `i` of the output and reads no
cell of another output row; every cell `(i, j)` with `j < n` gets its value from the
iteration for `i`, and two iterations for distinct rows touch no common output cell, so
that they can be executed in either order. -/
theorem row_iterations_are_disjoint (n : Nat) (A B C : Matrix2D K) (rowOrder : List Nat) :
    ((Parallel.multiply rowOrder A B n C).matC =
        rowOrder.foldl (Parallel.multiplyRow A B n) C ∧
      RowIterationsDisjoint n (Parallel.multiplyRow A B n)) ∧
    ((mat_multiply_avx rowOrder A B n C).matC =
        rowOrder.foldl (mat_multiply_avx_row A (getTranspose B n) n) C ∧
      RowIterationsDisjoint n (mat_multiply_avx_row A (getTranspose B n) n)) ∧
    ((mat_multiply_compiler_intrinsics rowOrder A B n C).matC =
        rowOrder.foldl (mat_multiply_compiler_intrinsics_row A (getTranspose B n) n) C ∧
      RowIterationsDisjoint n (mat_multiply_compiler_intrinsics_row A (getTranspose B n) n)) :=
  ⟨⟨rfl, rowIterationsDisjoint_of_apply n _ _ (multiplyRow_apply A B n)⟩,
    ⟨rfl, (mat_multiply_avx_row_apply A (getTranspose B n) n).elim fun g h =>
      rowIterationsDisjoint_of_apply n _ g h⟩,
    ⟨rfl, (mat_multiply_compiler_intrinsics_row_apply A (getTranspose B n) n).elim fun g h =>
      rowIterationsDisjoint_of_apply n _ g h⟩⟩

/-- Claim C24. Operand frame of the kernels: for every size `n` and all matrices `A` and
`B`, the naive kernels leave `A` and `B` as they were, and the vectorized kernels leave `A`
as it was and leave in `B` its transpose: afterwards `B[i][j]` holds the original `B[j][i]`
for all `i, j < n`. -/
theorem kernels_operand_frame (n : Nat) (A B C : Matrix2D K) (rowOrder : List Nat) :
    ((SequentialFinal.multiply A B n C).matA = A ∧ (SequentialFinal.multiply A B n C).matB = B) ∧
    ((Parallel.multiply rowOrder A B n C).matA = A ∧
      (Parallel.multiply rowOrder A B n C).matB = B) ∧
    ((mat_multiply_avx rowOrder A B n C).matA = A ∧
      (∀ i j, i < n → j < n → (mat_multiply_avx rowOrder A B n C).matB i j = B j i) ∧
      (mat_multiply_avx rowOrder A B n C).matB = getTranspose B n) ∧
    ((mat_multiply_compiler_intrinsics rowOrder A B n C).matA = A ∧
      (∀ i j, i < n → j < n →
        (mat_multiply_compiler_intrinsics rowOrder A B n C).matB i j = B j i) ∧
      (mat_multiply_compiler_intrinsics rowOrder A B n C).matB = getTranspose B n) := by
  have ht : ∀ i j, i < n → j < n → getTranspose B n i j = B j i := by
    intro i j hi hj
    rw [getTranspose_apply]
    by_cases h : i = j
    · subst h; simp
    · rw [if_pos (by omega)]
  exact ⟨⟨rfl, rfl⟩, ⟨rfl, rfl⟩, ⟨rfl, ht, rfl⟩, ⟨rfl, ht, rfl⟩⟩

end RowBodyResults

/-- Instance of `row_iterations_are_disjoint`: the iteration for row 0 leaves the cell
`(1, 0)` of an output matrix filled with 7 as it is, in the naive kernel of size 2 and in
the AVX kernel of size 4. -/
theorem row_iterations_are_disjoint_witness :
    ((1 : Nat) ≠ 0 ∧ 0 < 2) ∧
    Parallel.multiplyRow (fun i j => ((i + 2 * j : Nat) : ℚ))
      (fun i j => ((3 * i + j : Nat) : ℚ)) 2 (fun _ _ => 7) 0 1 0 = 7 ∧
    mat_multiply_avx_row (fun i j => ((i + 2 * j : Nat) : ℚ))
      (getTranspose (fun i j => ((3 * i + j : Nat) : ℚ)) 4) 4 (fun _ _ => 7) 0 1 0 = 7 := by
  have h2 := row_iterations_are_disjoint 2 (fun i j => ((i + 2 * j : Nat) : ℚ))
    (fun i j => ((3 * i + j : Nat) : ℚ)) (fun _ _ => 7) [1, 0]
  have h4 := row_iterations_are_disjoint 4 (fun i j => ((i + 2 * j : Nat) : ℚ))
    (fun i j => ((3 * i + j : Nat) : ℚ)) (fun _ _ => 7) [2, 0, 3, 1]
  exact ⟨⟨by decide, by decide⟩, h2.1.2.1 (fun _ _ => 7) 0 1 0 (by decide),
    h4.2.1.2.1 (fun _ _ => 7) 0 1 0 (by decide)⟩

/-- Instance of `kernels_operand_frame`: size 4 and `B[i][j] = 3 i + j`; after either
vectorized kernel `B[0][2]` holds the original `B[2][0] = 6`. -/
theorem kernels_operand_frame_witness :
    (0 < 4 ∧ 2 < 4) ∧
    (mat_multiply_avx [2, 0, 3, 1] (fun i j => ((i + 2 * j : Nat) : ℚ))
      (fun i j => ((3 * i + j : Nat) : ℚ)) 4 (fun _ _ => 7)).matB 0 2 = 6 ∧
    (mat_multiply_compiler_intrinsics [2, 0, 3, 1] (fun i j => ((i + 2 * j : Nat) : ℚ))
      (fun i j => ((3 * i + j : Nat) : ℚ)) 4 (fun _ _ => 7)).matB 0 2 = 6 := by
  have h := kernels_operand_frame 4 (fun i j => ((i + 2 * j : Nat) : ℚ))
    (fun i j => ((3 * i + j : Nat) : ℚ)) (fun _ _ => 7) [2, 0, 3, 1]
  refine ⟨⟨by decide, by decide⟩, ?_, ?_⟩
  · rw [h.2.2.1.2.1 0 2 (by decide) (by decide)]; norm_num
  · rw [h.2.2.2.2.1 0 2 (by decide) (by decide)]; norm_num

/-! ## Change of the time unit and growth of the required count -/

section Scaling

variable {K : Type} [LinearOrderedField K]

/-- The non-negative square root of `c² x` is `c` times that of `x`, for `c > 0`. -/
theorem sqrt_scale (sqrt : K → K) (hsqrt : ∀ x : K, 0 ≤ x → 0 ≤ sqrt x ∧ sqrt x ^ 2 = x)
    (c x : K) (hc : 0 < c) (hx : 0 ≤ x) : sqrt (c ^ 2 * x) = c * sqrt x := by
  have h1 := hsqrt (c ^ 2 * x) (mul_nonneg (sq_nonneg c) hx)
  have h2 := hsqrt x hx
  have h3 : (0 : K) ≤ c * sqrt x := mul_nonneg hc.le h2.1
  have h4 : sqrt (c ^ 2 * x) ^ 2 = (c * sqrt x) ^ 2 := by rw [h1.2, mul_pow, h2.2]
  exact (pow_left_inj₀ h1.1 h3 (by norm_num)).mp h4

/-- The mean of the samples multiplied by `c`. -/
theorem getMean_scale (times : Nat → K) (size : Nat) (hsize : size ≠ 0) (c : K) :
    getMean (fun i => c * times i) size =
      some (c * ((∑ i in Finset.range size, times i) / (size : K))) := by
  rw [getMean_of_ne_zero _ _ hsize, ← Finset.mul_sum, mul_div_assoc]

/-- The standard deviation of the samples multiplied by `c > 0`, about the mean
multiplied by `c`. -/
theorem getSD_scale (sqrt : K → K) (hsqrt : ∀ x : K, 0 ≤ x → 0 ≤ sqrt x ∧ sqrt x ^ 2 = x)
    (times : Nat → K) (size : Nat) (hsize : 2 ≤ size) (c : K) (hc : 0 < c) (mean : K) :
    getSD sqrt (fun i => c * times i) size (c * mean) =
      some (c * sqrt ((∑ i in Finset.range size, (times i - mean) ^ 2) / ((size : K) - 1))) := by
  have hpos : (0 : K) < (size : K) - 1 := by
    have : (2 : K) ≤ (size : K) := by exact_mod_cast hsize
    linarith
  rw [getSD_of_ne_one _ _ _ _ (by omega)]
  have e : (∑ i in Finset.range size, (c * times i - c * mean) ^ 2) / ((size : K) - 1) =
      c ^ 2 * ((∑ i in Finset.range size, (times i - mean) ^ 2) / ((size : K) - 1)) := by
    rw [← mul_div_assoc, Finset.mul_sum]
    congr 1
    apply Finset.sum_congr rfl
    intro i _
    ring
  rw [e, sqrt_scale sqrt hsqrt c _ hc
    (div_nonneg (Finset.sum_nonneg fun i _ => sq_nonneg _) hpos.le)]

variable [FloorRing K]

/-- The required count does not change when deviation and mean are multiplied by the same
non-zero factor. -/
theorem requiredSamples_scale (c s m : K) (hc : c ≠ 0) :
    requiredSamples (c * s) (c * m) = requiredSamples s m := by
  unfold requiredSamples
  by_cases hm : m = 0
  · subst hm; simp
  · rw [if_neg (by simp [hc, hm]), if_neg (by simp [hm])]
    congr 2
    rw [show 100 * 1.960 * (c * s) = c * (100 * 1.960 * s) by ring,
      show 5 * (c * m) = c * (5 * m) by ring, mul_div_mul_left _ _ hc]

/-- The second part of the loop body of `Final/parallel.cpp` on samples multiplied by `c`. -/
theorem afterPilot_scale_Parallel (p : Nat) (hp : 2 ≤ p) (times : Nat → K) (c : K)
    (hc : 0 < c) (m s : K) (hm : m ≠ 0) :
    ∃ r, Parallel.afterPilot p times m s = some r ∧
      Parallel.afterPilot p (fun k => c * times k) (c * m) (c * s) = some (Run.rescale c r) := by
  have hN := requiredSamples_of_ne s m hm
  have hN' := (requiredSamples_scale c s m hc.ne').trans hN
  by_cases h : ⌈((100 * 1.960 * s) / (5 * m)) ^ 2⌉ < (p : Int)
  · exact ⟨_, afterPilot_pilot_Parallel p times m s _ hN h,
      afterPilot_pilot_Parallel p _ _ _ _ hN' h⟩
  · refine ⟨_, afterPilot_confirmation_Parallel p hp times m s _ hN h, ?_⟩
    rw [afterPilot_confirmation_Parallel p hp _ _ _ _ hN' h]
    simp only [Run.rescale, ← Finset.mul_sum, mul_div_assoc]

/-- The second part of the loop body of `Final/optimized_parallel.cpp` on samples
multiplied by `c`. -/
theorem afterPilot_scale_OptimizedParallel (sqrt : K → K)
    (hsqrt : ∀ x : K, 0 ≤ x → 0 ≤ sqrt x ∧ sqrt x ^ 2 = x) (p : Nat) (hp : 2 ≤ p)
    (times : Nat → K) (c : K) (hc : 0 < c) (m s : K) (hm : m ≠ 0) :
    ∃ r, OptimizedParallel.afterPilot sqrt p times m s = some r ∧
      OptimizedParallel.afterPilot sqrt p (fun k => c * times k) (c * m) (c * s) =
        some (Run.rescale c r) := by
  have hN := requiredSamples_of_ne s m hm
  have hN' := (requiredSamples_scale c s m hc.ne').trans hN
  by_cases h : ⌈((100 * 1.960 * s) / (5 * m)) ^ 2⌉ < (p : Int)
  · exact ⟨_, afterPilot_pilot_OptimizedParallel sqrt p times m s _ hN h,
      afterPilot_pilot_OptimizedParallel sqrt p _ _ _ _ hN' h⟩
  · have h2 : 2 ≤ (⌈((100 * 1.960 * s) / (5 * m)) ^ 2⌉).toNat := by omega
    have hmean := getMean_scale (fun i => times (p + i)) _ (show
      (⌈((100 * 1.960 * s) / (5 * m)) ^ 2⌉).toNat ≠ 0 by omega) c
    have hsd := getSD_scale sqrt hsqrt (fun i => times (p + i)) _ h2 c hc
      ((∑ i in Finset.range (⌈((100 * 1.960 * s) / (5 * m)) ^ 2⌉).toNat, times (p + i)) /
        (((⌈((100 * 1.960 * s) / (5 * m)) ^ 2⌉).toNat : Nat) : K))
    refine ⟨_, afterPilot_confirmation_OptimizedParallel sqrt p hp times m s _ hN h, ?_⟩
    simp only [OptimizedParallel.afterPilot, hN', Option.bind_eq_bind, Option.some_bind,
      if_neg h, hmean, hsd, Run.rescale]

/-- The second part of the loop body of `optimized_parallel_avx_summary.cpp` on samples
multiplied by `c`. -/
theorem afterPilot_scale_AvxSummary (sqrt : K → K)
    (hsqrt : ∀ x : K, 0 ≤ x → 0 ≤ sqrt x ∧ sqrt x ^ 2 = x) (p : Nat) (hp : 2 ≤ p)
    (times : Nat → K) (c : K) (hc : 0 < c) (m s : K) (hm : m ≠ 0) :
    ∃ r, AvxSummary.afterPilot sqrt p times m s = some r ∧
      AvxSummary.afterPilot sqrt p (fun k => c * times k) (c * m) (c * s) =
        some (Run.rescale c r) := by
  have hN := requiredSamples_of_ne s m hm
  have hN' := (requiredSamples_scale c s m hc.ne').trans hN
  by_cases h : ⌈((100 * 1.960 * s) / (5 * m)) ^ 2⌉ < (p : Int)
  · exact ⟨_, afterPilot_pilot_AvxSummary sqrt p times m s _ hN h,
      afterPilot_pilot_AvxSummary sqrt p _ _ _ _ hN' h⟩
  · have h2 : 2 ≤ (⌈((100 * 1.960 * s) / (5 * m)) ^ 2⌉).toNat := by omega
    have hmean := getMean_scale (fun i => times (p + i)) _ (show
      (⌈((100 * 1.960 * s) / (5 * m)) ^ 2⌉).toNat ≠ 0 by omega) c
    have hsd := getSD_scale sqrt hsqrt (fun i => times (p + i)) _ h2 c hc
      ((∑ i in Finset.range (⌈((100 * 1.960 * s) / (5 * m)) ^ 2⌉).toNat, times (p + i)) /
        (((⌈((100 * 1.960 * s) / (5 * m)) ^ 2⌉).toNat : Nat) : K))
    refine ⟨_, afterPilot_confirmation_AvxSummary sqrt p hp times m s _ hN h, ?_⟩
    simp only [AvxSummary.afterPilot, hN', Option.bind_eq_bind, Option.some_bind,
      if_neg h, hmean, hsd, Run.rescale]

/-- Claim C25, as amended.  Unit invariance of the decision in exact arithmetic: when no
operation is rounded and `sqrt` is the exact non-negative square root on non-negative
arguments, for every pilot set (of at least two `double` samples) with non-zero mean and
every factor `c > 0`, multiplying every sample by `c` multiplies the value of `getMean` and
the standard deviation computed by `getSD` by `c` and leaves the required sample count
unchanged; the loop body of each `double` variant then takes the same branch, makes the
same number of trials and records the same count, with the recorded mean and deviation
multiplied by `c`. -/
theorem decision_is_unit_invariant (sqrt : K → K)
    (hsqrt : ∀ x : K, 0 ≤ x → 0 ≤ sqrt x ∧ sqrt x ^ 2 = x) (p : Nat) (hp : 2 ≤ p)
    (times : Nat → K) (c : K) (hc : 0 < c)
    (hmean : ∑ i in Finset.range p, times i ≠ 0) :
    ∃ (m s : K) (N : Int),
      (getMean times p = some m ∧ getSD sqrt times p m = some s ∧
        requiredSamples s m = some N) ∧
      (getMean (fun k => c * times k) p = some (c * m) ∧
        getSD sqrt (fun k => c * times k) p (c * m) = some (c * s) ∧
        requiredSamples (c * s) (c * m) = some N) ∧
      (∃ r, Parallel.mainBody sqrt p times = some r ∧
        Parallel.mainBody sqrt p (fun k => c * times k) = some (Run.rescale c r)) ∧
      (∃ r, OptimizedParallel.mainBody sqrt p times = some r ∧
        OptimizedParallel.mainBody sqrt p (fun k => c * times k) = some (Run.rescale c r)) ∧
      (∃ r, AvxSummary.mainBody sqrt p times = some r ∧
        AvxSummary.mainBody sqrt p (fun k => c * times k) = some (Run.rescale c r)) := by
  have hp0 : p ≠ 0 := by omega
  have hp1 : p ≠ 1 := by omega
  have hpK : (p : K) ≠ 0 := Nat.cast_ne_zero.mpr hp0
  have hm0 : (∑ i in Finset.range p, times i) / (p : K) ≠ 0 := div_ne_zero hmean hpK
  have hm := getMean_of_ne_zero times p hp0
  have hs := getSD_of_ne_one sqrt times p ((∑ i in Finset.range p, times i) / (p : K)) hp1
  have hm' := getMean_scale times p hp0 c
  have hs' := getSD_scale sqrt hsqrt times p hp c hc
    ((∑ i in Finset.range p, times i) / (p : K))
  have em : (∑ i in Finset.range p, c * times i) / (p : K) =
      c * ((∑ i in Finset.range p, times i) / (p : K)) :=
    Option.some.inj ((getMean_of_ne_zero _ p hp0).symm.trans hm')
  have es : sqrt ((∑ i in Finset.range p,
      (c * times i - c * ((∑ i in Finset.range p, times i) / (p : K))) ^ 2) / ((p : K) - 1)) =
      c * sqrt ((∑ i in Finset.range p,
        (times i - (∑ i in Finset.range p, times i) / (p : K)) ^ 2) / ((p : K) - 1)) :=
    Option.some.inj ((getSD_of_ne_one sqrt _ p _ hp1).symm.trans hs')
  have hN := requiredSamples_of_ne
    (sqrt ((∑ i in Finset.range p,
      (times i - (∑ i in Finset.range p, times i) / (p : K)) ^ 2) / ((p : K) - 1)))
    ((∑ i in Finset.range p, times i) / (p : K)) hm0
  refine ⟨_, _, _, ⟨hm, hs, hN⟩, ⟨hm', hs', (requiredSamples_scale c _ _ hc.ne').trans hN⟩,
    ?_, ?_, ?_⟩
  · rw [mainBody_eq_Parallel sqrt p hp, mainBody_eq_Parallel sqrt p hp, em, es]
    exact afterPilot_scale_Parallel p hp times c hc _ _ hm0
  · rw [mainBody_eq_OptimizedParallel sqrt p hp, mainBody_eq_OptimizedParallel sqrt p hp, em, es]
    exact afterPilot_scale_OptimizedParallel sqrt hsqrt p hp times c hc _ _ hm0
  · rw [mainBody_eq_AvxSummary sqrt p hp, mainBody_eq_AvxSummary sqrt p hp, em, es]
    exact afterPilot_scale_AvxSummary sqrt hsqrt p hp times c hc _ _ hm0

/-- Claim C26. Monotonicity of the required count: for every pilot mean `m0 ≠ 0` the
required sample count `ceil (((100*1.960*s0)/(5*m0))²)` is non-negative, is 0 exactly when
`s0 = 0`, and does not decrease when `s0 ≥ 0` grows. -/
theorem required_count_monotone (m0 : K) (hm0 : m0 ≠ 0) (s0 s1 : K) :
    ∃ N0 N1 : Int, requiredSamples s0 m0 = some N0 ∧ requiredSamples s1 m0 = some N1 ∧
      0 ≤ N0 ∧ (N0 = 0 ↔ s0 = 0) ∧ (0 ≤ s0 → s0 ≤ s1 → N0 ≤ N1) := by
  refine ⟨_, _, requiredSamples_of_ne s0 m0 hm0, requiredSamples_of_ne s1 m0 hm0,
    Int.ceil_nonneg (sq_nonneg _), ?_, ?_⟩
  · have h5 : (5 * m0) ≠ 0 := mul_ne_zero (by norm_num) hm0
    constructor
    · intro h
      have hle : ((100 * 1.960 * s0) / (5 * m0)) ^ 2 ≤ ((0 : Int) : K) := by
        rw [← h]; exact Int.le_ceil _
      have h0 : ((100 * 1.960 * s0) / (5 * m0)) ^ 2 = 0 :=
        le_antisymm (by simpa using hle) (sq_nonneg _)
      have h1 : (100 * 1.960 * s0) / (5 * m0) = 0 := pow_eq_zero_iff (by norm_num) |>.mp h0
      have h2 : 100 * 1.960 * s0 = 0 := by
        rcases div_eq_zero_iff.mp h1 with h | h
        · exact h
        · exact absurd h h5
      rcases mul_eq_zero.mp h2 with h | h
      · norm_num at h
      · exact h
    · rintro rfl
      simp
  · intro h0 h01
    apply Int.ceil_le_ceil
    rw [div_pow, div_pow]
    apply div_le_div_of_nonneg_right _ (sq_nonneg _)
    apply pow_le_pow_left₀ (by positivity)
    exact mul_le_mul_of_nonneg_left h01 (by norm_num)

end Scaling

/-- Instance of `decision_is_unit_invariant`: the real square root, the ten pilot samples
145, 55, 145, 55 and six times 100 (later trials 50) in `Final/optimized_parallel.cpp`, and
the factor 1000 (milliseconds to microseconds). -/
theorem decision_is_unit_invariant_witness :
    ((∀ x : ℝ, 0 ≤ x → 0 ≤ Real.sqrt x ∧ Real.sqrt x ^ 2 = x) ∧ 2 ≤ 10 ∧ (0 : ℝ) < 1000 ∧
      ∑ i in Finset.range 10,
        trialsOf [145, 55, 145, 55, 100, 100, 100, 100, 100, 100] (50 : ℝ) i ≠ 0) ∧
    ∃ r, OptimizedParallel.mainBody Real.sqrt 10
          (trialsOf [145, 55, 145, 55, 100, 100, 100, 100, 100, 100] 50) = some r ∧
      OptimizedParallel.mainBody Real.sqrt 10
          (fun k => 1000 * trialsOf [145, 55, 145, 55, 100, 100, 100, 100, 100, 100] 50 k) =
        some (Run.rescale 1000 r) := by
  have hs : ∀ x : ℝ, 0 ≤ x → 0 ≤ Real.sqrt x ∧ Real.sqrt x ^ 2 = x :=
    fun x hx => ⟨Real.sqrt_nonneg x, Real.sq_sqrt hx⟩
  have hsum : ∑ i in Finset.range 10,
      trialsOf [145, 55, 145, 55, 100, 100, 100, 100, 100, 100] (50 : ℝ) i ≠ 0 := by
    norm_num [Finset.sum_range_succ, trialsOf]
  obtain ⟨m, s, N, _, _, _, h, _⟩ := decision_is_unit_invariant Real.sqrt hs 10 (by norm_num)
    (trialsOf [145, 55, 145, 55, 100, 100, 100, 100, 100, 100] (50 : ℝ)) 1000 (by norm_num) hsum
  exact ⟨⟨hs, by norm_num, by norm_num, hsum⟩, h⟩

/-- Instance of `required_count_monotone`: pilot mean 100 and the deviations 2 and 30, with
required counts 1 and 139. -/
theorem required_count_monotone_witness :
    ((100 : ℚ) ≠ 0 ∧ (0 : ℚ) ≤ 2 ∧ (2 : ℚ) ≤ 30) ∧
    requiredSamples (2 : ℚ) 100 = some 1 ∧ requiredSamples (30 : ℚ) 100 = some 139 ∧
    (1 : Int) ≤ 139 := by
  obtain ⟨N0, N1, h0, h1, _, _, hmono⟩ := required_count_monotone (100 : ℚ) (by norm_num) 2 30
  have e0 : N0 = 1 := Option.some.inj (h0.symm.trans (requiredSamples_low ℚ))
  have e1 : N1 = 139 := Option.some.inj (h1.symm.trans (requiredSamples_high ℚ))
  refine ⟨⟨by norm_num, by norm_num, by norm_num⟩, requiredSamples_low ℚ,
    requiredSamples_high ℚ, ?_⟩
  have := hmono (by norm_num) (by norm_num)
  rwa [e0, e1] at this

/-! ## The rounding of `Binary64` is rounding to nearest

The lemmas of this section tie the definitions of the namespace `Binary64` to their
meaning: `floorLog2` is the binary exponent, `round` yields a multiple of the spacing
`2^e` at distance at most `2^e / 2`, `natSqrt` is the integer square root, `sqrt` yields the
multiple of the spacing nearest to the root, and integers of at most 53 binary digits are
not changed by rounding. -/

/-- The digit count found by `bitLength` with enough fuel: `n < 2^b ≤ 2 n` for `n > 0`. -/
theorem bitLength_spec (fuel : Nat) : ∀ n : Nat, n ≤ fuel →
    n < 2 ^ Binary64.bitLength fuel n ∧ (0 < n → 2 ^ Binary64.bitLength fuel n ≤ 2 * n) := by
  induction fuel with
  | zero =>
    intro n hn
    have : n = 0 := by omega
    subst this
    exact ⟨by simp [Binary64.bitLength], fun h => absurd h (lt_irrefl 0)⟩
  | succ fuel ih =>
    intro n hn
    unfold Binary64.bitLength
    by_cases h0 : n = 0
    · subst h0
      simp
    · rw [if_neg h0]
      have hle : n / 2 ≤ fuel := by omega
      obtain ⟨h1, h2⟩ := ih (n / 2) hle
      rw [pow_succ]
      constructor
      · omega
      · intro _
        by_cases h3 : n / 2 = 0
        · have hn1 : n = 1 := by omega
          subst hn1
          have : Binary64.bitLength fuel (1 / 2) = 0 := by
            cases fuel <;> simp [Binary64.bitLength]
          rw [this]
          norm_num
        · have := h2 (by omega)
          omega

/-- The exponent found by `floorLog2`: `2^k ≤ x < 2^(k+1)`. -/
theorem floorLog2_spec (x : ℚ) (hx : 0 < x) :
    (2 : ℚ) ^ Binary64.floorLog2 x ≤ x ∧ x < (2 : ℚ) ^ (Binary64.floorLog2 x + 1) := by
  have hnum : 0 < x.num := Rat.num_pos.mpr hx
  have hden : 0 < x.den := x.den_pos
  obtain ⟨p1, p2⟩ := bitLength_spec x.num.natAbs x.num.natAbs le_rfl
  obtain ⟨q1, q2⟩ := bitLength_spec x.den x.den le_rfl
  have p2 := p2 (by omega)
  have q2 := q2 hden
  set P := Binary64.bitLength x.num.natAbs x.num.natAbs with hP
  set Q := Binary64.bitLength x.den x.den with hQ
  have hxe : x = (x.num.natAbs : ℚ) / (x.den : ℚ) := by
    have h := (Rat.num_div_den x).symm
    have e : ((x.num.natAbs : Int) : ℚ) = (x.num : ℚ) := by
      rw [Int.natAbs_of_nonneg hnum.le]
    rw [Int.cast_natCast] at e
    rw [e]
    exact h
  have hq0 : (0 : ℚ) < (x.den : ℚ) := by exact_mod_cast hden
  have hp1 : ((x.num.natAbs : ℚ)) < 2 ^ P := by exact_mod_cast p1
  have hp2 : (2 : ℚ) ^ P ≤ 2 * (x.num.natAbs : ℚ) := by exact_mod_cast p2
  have hq1 : ((x.den : ℚ)) < 2 ^ Q := by exact_mod_cast q1
  have hq2 : (2 : ℚ) ^ Q ≤ 2 * (x.den : ℚ) := by exact_mod_cast q2
  have hk : (2 : ℚ) ^ ((P : Int) - (Q : Int)) = 2 ^ P / 2 ^ Q := by
    rw [zpow_sub₀ (by norm_num), zpow_natCast, zpow_natCast]
  have hQpos : (0 : ℚ) < 2 ^ Q := by positivity
  have hPpos : (0 : ℚ) < 2 ^ P := by positivity
  -- x < 2^(k+1) and 2^(k-1) < x
  have hup : x < (2 : ℚ) ^ ((P : Int) - (Q : Int)) * 2 := by
    rw [hk, hxe, div_mul_eq_mul_div, div_lt_div_iff₀ hq0 hQpos]
    nlinarith
  have hlow : (2 : ℚ) ^ ((P : Int) - (Q : Int)) / 2 < x := by
    rw [hk, hxe, div_div, div_lt_div_iff₀ (by positivity) hq0]
    nlinarith
  unfold Binary64.floorLog2
  simp only []
  rw [← hP, ← hQ]
  by_cases h : (2 : ℚ) ^ ((P : Int) - (Q : Int)) ≤ x
  · rw [if_pos h]
    refine ⟨h, ?_⟩
    rw [zpow_add_one₀ (by norm_num)]
    exact hup
  · rw [if_neg h]
    refine ⟨?_, ?_⟩
    · rw [zpow_sub_one₀ (by norm_num)]
      have : (2 : ℚ) ^ ((P : Int) - (Q : Int)) * 2⁻¹ = (2 : ℚ) ^ ((P : Int) - (Q : Int)) / 2 := by
        rw [div_eq_mul_inv]
      rw [this]
      exact hlow.le
    · rw [sub_add_cancel]
      exact lt_of_not_le h

/-- The value of `roundHalfEven` is an integer nearest to `y`. -/
theorem roundHalfEven_spec (y : ℚ) : |(Binary64.roundHalfEven y : ℚ) - y| ≤ 1 / 2 := by
  have h1 : (⌊y⌋ : ℚ) ≤ y := Int.floor_le y
  have h2 : y < (⌊y⌋ : ℚ) + 1 := Int.lt_floor_add_one y
  unfold Binary64.roundHalfEven
  split_ifs with ha hb hc
  · rw [abs_le]; constructor <;> linarith
  · rw [abs_le]; push_cast; constructor <;> linarith
  · rw [abs_le]; push_cast at ha hb ⊢; constructor <;> linarith
  · rw [abs_le]; push_cast at ha hb ⊢; constructor <;> linarith

/-- An integer is rounded to itself. -/
theorem roundHalfEven_int (m : Int) : Binary64.roundHalfEven (m : ℚ) = m := by
  unfold Binary64.roundHalfEven
  rw [Int.floor_intCast, sub_self, if_pos (by norm_num)]

/-- What `Binary64.round` yields is a multiple of the spacing `2^e` of the binary64 numbers
around `x` and differs from `x` by at most half of that spacing. -/
theorem round_nearest_binary64 (x r : ℚ) (hx : x ≠ 0) (h : Binary64.round x = some r) :
    (∃ m : Int, r = (m : ℚ) * 2 ^ Binary64.ulpExponent x) ∧
    |r - x| ≤ 2 ^ Binary64.ulpExponent x / 2 := by
  unfold Binary64.round at h
  rw [if_neg hx] at h
  simp only [] at h
  split_ifs at h
  have hr := Option.some.inj h
  have hpos : (0 : ℚ) < 2 ^ Binary64.ulpExponent x := by positivity
  refine ⟨⟨_, hr.symm⟩, ?_⟩
  rw [← hr]
  have e : (Binary64.roundHalfEven (x / 2 ^ Binary64.ulpExponent x) : ℚ) *
      2 ^ Binary64.ulpExponent x - x =
      ((Binary64.roundHalfEven (x / 2 ^ Binary64.ulpExponent x) : ℚ) -
        x / 2 ^ Binary64.ulpExponent x) * 2 ^ Binary64.ulpExponent x := by
    field_simp
  rw [e, abs_mul, abs_of_pos hpos]
  have := roundHalfEven_spec (x / 2 ^ Binary64.ulpExponent x)
  calc _ ≤ 1 / 2 * 2 ^ Binary64.ulpExponent x := mul_le_mul_of_nonneg_right this hpos.le
    _ = 2 ^ Binary64.ulpExponent x / 2 := by ring

/-- An integer of at most 53 binary digits is a binary64 number. -/
theorem round_int_binary64 (m : Int) (hm : |m| ≤ 2 ^ 53) : Binary64.round (m : ℚ) = some (m : ℚ) := by
  by_cases h0 : m = 0
  · subst h0
    simp [Binary64.round]
  have hx : (m : ℚ) ≠ 0 := Int.cast_ne_zero.mpr h0
  have habs : (0 : ℚ) < |(m : ℚ)| := abs_pos.mpr hx
  obtain ⟨l1, l2⟩ := floorLog2_spec |(m : ℚ)| habs
  set k := Binary64.floorLog2 |(m : ℚ)| with hk
  have hmq : |(m : ℚ)| ≤ 2 ^ 53 := by
    have : ((|m| : Int) : ℚ) ≤ ((2 ^ 53 : Int) : ℚ) := Int.cast_le.mpr hm
    simpa using this
  have hone : (1 : ℚ) ≤ |(m : ℚ)| := by
    have : (1 : Int) ≤ |m| := Int.one_le_abs h0
    have : ((1 : Int) : ℚ) ≤ ((|m| : Int) : ℚ) := Int.cast_le.mpr this
    simpa using this
  -- 0 ≤ k ≤ 53
  have hk0 : 0 ≤ k := by
    by_contra hneg
    push_neg at hneg
    have : (2 : ℚ) ^ (k + 1) ≤ 2 ^ (0 : Int) := zpow_le_zpow_right₀ (by norm_num) (by omega)
    rw [zpow_zero] at this
    linarith
  have hk53 : k ≤ 53 := by
    by_contra hbig
    push_neg at hbig
    have : (2 : ℚ) ^ (54 : Int) ≤ 2 ^ k := zpow_le_zpow_right₀ (by norm_num) (by omega)
    have e : (2 : ℚ) ^ (54 : Int) = 2 ^ 54 := by norm_cast
    rw [e] at this
    have : (2 : ℚ) ^ 54 ≤ 2 ^ 53 := by linarith
    norm_num at this
  have hulp : Binary64.ulpExponent (m : ℚ) = k - 52 := by
    unfold Binary64.ulpExponent
    rw [← hk]
    omega
  -- two cases: k ≤ 52 (exponent ≤ 0) and k = 53 (m = ± 2^53)
  unfold Binary64.round
  rw [if_neg hx]
  simp only []
  rw [hulp]
  have key : ((Binary64.roundHalfEven ((m : ℚ) / 2 ^ (k - 52)) : Int) : ℚ) * 2 ^ (k - 52) =
      (m : ℚ) := by
    by_cases hle : k ≤ 52
    · obtain ⟨j, hj⟩ : ∃ j : Nat, (j : Int) = 52 - k := ⟨(52 - k).toNat, by omega⟩
      have e1 : (2 : ℚ) ^ (k - 52) = ((2 : ℚ) ^ j)⁻¹ := by
        have : k - 52 = -(j : Int) := by omega
        rw [this, zpow_neg, zpow_natCast]
      rw [e1, div_inv_eq_mul]
      have e2 : (m : ℚ) * 2 ^ j = ((m * 2 ^ j : Int) : ℚ) := by push_cast; ring
      rw [e2, roundHalfEven_int]
      push_cast
      field_simp
    · have hk' : k = 53 := by omega
      rw [hk'] at l1
      have e53 : (2 : ℚ) ^ (53 : Int) = 2 ^ 53 := by norm_cast
      rw [e53] at l1
      have habs53 : |(m : ℚ)| = 2 ^ 53 := le_antisymm hmq l1
      rw [hk']
      have e1 : (2 : ℚ) ^ ((53 : Int) - 52) = 2 := by norm_num
      rw [e1]
      rcases abs_choice (m : ℚ) with hp | hn
      · rw [hp] at habs53
        rw [habs53]
        have : ((2 : ℚ) ^ 53 / 2) = ((2 ^ 52 : Int) : ℚ) := by norm_num
        rw [this, roundHalfEven_int]
        norm_num
      · rw [hn] at habs53
        have hm' : (m : ℚ) = -(2 ^ 53) := by linarith
        rw [hm']
        have : (-(2 : ℚ) ^ 53 / 2) = ((-(2 ^ 52) : Int) : ℚ) := by norm_num
        rw [this, roundHalfEven_int]
        norm_num
  rw [key, if_pos]
  calc |(m : ℚ)| ≤ 2 ^ 53 := hmq
    _ < 2 ^ (1024 : Int) := by
      have e : (2 : ℚ) ^ (53 : Nat) = 2 ^ (53 : Int) := by norm_cast
      rw [e]
      exact zpow_lt_zpow_right₀ (by norm_num) (by norm_num)

/-- The loop of `sqrtBits` keeps `acc² ≤ n < (acc + 2^bits)²` and ends with the integer
square root. -/
theorem sqrtBits_spec (n : Nat) : ∀ bits acc : Nat, acc * acc ≤ n →
    n < (acc + 2 ^ bits) * (acc + 2 ^ bits) →
    Binary64.sqrtBits n bits acc * Binary64.sqrtBits n bits acc ≤ n ∧
      n < (Binary64.sqrtBits n bits acc + 1) * (Binary64.sqrtBits n bits acc + 1) := by
  intro bits
  induction bits with
  | zero =>
    intro acc h1 h2
    simpa [Binary64.sqrtBits] using ⟨h1, h2⟩
  | succ bits ih =>
    intro acc h1 h2
    unfold Binary64.sqrtBits
    by_cases h : (acc + 2 ^ bits) * (acc + 2 ^ bits) ≤ n
    · rw [if_pos h]
      apply ih _ h
      have e : acc + 2 ^ bits + 2 ^ bits = acc + 2 ^ (bits + 1) := by rw [pow_succ]; ring
      rw [e]
      exact h2
    · rw [if_neg h]
      exact ih _ h1 (lt_of_not_le h)

/-- The value of `natSqrt` is the integer square root. -/
theorem natSqrt_spec (n : Nat) :
    Binary64.natSqrt n * Binary64.natSqrt n ≤ n ∧
      n < (Binary64.natSqrt n + 1) * (Binary64.natSqrt n + 1) := by
  unfold Binary64.natSqrt
  apply sqrtBits_spec n _ 0 (Nat.zero_le _)
  have h := (bitLength_spec n n le_rfl).1
  rw [Nat.zero_add]
  calc n < 2 ^ Binary64.bitLength n n := h
    _ ≤ 2 ^ Binary64.bitLength n n * 2 ^ Binary64.bitLength n n :=
      Nat.le_mul_of_pos_right _ (by positivity)

/-- What `Binary64.sqrt` yields for `x > 0` is a multiple `m * 2^e` of the spacing of the
binary64 numbers around the root, with a significand `m` of 53 binary digits (or `2^53`),
and the square root of `x` lies between `(m - 1/2) * 2^e` and `(m + 1/2) * 2^e`. -/
theorem sqrt_nearest_binary64 (x r : ℚ) (hx : 0 < x) (h : Binary64.sqrt x = some r) :
    ∃ (m : Nat) (e : Int), r = (m : ℚ) * 2 ^ e ∧ 2 ^ 52 ≤ m ∧ m ≤ 2 ^ 53 ∧
      (((m : ℚ) - 1 / 2) * 2 ^ e) ^ 2 ≤ x ∧ x ≤ (((m : ℚ) + 1 / 2) * 2 ^ e) ^ 2 := by
  obtain ⟨l1, l2⟩ := floorLog2_spec x hx
  set k := Binary64.floorLog2 x with hk
  unfold Binary64.sqrt at h
  rw [if_neg (not_lt.mpr hx.le), if_neg hx.ne'] at h
  simp only [] at h
  rw [← hk] at h
  set e : Int := k / 2 - 52 with he
  have h4 : (4 : ℚ) ^ e = (2 ^ e) ^ 2 := by
    rw [show (4 : ℚ) = 2 ^ 2 by norm_num, ← zpow_natCast, ← zpow_mul, mul_comm, zpow_mul,
      zpow_natCast]
  have h2e : (0 : ℚ) < 2 ^ e := by positivity
  have h4e : (0 : ℚ) < 4 ^ e := by positivity
  set y : ℚ := x / 4 ^ e with hy
  have hxy : x = y * (2 ^ e) ^ 2 := by
    rw [hy, ← h4]
    field_simp
  -- bounds on y
  have hmod : k = 2 * (k / 2) + k % 2 := (Int.ediv_add_emod k 2).symm
  have hmod2 : 0 ≤ k % 2 ∧ k % 2 < 2 := ⟨Int.emod_nonneg _ (by norm_num),
    Int.emod_lt_of_pos _ (by norm_num)⟩
  have e4 : (4 : ℚ) ^ e = 2 ^ (2 * e) := by
    rw [zpow_mul, show ((2 : ℚ) ^ (2 : Int)) = 4 by norm_num]
  have hylow : (2 : ℚ) ^ (104 : Int) ≤ y := by
    rw [hy, le_div_iff₀ h4e, e4, ← zpow_add₀ (by norm_num)]
    calc (2 : ℚ) ^ (104 + 2 * e) ≤ 2 ^ k := zpow_le_zpow_right₀ (by norm_num) (by omega)
      _ ≤ x := l1
  have hyup : y < (2 : ℚ) ^ (106 : Int) := by
    rw [hy, div_lt_iff₀ h4e, e4, ← zpow_add₀ (by norm_num)]
    calc x < 2 ^ (k + 1) := l2
      _ ≤ (2 : ℚ) ^ (106 + 2 * e) := zpow_le_zpow_right₀ (by norm_num) (by omega)
  have hy0 : 0 ≤ y := le_trans (by positivity) hylow
  obtain ⟨s1, s2⟩ := natSqrt_spec ⌊y⌋₊
  set n := Binary64.natSqrt ⌊y⌋₊ with hn
  have f1 : ((⌊y⌋₊ : Nat) : ℚ) ≤ y := Nat.floor_le hy0
  have f2 : y < ((⌊y⌋₊ : Nat) : ℚ) + 1 := Nat.lt_floor_add_one y
  have n1 : (n : ℚ) * n ≤ y := by
    have : ((n * n : Nat) : ℚ) ≤ ((⌊y⌋₊ : Nat) : ℚ) := Nat.cast_le.mpr s1
    push_cast at this
    linarith
  have n2 : y < ((n : ℚ) + 1) * ((n : ℚ) + 1) := by
    have : (((⌊y⌋₊ + 1 : Nat)) : ℚ) ≤ (((n + 1) * (n + 1) : Nat) : ℚ) := Nat.cast_le.mpr s2
    push_cast at this
    linarith
  have e104 : (2 : ℚ) ^ (104 : Int) = (2 ^ 52) * (2 ^ 52) := by norm_num
  have e106 : (2 : ℚ) ^ (106 : Int) = (2 ^ 53) * (2 ^ 53) := by norm_num
  have hnlow : 2 ^ 52 ≤ n := by
    by_contra hc
    push_neg at hc
    have : n + 1 ≤ 2 ^ 52 := hc
    have : ((n + 1 : Nat) : ℚ) ≤ ((2 ^ 52 : Nat) : ℚ) := Nat.cast_le.mpr this
    push_cast at this
    have h0 : (0 : ℚ) ≤ (n : ℚ) + 1 := by positivity
    have : ((n : ℚ) + 1) * ((n : ℚ) + 1) ≤ (2 ^ 52) * (2 ^ 52) :=
      mul_le_mul this this h0 (by positivity)
    linarith
  have hnup : n + 1 ≤ 2 ^ 53 := by
    by_contra hc
    push_neg at hc
    have : 2 ^ 53 ≤ n := by omega
    have : ((2 ^ 53 : Nat) : ℚ) ≤ (n : ℚ) := Nat.cast_le.mpr this
    push_cast at this
    have : ((2 : ℚ) ^ 53) * (2 ^ 53) ≤ (n : ℚ) * n :=
      mul_le_mul this this (by positivity) (by positivity)
    linarith
  have hnq : (1 : ℚ) ≤ (n : ℚ) := by
    have : 1 ≤ n := le_trans (by norm_num) hnlow
    exact_mod_cast this
  by_cases hlt : y < ((n : ℚ) + 1 / 2) ^ 2
  · rw [if_pos hlt] at h
    refine ⟨n, e, (Option.some.inj h).symm, hnlow, by omega, ?_, ?_⟩
    · rw [hxy, mul_pow]
      apply mul_le_mul_of_nonneg_right _ (by positivity)
      nlinarith
    · rw [hxy, mul_pow]
      exact mul_le_mul_of_nonneg_right hlt.le (by positivity)
  · rw [if_neg hlt] at h
    refine ⟨n + 1, e, (Option.some.inj h).symm, by omega, hnup, ?_, ?_⟩
    · rw [hxy, mul_pow]
      apply mul_le_mul_of_nonneg_right _ (by positivity)
      push_cast
      have := not_lt.mp hlt
      nlinarith
    · rw [hxy, mul_pow]
      apply mul_le_mul_of_nonneg_right _ (by positivity)
      push_cast
      nlinarith

/-- Multiples `i * z` of an integer `z`, up to `size * z` of at most 53 binary digits. -/
theorem abs_mul_le_of_le (z : Int) (i size : Nat) (hi : i ≤ size)
    (hz : |z| * (size : Int) ≤ 2 ^ 53) : |(i : Int) * z| ≤ 2 ^ 53 := by
  rw [abs_mul, Nat.abs_cast, mul_comm]
  calc |z| * (i : Int) ≤ |z| * (size : Int) :=
        mul_le_mul_of_nonneg_left (by exact_mod_cast hi) (abs_nonneg z)
    _ ≤ 2 ^ 53 := hz

/-- The `double` sum of `i` copies of an integer `z` is `i * z` without rounding, as long
as `size * z` has at most 53 binary digits. -/
theorem foldlM_add_int_binary64 (z : Int) (size : Nat) (hz : |z| * (size : Int) ≤ 2 ^ 53) :
    ∀ i : Nat, i ≤ size →
      (List.range i).foldlM (fun sum _ => Binary64.add sum (z : ℚ)) 0 =
        some (((i : Int) * z : Int) : ℚ) := by
  intro i
  induction i with
  | zero => intro _; simp
  | succ i ih =>
    intro hi
    rw [List.range_succ, List.foldlM_append, ih (by omega)]
    simp only [Option.bind_eq_bind, Option.some_bind, List.foldlM_cons, List.foldlM_nil,
      Binary64.add]
    have e : ((((i : Int) * z : Int) : ℚ)) + (z : ℚ) = ((((i + 1 : Nat) : Int) * z : Int) : ℚ) := by
      push_cast; ring
    rw [e, round_int_binary64 _ (abs_mul_le_of_le z (i + 1) size hi hz)]
    rfl

/-- The `long` sum of `i` copies of `z` is `i * z` without wrapping, as long as `size * z`
has at most 53 binary digits. -/
theorem foldl_wrapLong_int (z : Int) (size : Nat) (hz : |z| * (size : Int) ≤ 2 ^ 53) :
    ∀ i : Nat, i ≤ size →
      (List.range i).foldl (fun sum _ => Binary64.wrapLong (sum + z)) 0 = (i : Int) * z := by
  intro i
  induction i with
  | zero => intro _; simp
  | succ i ih =>
    intro hi
    rw [List.range_succ, List.foldl_append, ih (by omega)]
    simp only [List.foldl_cons, List.foldl_nil]
    have hb := abs_mul_le_of_le z (i + 1) size hi hz
    have e : (i : Int) * z + z = ((i + 1 : Nat) : Int) * z := by push_cast; ring
    rw [e]
    rw [abs_le] at hb
    unfold Binary64.wrapLong
    have h1 : (0 : Int) ≤ ((i + 1 : Nat) : Int) * z + 2 ^ 63 := by
      have : (-(2 : Int) ^ 53) ≤ ((i + 1 : Nat) : Int) * z := hb.1
      norm_num at this ⊢
      omega
    have h2 : ((i + 1 : Nat) : Int) * z + 2 ^ 63 < 2 ^ 64 := by
      have : ((i + 1 : Nat) : Int) * z ≤ 2 ^ 53 := hb.2
      norm_num at this ⊢
      omega
    rw [Int.emod_eq_of_lt h1 h2]
    ring

/-- The mean that `getMean` computes for `size` copies of an integer `z` is `z` itself, in
the `double` and in the `long` variants, when `size * z` has at most 53 binary digits. -/
theorem getMean_int_binary64 (z : Int) (size : Nat) (hsize : size ≠ 0)
    (hz : |z| * (size : Int) ≤ 2 ^ 53) :
    Binary64.getMean (fun _ => (z : ℚ)) size = some (z : ℚ) ∧
    Binary64.getMeanLong (fun _ => z) size = some (z : ℚ) := by
  have hs : ((size : ℚ)) ≠ 0 := Nat.cast_ne_zero.mpr hsize
  have hzb : |z| ≤ 2 ^ 53 := by
    have := abs_mul_le_of_le z 1 size (by omega) hz
    simpa using this
  have hdiv : Binary64.div ((((size : Int) * z : Int)) : ℚ) (size : ℚ) = some (z : ℚ) := by
    unfold Binary64.div
    rw [if_neg hs]
    have e : ((((size : Int) * z : Int)) : ℚ) / (size : ℚ) = (z : ℚ) := by
      push_cast
      field_simp
    rw [e, round_int_binary64 z hzb]
  constructor
  · unfold Binary64.getMean
    rw [foldlM_add_int_binary64 z size hz size le_rfl]
    simp only [Option.bind_eq_bind, Option.some_bind]
    exact hdiv
  · unfold Binary64.getMeanLong
    simp only []
    rw [foldl_wrapLong_int z size hz size le_rfl]
    unfold Binary64.ofLong
    rw [round_int_binary64 _ (abs_mul_le_of_le z size size le_rfl hz)]
    simp only [Option.bind_eq_bind, Option.some_bind]
    exact hdiv

/-! ## The statistics in the arithmetic of `double` -/

/-- Claim C2 fails in the arithmetic of the program.  In `sequential_final.cpp` the pilot
samples 14, 14, 19, 9, 14 have the mean 14 and the variance 12.5; `getSD` computes
`s0 = 3.5355339059327378`, the `double` nearest to the square root of 12.5 and slightly
above it.  The expression of line 135 evaluates to exactly 98.0 and `noOfRequiredSamples`
is 98, although `(196*s0)² / (5*m0)²` is greater than 98 for these `s0` and `m0`: the
least integer not below it, the value of the formula without rounding, is 99.  The pilot
samples 23, 5, 27, 1, 14 have the mean 14 and the variance 125: the program computes
`s0 = 11.180339887498949` and the count 981, whereas `(196² * 125) / (5 * 14)²` is 980. -/
theorem required_count_is_not_the_least_integer :
    Binary64.getMeanLong (trialsOf [14, 14, 19, 9, 14] 0) 5 = some 14 ∧
    Binary64.getSDLong (trialsOf [14, 14, 19, 9, 14] 0) 5 14 =
      some (124395540479019 / 35184372088832) ∧
    Binary64.requiredSamples (124395540479019 / 35184372088832) 14 = some 98 ∧
    ((98 : Int) : ℚ) < (196 * (124395540479019 / 35184372088832)) ^ 2 / (5 * 14) ^ 2 ∧
    requiredSamples (124395540479019 / 35184372088832 : ℚ) 14 = some 99 ∧
    Binary64.getMeanLong (trialsOf [23, 5, 27, 1, 14] 0) 5 = some 14 ∧
    Binary64.getSDLong (trialsOf [23, 5, 27, 1, 14] 0) 5 14 =
      some (3146985909450985 / 281474976710656) ∧
    Binary64.requiredSamples (3146985909450985 / 281474976710656) 14 = some 981 ∧
    ⌈((196 : ℚ) ^ 2 * 125) / (5 * 14) ^ 2⌉ = 980 := by
  decide!

/-- Claim C11 fails in the arithmetic of the program.  Three durations of 0.1 ms (the
`double` nearest to 1/10): `getMean` returns `0.10000000000000002`, and three times this
value is not the sum of the samples.  Two `long` durations of `2^62`: their sum does not
fit a `long`, `sum` wraps to `-2^63` and `getMean` returns `-2^62`. -/
theorem getMean_rounds_and_long_sum_wraps :
    Binary64.round (1 / 10) = some (3602879701896397 / 36028797018963968) ∧
    Binary64.getMean (fun _ => 3602879701896397 / 36028797018963968) 3 =
      some (7205759403792795 / 72057594037927936) ∧
    (7205759403792795 / 72057594037927936 : ℚ) * 3 ≠
      3602879701896397 / 36028797018963968 + 3602879701896397 / 36028797018963968 +
        3602879701896397 / 36028797018963968 ∧
    Binary64.getMeanLong (fun _ => 2 ^ 62) 2 = some (-(2 ^ 62)) ∧
    (-(2 ^ 62) : ℚ) * 2 ≠ (((2 : Int) ^ 62 + 2 ^ 62 : Int) : ℚ) := by
  decide!

/-- Claim C12 fails in the arithmetic of the program.  The samples 4, 5, 9 with their mean
6: the squared deviations add up to 14, the variance is 7, and `getSD` computes
`sd = 2.6457513110645907`, the `double` nearest to the square root of 7.  Its square is not
7 (no `double` has the square 7), and the rounded product `sd * sd` is
`7.000000000000001`. -/
theorem getSD_square_is_not_the_variance :
    Binary64.getMean (trialsOf [4, 5, 9] 0) 3 = some 6 ∧
    Binary64.getSD (trialsOf [4, 5, 9] 0) 3 6 = some (2978851154656373 / 1125899906842624) ∧
    (2978851154656373 / 1125899906842624 : ℚ) ^ 2 ≠
      ((4 - 6) ^ 2 + (5 - 6) ^ 2 + (9 - 6) ^ 2) / (3 - 1) ∧
    Binary64.mul (2978851154656373 / 1125899906842624) (2978851154656373 / 1125899906842624) =
      some (7881299347898369 / 1125899906842624) ∧
    (7881299347898369 / 1125899906842624 : ℚ) ≠ 7 := by
  decide!

/-- Claim C13 fails in the arithmetic of the program.  Ten durations of 0.1 ms (the
`double` nearest to 1/10) in a `double` variant: `getMean` returns `0.09999999999999999`,
which is not the common value, and `getSD` about this mean computes `1.46e-17`, not 0; the
required count is then 1, not 0. -/
theorem identical_samples_with_nonzero_deviation :
    Binary64.round (1 / 10) = some (3602879701896397 / 36028797018963968) ∧
    Binary64.getMean (fun _ => 3602879701896397 / 36028797018963968) 10 =
      some (7205759403792793 / 72057594037927936) ∧
    Binary64.getSD (fun _ => 3602879701896397 / 36028797018963968) 10
        (7205759403792793 / 72057594037927936) =
      some (2373605415329393 / 162259276829213363391578010288128) ∧
    (2373605415329393 / 162259276829213363391578010288128 : ℚ) ≠ 0 ∧
    Binary64.requiredSamples (2373605415329393 / 162259276829213363391578010288128)
        (7205759403792793 / 72057594037927936) = some 1 := by
  decide!

/-- Claim C25 fails in the arithmetic of the program.  The ten pilot durations 452, 332,
412, 372, 397, 387, 397, 387, 392, 392 ms in `Final/optimized_parallel.cpp` have the mean
392 and the deviation 30; the required count is 9 and the controller stops at the pilot
phase.  The same durations in seconds (each multiplied by the `double` nearest to 0.001)
have the mean `0.392` and the deviation `0.03000000000000001`, which is not 0.001 times 30;
the required count is 10 and the controller runs the second round (ten further trials,
here of 0.5 s each). -/
theorem decision_depends_on_the_time_unit :
    Binary64.round (1 / 1000) = some (1152921504606847 / 1152921504606846976) ∧
    ((List.range 10).mapM fun i => Binary64.mul (1152921504606847 / 1152921504606846976)
        (trialsOf [452, 332, 412, 372, 397, 387, 397, 387, 392, 392] 500 i)) =
      some [8142508126285857 / 18014398509481984, 5980780305148019 / 18014398509481984,
        3710966092953289 / 9007199254740992, 3350678122763649 / 9007199254740992,
        1787929052066087 / 4503599627370496, 871446527896191 / 2251799813685248,
        1787929052066087 / 4503599627370496, 871446527896191 / 2251799813685248,
        3530822107858469 / 9007199254740992, 3530822107858469 / 9007199254740992] ∧
    Binary64.mainBody 10 (trialsOf [452, 332, 412, 372, 397, 387, 397, 387, 392, 392] 500) =
      some ⟨false, 10, 9, 10, 392, 30⟩ ∧
    Binary64.getMean (trialsOf [8142508126285857 / 18014398509481984,
        5980780305148019 / 18014398509481984, 3710966092953289 / 9007199254740992,
        3350678122763649 / 9007199254740992, 1787929052066087 / 4503599627370496,
        871446527896191 / 2251799813685248, 1787929052066087 / 4503599627370496,
        871446527896191 / 2251799813685248, 3530822107858469 / 9007199254740992,
        3530822107858469 / 9007199254740992] (1 / 2)) 10 =
      some (3530822107858469 / 9007199254740992) ∧
    Binary64.getSD (trialsOf [8142508126285857 / 18014398509481984,
        5980780305148019 / 18014398509481984, 3710966092953289 / 9007199254740992,
        3350678122763649 / 9007199254740992, 1787929052066087 / 4503599627370496,
        871446527896191 / 2251799813685248, 1787929052066087 / 4503599627370496,
        871446527896191 / 2251799813685248, 3530822107858469 / 9007199254740992,
        3530822107858469 / 9007199254740992] (1 / 2)) 10
        (3530822107858469 / 9007199254740992) =
      some (8646911284551355 / 288230376151711744) ∧
    Binary64.mul (1152921504606847 / 1152921504606846976) 30 =
      some (1080863910568919 / 36028797018963968) ∧
    (8646911284551355 / 288230376151711744 : ℚ) ≠ 1080863910568919 / 36028797018963968 ∧
    Binary64.mainBody 10 (trialsOf [8142508126285857 / 18014398509481984,
        5980780305148019 / 18014398509481984, 3710966092953289 / 9007199254740992,
        3350678122763649 / 9007199254740992, 1787929052066087 / 4503599627370496,
        871446527896191 / 2251799813685248, 1787929052066087 / 4503599627370496,
        871446527896191 / 2251799813685248, 3530822107858469 / 9007199254740992,
        3530822107858469 / 9007199254740992] (1 / 2)) =
      some ⟨true, 20, 10, 10, 1 / 2, 0⟩ := by
  decide!

/-! ## Identical samples in the arithmetic of `double` -/

/-- Zero is a binary64 number. -/
theorem round_zero_binary64 : Binary64.round 0 = some 0 := by
  unfold Binary64.round
  rw [if_pos rfl]

/-- A loop that adds rounded zeros to a sum that starts at zero ends with zero. -/
theorem foldlM_zero_binary64 (f : ℚ → Nat → Option ℚ) (h : ∀ i, f 0 i = some 0) (l : List Nat) :
    l.foldlM f 0 = some 0 := by
  induction l with
  | nil => rfl
  | cons a l ih => rw [List.foldlM_cons, h a]; exact ih

/-- The deviation that `getSD` computes for identical samples about their common value is
0: every difference, square and partial sum is exactly 0. -/
theorem getSD_about_common_value (size : Nat) (hsize : 2 ≤ size) (v : ℚ) (z : Int)
    (hz : Binary64.ofLong z = some (z : ℚ)) :
    Binary64.getSD (fun _ => v) size v = some 0 ∧
    Binary64.getSDLong (fun _ => z) size (z : ℚ) = some 0 := by
  have hd : ((((size : Int) - 1 : Int)) : ℚ) ≠ 0 := by
    have : ((size : Int) - 1 : Int) ≠ 0 := by omega
    exact_mod_cast this
  have hdiv : Binary64.div 0 ((((size : Int) - 1 : Int)) : ℚ) = some 0 := by
    unfold Binary64.div
    rw [if_neg hd, zero_div, round_zero_binary64]
  have hsqrt : Binary64.sqrt 0 = some 0 := by
    unfold Binary64.sqrt
    rw [if_neg (lt_irrefl 0), if_pos rfl]
  constructor
  · unfold Binary64.getSD
    have hbody : ∀ i : Nat, (do
        let temp ← Binary64.sub ((fun _ => v) i) v
        let temp ← Binary64.pow2 temp
        Binary64.add 0 temp) = some 0 := by
      intro i
      simp only [Binary64.sub, Binary64.pow2, Binary64.add, sub_self, round_zero_binary64,
        Option.bind_eq_bind, Option.some_bind, mul_zero, add_zero]
    rw [foldlM_zero_binary64 _ hbody]
    simp only [Option.bind_eq_bind, Option.some_bind, hdiv, hsqrt]
  · unfold Binary64.getSDLong
    have hbody : ∀ i : Nat, (do
        let sample ← Binary64.ofLong ((fun _ => z) i)
        let temp ← Binary64.sub sample (z : ℚ)
        let temp ← Binary64.pow2 temp
        Binary64.add 0 temp) = some 0 := by
      intro i
      simp only [hz, Binary64.sub, Binary64.pow2, Binary64.add, sub_self, round_zero_binary64,
        Option.bind_eq_bind, Option.some_bind, mul_zero, add_zero]
    rw [foldlM_zero_binary64 _ hbody]
    simp only [Option.bind_eq_bind, Option.some_bind, hdiv, hsqrt]

/-- Claim C13, as amended.  Zero spread, in the arithmetic of `double`: for every sample
set of at least two samples whose values are all identical, if the mean computed by
`getMean` on that set is the common value, then the standard deviation computed by `getSD`
with this mean is exactly 0.  The mean is the common value for every integer-valued sample
`z` with `|z| * size ≤ 2^53`, in the `double` variants and in the `long` variants, whose
samples are integers: there the standard deviation of identical samples is exactly 0. -/
theorem identical_samples_zero_deviation (v : ℚ) (z : Int) (size : Nat) (hsize : 2 ≤ size)
    (hmean : Binary64.getMean (fun _ => v) size = some v)
    (hz : |z| * (size : Int) ≤ 2 ^ 53) :
    ((Binary64.getMean (fun _ => v) size).bind fun mean =>
      Binary64.getSD (fun _ => v) size mean) = some 0 ∧
    (Binary64.getMean (fun _ => (z : ℚ)) size = some (z : ℚ) ∧
      ((Binary64.getMean (fun _ => (z : ℚ)) size).bind fun mean =>
        Binary64.getSD (fun _ => (z : ℚ)) size mean) = some 0) ∧
    (Binary64.getMeanLong (fun _ => z) size = some (z : ℚ) ∧
      ((Binary64.getMeanLong (fun _ => z) size).bind fun mean =>
        Binary64.getSDLong (fun _ => z) size mean) = some 0) := by
  have hzb : |z| ≤ 2 ^ 53 := by
    have := abs_mul_le_of_le z 1 size (by omega) hz
    simpa using this
  have hof : Binary64.ofLong z = some (z : ℚ) := round_int_binary64 z hzb
  obtain ⟨m1, m2⟩ := getMean_int_binary64 z size (by omega) hz
  refine ⟨?_, ⟨m1, ?_⟩, ⟨m2, ?_⟩⟩
  · rw [hmean, Option.some_bind]
    exact (getSD_about_common_value size hsize v z hof).1
  · rw [m1, Option.some_bind]
    exact (getSD_about_common_value size hsize (z : ℚ) z hof).1
  · rw [m2, Option.some_bind]
    exact (getSD_about_common_value size hsize v z hof).2

/-- Instance of `identical_samples_zero_deviation`: ten durations of 0.5 in a `double`
variant, whose sum 5 and mean 0.5 are computed without rounding, and ten durations of 100
in a `long` variant. -/
theorem identical_samples_zero_deviation_witness :
    (2 ≤ 10 ∧ Binary64.getMean (fun _ => 1 / 2) 10 = some (1 / 2) ∧
      |(100 : Int)| * ((10 : Nat) : Int) ≤ 2 ^ 53) ∧
    Binary64.getSD (fun _ => 1 / 2) 10 (1 / 2) = some 0 ∧
    Binary64.getMeanLong (fun _ => 100) 10 = some 100 ∧
    Binary64.getSDLong (fun _ => 100) 10 100 = some 0 := by
  have hm : Binary64.getMean (fun _ => 1 / 2) 10 = some (1 / 2) := by decide!
  have hz : |(100 : Int)| * ((10 : Nat) : Int) ≤ 2 ^ 53 := by decide
  obtain ⟨h1, _, h3, h4⟩ := identical_samples_zero_deviation (1 / 2) 100 10 (by decide) hm hz
  rw [hm] at h1
  rw [h3] at h4
  exact ⟨⟨by decide, hm, hz⟩, h1, by simpa using h3, by simpa using h4⟩
